import Mathlib

/-!
# QuickPather: grid pathfinding (`GridPather`)

A shallow embedding of `src/quickpather/gridpather.cpp`.

Modelling conventions.

* `qreal` coordinates and costs are rationals, the values of finite doubles. In
  the cell-centre check of `moveEntityTo`, whose outcome depends on it, every
  `double` operation is rounded to binary64 (`toDouble`) and every conversion to
  `int` is checked against the 32-bit range. The node positions and the costs
  of the search are added and compared exactly.
* `int` values are mathematical integers; `mCellSize` is an `int`, and where a
  statement depends on it the range is a hypothesis.
* A `QuickEntity *` is identified by the field `ident` (pointer identity);
  a null pointer is `none`.
* Shared node pointers are modelled by value: a node stored in the open or
  closed list is never written to again by `moveEntityTo`, so sharing is not
  observable.
* Operations whose C++ behaviour is undefined (integer remainder by zero, a
  conversion of a `double` outside the range of `int`, `int` overflow,
  out-of-range `QVector::at`, calling through a null agent) return `none`.
* Signals, logging and the visualisation hooks have no effect on the state
  and are left out.
-/

namespace QuickPather

/-! ## Points -/

/-- A `QPointF`. -/
structure QPointF where
  x : ℚ
  y : ℚ
deriving DecidableEq

instance : Add QPointF := ⟨fun a b => ⟨a.x + b.x, a.y + b.y⟩⟩

/-- The product `QPointF * qreal`. -/
def QPointF.scale (p : QPointF) (c : ℚ) : QPointF := ⟨p.x * c, p.y * c⟩

def north : QPointF := ⟨0, -1⟩
def south : QPointF := ⟨0, 1⟩
def east : QPointF := ⟨1, 0⟩
def west : QPointF := ⟨-1, 0⟩

def straightDirections : List QPointF := [north, south, east, west]

def iterationLimit : Nat := 1000

/-- `INT_MIN` of a 32-bit `int`. -/
def intMin : Int := -2147483648

/-- `INT_MAX` of a 32-bit `int`. -/
def intMax : Int := 2147483647

/-- The conversion `int(d)` of a `double`: truncation toward zero; undefined
(`none`) when the truncated value is outside the range of `int`. -/
def truncToInt (d : ℚ) : Option Int :=
  let t := Int.tdiv d.num d.den
  if intMin ≤ t ∧ t ≤ intMax then some t else none

/-- The power `2 ^ e` for an integer exponent. -/
def pow2 (e : Int) : ℚ :=
  if 0 ≤ e then ((2 ^ e.toNat : Nat) : ℚ) else (((2 ^ (-e).toNat : Nat) : ℚ))⁻¹

/-- Rounding to the nearest integer, a tie to the even one. -/
def roundTiesEven (q : ℚ) : Int :=
  let f := ⌊q⌋
  if q - f < 1 / 2 then f
  else if 1 / 2 < q - f then f + 1
  else if f % 2 = 0 then f else f + 1

/-- The search for the binary exponent of `a > 0`: the greatest `e` not above
the start with `2 ^ e ≤ a`, the start less `fuel` at the least. -/
def binadeFrom (a : ℚ) : Nat → Int → Int
  | 0, e => e
  | fuel + 1, e => if pow2 e ≤ a then e else binadeFrom a fuel (e - 1)

/-- The result of a `double` operation whose exact value is `q`: `q` rounded
to binary64, 53 significant bits with the exponent at least -1022, to nearest
with ties to even. Values of magnitude `2 ^ 32` or more are handed on as they
are: they occur in the cell-centre check only, where the conversion to `int`
that follows is out of range whatever the rounding does. -/
def toDouble (q : ℚ) : ℚ :=
  if q = 0 ∨ 4294967296 ≤ |q| then q
  else
    let ulp := pow2 (binadeFrom |q| 1053 31 - 52)
    (roundTiesEven (q / ulp) : ℚ) * ulp

/-- Qt 5 `qRound(double)`:
`d >= 0.0 ? int(d + 0.5) : int(d - double(int(d-1)) + 0.5) + int(d-1)`,
in `double` arithmetic; undefined when a conversion or the `int` sum is out of
range. -/
def qRound (d : ℚ) : Option Int :=
  if d ≥ 0 then truncToInt (toDouble (d + 1 / 2))
  else
    match truncToInt (toDouble (d - 1)) with
    | none => none
    | some t =>
      match truncToInt (toDouble (toDouble (d - (t : ℚ)) + 1 / 2)) with
      | none => none
      | some u => if intMin ≤ u + t ∧ u + t ≤ intMax then some (u + t) else none

/-- The expression `qRound(v - mCellSize / 2) % mCellSize` of the cell-centre
check. `mCellSize / 2` is an `int` division, the subtraction a `double`
subtraction and `%` the C++ remainder; the remainder by zero and
`INT_MIN % -1` are undefined (`none`). -/
def cellCentreDiff (v : ℚ) (mCellSize : Int) : Option Int :=
  if mCellSize = 0 then none
  else
    match qRound (toDouble (v - ((Int.tdiv mCellSize 2 : Int) : ℚ))) with
    | none => none
    | some r => if r = intMin ∧ mCellSize = -1 then none else some (Int.tmod r mCellSize)

/-! ## Entities and agents -/

/-- A `QuickEntity`, as far as the pather looks at it: its identity, its
centre position at the time of the call and the characteristic the path cache
keys on. -/
structure QuickEntity where
  ident : Nat
  centrePos : QPointF
  shape : Nat
deriving DecidableEq

/-- The virtual `PassabilityAgent::isPassable(pos, entity)`. -/
abbrev PassabilityAgent := QPointF → QuickEntity → Bool

/-- The virtual `SteeringAgent::steerTo(entity, pos, delta)`; `σ` is the state
of the world the agent reads and writes (entity positions, physics bodies). -/
structure SteeringAgent (σ : Type) where
  steerTo : σ → Nat → QPointF → ℚ → Bool × σ

/-! ## Nodes -/

/-- A `GridPathNode`: position, costs and the `mParent` pointer (`origin` is a
node whose parent is null). The class declaration is not part of the sources
at hand; the fields are those `moveEntityTo` reads and writes. -/
inductive GridPathNode where
  | origin (pos : QPointF) (startCost targetCost : ℚ)
  | linked (pos : QPointF) (startCost targetCost : ℚ) (parent : GridPathNode)
deriving DecidableEq

namespace GridPathNode

/-- The constructor `GridPathNode(pos)`: no parent, costs zero. -/
def new (pos : QPointF) : GridPathNode := .origin pos 0 0

def pos : GridPathNode → QPointF
  | .origin p _ _ => p
  | .linked p _ _ _ => p

def startCost : GridPathNode → ℚ
  | .origin _ s _ => s
  | .linked _ s _ _ => s

def targetCost : GridPathNode → ℚ
  | .origin _ _ t => t
  | .linked _ _ t _ => t

def parent : GridPathNode → Option GridPathNode
  | .origin _ _ _ => none
  | .linked _ _ _ p => some p

def totalCost (n : GridPathNode) : ℚ := n.startCost + n.targetCost

def setParent (n parent : GridPathNode) : GridPathNode :=
  .linked n.pos n.startCost n.targetCost parent

def setStartCost : GridPathNode → ℚ → GridPathNode
  | .origin p _ t, s => .origin p s t
  | .linked p _ t par, s => .linked p s t par

def setTargetCost : GridPathNode → ℚ → GridPathNode
  | .origin p s _, t => .origin p s t
  | .linked p s _ par, t => .linked p s t par

/-- The walk `while (node) { shortestPath.push_front(node); node = node->parent(); }`:
the node and its ancestors, the oldest ancestor first. -/
def lineage : GridPathNode → List GridPathNode
  | .origin p s t => [.origin p s t]
  | .linked p s t par => lineage par ++ [.linked p s t par]

end GridPathNode

/-- Modelled from the spec: `totalScoreLessThan`, the comparison handed to
`std::min_element`; the open-list node with minimum `totalCost` is selected. -/
def totalScoreLessThan (lhs rhs : GridPathNode) : Bool :=
  decide (lhs.totalCost < rhs.totalCost)

/-- Modelled from the spec: `PathNodePosComp`, equality of nodes for list
membership is by position only. -/
def PathNodePosComp (node other : GridPathNode) : Bool :=
  decide (node.pos = other.pos)

/-- The loop of `std::min_element` from position `i` on, `best` being the
index of the smallest element seen so far and `bestVal` its value. -/
def minElementFrom {α : Type} (lt : α → α → Bool) (best : Nat) (bestVal : α) :
    Nat → List α → Nat
  | _, [] => best
  | i, x :: xs =>
    if lt x bestVal then minElementFrom lt i x (i + 1) xs
    else minElementFrom lt best bestVal (i + 1) xs

/-- The index `std::min_element` returns: the first element no other element
is smaller than; `none` on an empty range. -/
def minElement {α : Type} (lt : α → α → Bool) : List α → Option Nat
  | [] => none
  | x :: xs => some (minElementFrom lt 0 x 1 xs)

/-- The search policy `GridPathAgent` built from the target position. The class
is not part of the sources at hand; `moveEntityTo` calls these three members. -/
structure GridPathAgent where
  calculateStartCost : GridPathNode → ℚ
  calculateTargetCost : GridPathNode → ℚ
  isPathComplete : QuickEntity → QPointF → GridPathNode → Bool

/-! ## Path data, cache and pather state -/

/-- The class `GridPathData`. -/
structure GridPathData where
  mTargetPos : QPointF
  mNodes : List GridPathNode
  mCurrentNodeIndex : Int
deriving DecidableEq

/-- The constructor `GridPathData()`: `mCurrentNodeIndex(-1)`. -/
def GridPathData.new : GridPathData := ⟨⟨0, 0⟩, [], -1⟩

def GridPathData.isValid (d : GridPathData) : Bool := d.mCurrentNodeIndex != -1

/-- The key of a cache entry. -/
structure CacheKey where
  shape : Nat
  origin : QPointF
  target : QPointF
deriving DecidableEq

/-- Modelled from the spec: the class `PathCache`, which is not part of the
sources at hand. Entries are keyed by (entity shape, origin, target position),
are never changed once inserted and are handed out as copies. -/
structure PathCache where
  entries : List (CacheKey × GridPathData)
deriving DecidableEq

/-- Modelled from the spec: `PathCache::cachedData(entity, target)`; the entry
with exactly this shape, origin and target, or an invalid path data. -/
def PathCache.cachedData (c : PathCache) (entity : QuickEntity) (pos : QPointF) :
    GridPathData :=
  match c.entries.find? (fun e => decide (e.1 = ⟨entity.shape, entity.centrePos, pos⟩)) with
  | some e => e.2
  | none => GridPathData.new

/-- Modelled from the spec: `PathCache::addCachedData(entity, target, pathData)`;
the entries already stored stay as they are. -/
def PathCache.addCachedData (c : PathCache) (entity : QuickEntity) (pos : QPointF)
    (pathData : GridPathData) : PathCache :=
  ⟨(⟨entity.shape, entity.centrePos, pos⟩, pathData) :: c.entries⟩

/-- The tracking table `QHash<QuickEntity*, GridPathData> mData`. -/
abbrev EntityTable := AList (fun _ : Nat => GridPathData)

/-- The members of `GridPather`. -/
structure GridPather (σ : Type) where
  mCellSize : Int
  mTimer : Option Nat
  mPassabilityAgent : Option PassabilityAgent
  mSteeringAgent : Option (SteeringAgent σ)
  mPathCache : Option PathCache
  mData : EntityTable

/-- The constructor `GridPather::GridPather`. -/
def GridPather.new (σ : Type) : GridPather σ :=
  ⟨32, none, none, none, some ⟨[]⟩, ∅⟩

/-! ## The search of `moveEntityTo` -/

/-- The local variables of the search loop, together with the list of the
positions handed to `isPassable` (an observation, not a program variable). -/
structure SearchState where
  openList : List GridPathNode
  closedList : List GridPathNode
  selectedNode : Option GridPathNode
  iterations : Nat
  isPassableChecks : Nat
  queries : List QPointF

/-- The three statements `n->setParent(selectedNode);
n->setStartCost(pathAgent.calculateStartCost(*n));
n->setTargetCost(pathAgent.calculateTargetCost(*n));` of lines 181-183, 187-189
and 193-195. -/
def linkTo (pathAgent : GridPathAgent) (node selectedNode : GridPathNode) : GridPathNode :=
  let node := node.setParent selectedNode
  let node := node.setStartCost (pathAgent.calculateStartCost node)
  node.setTargetCost (pathAgent.calculateTargetCost node)

/-- One pass of the body of `for (dirIndex ...)`, lines 163-200. In the branch
`isOnOpenList` the code writes to `nodeCopy` and `adjNode` only, which are
local and are dropped at the end of the pass: neither list changes. -/
def expandDirection (pathAgent : GridPathAgent) (isPassable : PassabilityAgent)
    (entity : QuickEntity) (mCellSize : Int) (selectedNode : GridPathNode)
    (st : SearchState) (direction : QPointF) : SearchState :=
  let nodePos := selectedNode.pos + direction.scale (mCellSize : ℚ)
  let adjNode := GridPathNode.new nodePos
  let walkable := isPassable adjNode.pos entity
  let isOnClosedList := st.closedList.any (PathNodePosComp adjNode)
  let st := { st with isPassableChecks := st.isPassableChecks + 1,
                      queries := st.queries ++ [adjNode.pos] }
  if walkable && !isOnClosedList then
    match st.openList.find? (PathNodePosComp adjNode) with
    | some onOpenList =>
      let nodeCopy := linkTo pathAgent onOpenList selectedNode
      let adjNode :=
        if onOpenList.startCost < nodeCopy.startCost then linkTo pathAgent adjNode selectedNode
        else adjNode
      let _unused := adjNode
      st
    | none => { st with openList := st.openList ++ [linkTo pathAgent adjNode selectedNode] }
  else st

/-- The whole `for` loop over the four straight directions. -/
def expandNode (pathAgent : GridPathAgent) (isPassable : PassabilityAgent)
    (entity : QuickEntity) (mCellSize : Int) (selectedNode : GridPathNode)
    (st : SearchState) : SearchState :=
  straightDirections.foldl
    (expandDirection pathAgent isPassable entity mCellSize selectedNode) st

/-- Lines 161-203: the expansion of the selected node and `++iterations`. -/
def expandAndCount (pathAgent : GridPathAgent) (isPassable : PassabilityAgent)
    (entity : QuickEntity) (mCellSize : Int) (selectedNode : GridPathNode)
    (st : SearchState) : SearchState :=
  let st := expandNode pathAgent isPassable entity mCellSize selectedNode st
  { st with iterations := st.iterations + 1 }

/-- Lines 148-154: the lowest-total-cost node of the open list is pushed onto
the closed list, becomes the selected node and is erased from the open list.
`none` on an empty open list, which the loop never meets. -/
def selectLowest (st : SearchState) : Option (GridPathNode × SearchState) :=
  match minElement totalScoreLessThan st.openList with
  | none => none
  | some i =>
    match st.openList.get? i with
    | none => none
    | some lowest =>
      some (lowest, { st with closedList := st.closedList ++ [lowest],
                              selectedNode := some lowest,
                              openList := st.openList.eraseIdx i })

/-- The `do { ... } while (iterations < iterationLimit && !openList.empty())`
loop, lines 147-204. `fuel` bounds the number of further passes; `limit` passes
are always enough (`searchLoop_fuel`). -/
def searchLoop (pathAgent : GridPathAgent) (isPassable : PassabilityAgent)
    (entity : QuickEntity) (startPos : QPointF) (mCellSize : Int) (limit : Nat) :
    Nat → SearchState → SearchState
  | fuel, st =>
    match selectLowest st with
    | none => st
    | some (selectedNode, st) =>
      if pathAgent.isPathComplete entity startPos selectedNode then st
      else
        let st := expandAndCount pathAgent isPassable entity mCellSize selectedNode st
        if st.iterations < limit ∧ ¬ st.openList.isEmpty then
          match fuel with
          | 0 => st
          | fuel + 1 =>
            searchLoop pathAgent isPassable entity startPos mCellSize limit fuel st
        else st

/-- The state the loop is entered with, lines 125-145. -/
def initialSearchState (startPos : QPointF) : SearchState :=
  { openList := [GridPathNode.new startPos], closedList := [], selectedNode := none,
    iterations := 0, isPassableChecks := 0, queries := [] }

/-- Lines 125-204: the search from `startPos`. -/
def runSearch (pathAgent : GridPathAgent) (isPassable : PassabilityAgent)
    (entity : QuickEntity) (startPos : QPointF) (mCellSize : Int) (limit : Nat) :
    SearchState :=
  searchLoop pathAgent isPassable entity startPos mCellSize limit limit
    (initialSearchState startPos)

/-- Lines 218-230: the lineage of the last node of the closed list, the start
node dropped by `pop_front`. -/
def reconstructPath (closedList : List GridPathNode) : List GridPathNode :=
  match closedList.getLast? with
  | none => []
  | some node => node.lineage.tail

/-! ## `GridPather` operations -/

/-- `GridPather::addEntity`: `mData.insert(entity, pathData)`. -/
def GridPather.addEntity {σ : Type} (p : GridPather σ) (entity : QuickEntity)
    (pathData : GridPathData) : GridPather σ :=
  { p with mData := p.mData.insert entity.ident pathData }

/-- `GridPather::cancelEntityMovement`: `mData.remove(entity)`. -/
def GridPather.cancelEntityMovement {σ : Type} (p : GridPather σ) (entity : Nat) :
    GridPather σ :=
  { p with mData := p.mData.erase entity }

/-- `GridPather::pathData`: the tracked data, or a default-constructed one. -/
def GridPather.pathData {σ : Type} (p : GridPather σ) (entity : Nat) : GridPathData :=
  match p.mData.lookup entity with
  | some data => data
  | none => GridPathData.new

/-- What one call of `moveEntityTo` does: the value it returns, the pather
afterwards, and what it did on the way. -/
structure MoveOutcome (σ : Type) where
  result : Bool
  pather : GridPather σ
  /-- The positions handed to `isPassable`, in call order. -/
  queries : List QPointF
  /-- The number of calls of `PathCache::cachedData`. -/
  cacheLookups : Nat
  /-- The final state of the search loop, when the loop ran. -/
  search : Option SearchState

/-- Lines 206-247 of `moveEntityTo`: what the function does with the state `st`
the search loop ended in. `limit` is the value of the static `iterationLimit`. -/
def GridPather.afterSearch {σ : Type} (limit : Nat) (p : GridPather σ) (entity : QuickEntity)
    (pos : QPointF) (st : SearchState) : MoveOutcome σ :=
  let cacheLookups := if p.mPathCache.isSome then 1 else 0
  if st.iterations = limit then
    ⟨false, p, entity.centrePos :: st.queries, cacheLookups, some st⟩
  else if st.closedList.isEmpty then
    ⟨false, p, entity.centrePos :: st.queries, cacheLookups, some st⟩
  else
    let shortestPath := reconstructPath st.closedList
    let pathData : GridPathData := ⟨pos, shortestPath, 0⟩
    ⟨true,
      { p.addEntity entity pathData with
        mPathCache := p.mPathCache.map (fun cache => cache.addCachedData entity pos pathData) },
      entity.centrePos :: st.queries, cacheLookups, some st⟩

/-- Lines 115-247 of `moveEntityTo`: the cache lookup and, unless it hits, the
search. `mkAgent pos` is the policy `GridPathAgent pathAgent(pos)`. -/
def GridPather.lookupOrSearch {σ : Type} (limit : Nat) (mkAgent : QPointF → GridPathAgent)
    (p : GridPather σ) (isPassable : PassabilityAgent) (entity : QuickEntity)
    (pos : QPointF) : MoveOutcome σ :=
  let startPos := entity.centrePos
  let search :=
    p.afterSearch limit entity pos
      (runSearch (mkAgent pos) isPassable entity startPos p.mCellSize limit)
  match p.mPathCache with
  | some cache =>
    let cachedData := cache.cachedData entity pos
    if cachedData.isValid then ⟨true, p.addEntity entity cachedData, [startPos], 1, none⟩
    else search
  | none => search

/-- `GridPather::moveEntityTo(entity, pos)`, lines 77-248. The result is `none`
when the cell-centre check is undefined: a remainder by zero or a conversion
out of the range of `int`. -/
def GridPather.moveEntityToWith {σ : Type} (limit : Nat) (mkAgent : QPointF → GridPathAgent)
    (p : GridPather σ) (entity : Option QuickEntity) (pos : QPointF) :
    Option (MoveOutcome σ) :=
  match entity with
  | none => some ⟨false, p, [], 0, none⟩
  | some entity =>
    match p.mTimer with
    | none => some ⟨false, p, [], 0, none⟩
    | some _ =>
      match p.mPassabilityAgent with
      | none => some ⟨false, p, [], 0, none⟩
      | some isPassable =>
        match p.mSteeringAgent with
        | none => some ⟨false, p, [], 0, none⟩
        | some _ =>
          let startPos := entity.centrePos
          if !isPassable startPos entity then some ⟨false, p, [startPos], 0, none⟩
          else
            match cellCentreDiff startPos.x p.mCellSize, cellCentreDiff startPos.y p.mCellSize with
            | some xDiff, some yDiff =>
              if xDiff ≠ 0 ∨ yDiff ≠ 0 then some ⟨false, p, [startPos], 0, none⟩
              else some (p.lookupOrSearch limit mkAgent isPassable entity pos)
            | _, _ => none

/-- `GridPather::moveEntityTo` with the limit the source fixes. -/
def GridPather.moveEntityTo {σ : Type} (mkAgent : QPointF → GridPathAgent)
    (p : GridPather σ) (entity : Option QuickEntity) (pos : QPointF) :
    Option (MoveOutcome σ) :=
  p.moveEntityToWith iterationLimit mkAgent entity pos

/-- Modelled from the spec: the baseline policy `GridPathAgent(targetPos)`, which
is not part of the sources at hand. The spec names Euclidean or grid distance
for the costs; here both costs are grid distances: the start cost is the
parent's start cost plus the distance from the parent, the target cost the
grid distance to the target; the path is complete when the candidate position
equals the target position. -/
def baselineAgent (targetPos : QPointF) : GridPathAgent where
  calculateStartCost := fun node =>
    match node.parent with
    | none => 0
    | some parent =>
      parent.startCost + (|node.pos.x - parent.pos.x| + |node.pos.y - parent.pos.y|)
  calculateTargetCost := fun node =>
    |targetPos.x - node.pos.x| + |targetPos.y - node.pos.y|
  isPathComplete := fun _ _ node => decide (node.pos = targetPos)

/-! ## The tick driver -/

/-- One call of `steerTo`: entity, target position, delta and returned value. -/
structure SteerCall where
  entity : Nat
  pos : QPointF
  delta : ℚ
  arrived : Bool
deriving DecidableEq

/-- What `timerUpdated` has done so far: the live table `mData`, the state of
the world and the calls of `steerTo` made. -/
structure TickState (σ : Type) where
  mData : EntityTable
  world : σ
  calls : List SteerCall

/-- The body of the `while (it.hasNext())` loop of `timerUpdated` for one key of
the snapshot, lines 400-412. `mData[entity]` on a key that is gone would insert a
default path data, whose `at(-1)` is out of range, as is `at` of any negative
index; calling `steerTo` through a null agent is undefined as well. -/
def timerUpdatedEntity {σ : Type} (steeringAgent : Option (SteeringAgent σ)) (delta : ℚ)
    (st : TickState σ) (entity : Nat) : Option (TickState σ) :=
  match st.mData.lookup entity with
  | none => none
  | some pathData =>
    if pathData.mCurrentNodeIndex < (pathData.mNodes.length : Int) then
      if pathData.mCurrentNodeIndex < 0 then none
      else
        match pathData.mNodes.get? pathData.mCurrentNodeIndex.toNat, steeringAgent with
        | some currentNode, some agent =>
          let r := agent.steerTo st.world entity currentNode.pos delta
          let pathData :=
            if r.1 then { pathData with mCurrentNodeIndex := pathData.mCurrentNodeIndex + 1 }
            else pathData
          some { mData := st.mData.replace entity pathData, world := r.2,
                 calls := st.calls ++ [⟨entity, currentNode.pos, delta, r.1⟩] }
        | _, _ => none
    else some { st with mData := st.mData.erase entity }

/-- The loop of `timerUpdated` over the keys of the snapshot. -/
def timerUpdatedLoop {σ : Type} (steeringAgent : Option (SteeringAgent σ)) (delta : ℚ) :
    List Nat → TickState σ → Option (TickState σ)
  | [], st => some st
  | entity :: rest, st =>
    match timerUpdatedEntity steeringAgent delta st entity with
    | none => none
    | some st => timerUpdatedLoop steeringAgent delta rest st

/-- `GridPather::timerUpdated(delta)`, lines 396-414: the `QHashIterator` walks a
snapshot of `mData` while the body reads and writes the live table. Returns the
pather afterwards, the world afterwards and the `steerTo` calls made. -/
def GridPather.timerUpdated {σ : Type} (p : GridPather σ) (delta : ℚ) (world : σ) :
    Option (GridPather σ × σ × List SteerCall) :=
  match timerUpdatedLoop p.mSteeringAgent delta p.mData.keys ⟨p.mData, world, []⟩ with
  | none => none
  | some st => some ({ p with mData := st.mData }, st.world, st.calls)

/-- Successive calls of `timerUpdated`, one for each delta of the list; the
`steerTo` calls of all of them are collected in order. -/
def GridPather.timerUpdatedMany {σ : Type} (p : GridPather σ) :
    List ℚ → σ → Option (GridPather σ × σ × List SteerCall)
  | [], world => some (p, world, [])
  | delta :: rest, world =>
    match p.timerUpdated delta world with
    | none => none
    | some (p1, world1, calls1) =>
      match GridPather.timerUpdatedMany p1 rest world1 with
      | none => none
      | some (p2, world2, calls2) => some (p2, world2, calls1 ++ calls2)

/-! ## Example configurations -/

/-- A passability agent that accepts every position. -/
def openGrid : PassabilityAgent := fun _ _ => true

/-- A passability agent that accepts the single position (16, 16). -/
def walledIn : PassabilityAgent := fun pos _ => decide (pos = ⟨16, 16⟩)

/-- A steering agent that reports arrival on every call. -/
def arriveAtOnce : SteeringAgent Unit := ⟨fun w _ _ _ => (true, w)⟩

/-- A pather with cell size 32, a path cache and all collaborators bound, on an
open grid. -/
def openPather : GridPather Unit :=
  { GridPather.new Unit with
    mTimer := some 0, mPassabilityAgent := some openGrid,
    mSteeringAgent := some arriveAtOnce }

/-- The pather `openPather` with the start cell walled in. -/
def walledPather : GridPather Unit :=
  { openPather with mPassabilityAgent := some walledIn }

/-- An entity centred in the cell at (16, 16). -/
def entityA : QuickEntity := ⟨1, ⟨16, 16⟩, 0⟩

/-- A path data with the single waypoint (48, 16) and cursor 0. -/
def oneStepPath : GridPathData := ⟨⟨48, 16⟩, [GridPathNode.new ⟨48, 16⟩], 0⟩

/-- The pather `openPather` tracking entity 1 along `oneStepPath`. -/
def trackingPather : GridPather Unit :=
  { openPather with mData := (∅ : EntityTable).insert 1 oneStepPath }

/-- A call of one of the three entry points of the pather. -/
inductive PatherOp where
  | timerUpdated (delta : ℚ)
  | moveEntityTo (entity : Option QuickEntity) (pos : QPointF)
  | cancelEntityMovement (entity : Nat)

/-- The `steerTo` calls made while the calls `ops` are run in order, up to the
first `moveEntityTo` for `entity` that returns true (`none` when one of the
calls has undefined behaviour). -/
def GridPather.callsUntilMoved {σ : Type} (mkAgent : QPointF → GridPathAgent) (entity : Nat) :
    List PatherOp → GridPather σ → σ → Option (List SteerCall)
  | [], _, _ => some []
  | .timerUpdated delta :: rest, p, world =>
    match p.timerUpdated delta world with
    | none => none
    | some (p1, world1, calls) =>
      match GridPather.callsUntilMoved mkAgent entity rest p1 world1 with
      | none => none
      | some calls1 => some (calls ++ calls1)
  | .moveEntityTo moved pos :: rest, p, world =>
    match p.moveEntityTo mkAgent moved pos with
    | none => none
    | some r =>
      if r.result && decide (moved.map (fun e => e.ident) = some entity) then some []
      else GridPather.callsUntilMoved mkAgent entity rest r.pather world
  | .cancelEntityMovement cancelled :: rest, p, world =>
    GridPather.callsUntilMoved mkAgent entity rest (p.cancelEntityMovement cancelled) world

/-- The pather `openPather` tracking the entities 1 and 2 along `oneStepPath`. -/
def twoEntityPather : GridPather Unit :=
  { openPather with
    mData := ((∅ : EntityTable).insert 1 oneStepPath).insert 2 oneStepPath }

/-! ## Specification vocabulary -/

/-- One complete pass of the loop body that does not end in `break`: select,
expand, count. `none` on an empty open list. -/
def searchPass (pathAgent : GridPathAgent) (isPassable : PassabilityAgent)
    (entity : QuickEntity) (mCellSize : Int) (st : SearchState) : Option SearchState :=
  match selectLowest st with
  | none => none
  | some (selectedNode, st) =>
    some (expandAndCount pathAgent isPassable entity mCellSize selectedNode st)

/-- The state after `k` complete passes from the initial state, were the goal
test never to succeed. -/
def stateAfter (pathAgent : GridPathAgent) (isPassable : PassabilityAgent)
    (entity : QuickEntity) (startPos : QPointF) (mCellSize : Int) : Nat → Option SearchState
  | 0 => some (initialSearchState startPos)
  | k + 1 =>
    match stateAfter pathAgent isPassable entity startPos mCellSize k with
    | none => none
    | some st => searchPass pathAgent isPassable entity mCellSize st

/-- The node selected in pass `k + 1`, none of the passes before having ended
the search. -/
def selectedAt (pathAgent : GridPathAgent) (isPassable : PassabilityAgent)
    (entity : QuickEntity) (startPos : QPointF) (mCellSize : Int) (k : Nat) :
    Option GridPathNode :=
  match stateAfter pathAgent isPassable entity startPos mCellSize k with
  | none => none
  | some st =>
    match selectLowest st with
    | none => none
    | some (selectedNode, _) => some selectedNode

/-- The position `b` is one cell step from `a`: `b = a + d * mCellSize` for
exactly one of the four straight directions `d`. -/
def CellStep (mCellSize : Int) (a b : QPointF) : Prop :=
  ∃! d, d ∈ straightDirections ∧ b = a + d.scale (mCellSize : ℚ)

/-- Every parent link of the node is one step in a straight direction, and the
oldest ancestor is at `startPos`. -/
def WellLinked (mCellSize : Int) (startPos : QPointF) : GridPathNode → Prop
  | .origin p _ _ => p = startPos
  | .linked p _ _ parent =>
    (∃ d, d ∈ straightDirections ∧ p = parent.pos + d.scale (mCellSize : ℚ)) ∧
      WellLinked mCellSize startPos parent

/-- The invariant of the search loop on the shape of the two lists: every node
is well linked, the ancestors of a node are on the closed list in the order of
the lineage, and no position occurs twice. -/
structure ListsLinked (mCellSize : Int) (startPos : QPointF) (st : SearchState) : Prop where
  closed : ∀ n ∈ st.closedList,
    WellLinked mCellSize startPos n ∧ n.lineage.Sublist st.closedList
  opened : ∀ n ∈ st.openList,
    WellLinked mCellSize startPos n ∧ n.lineage.dropLast.Sublist st.closedList
  nodup : ((st.closedList ++ st.openList).map GridPathNode.pos).Nodup

/-- The centre of the cell `a` columns and `b` rows away from the cell centred at
`startPos`: `startPos` plus integer multiples of the cell size in x and y. -/
def cellCentre (startPos : QPointF) (mCellSize : Int) (a b : Int) : QPointF :=
  ⟨startPos.x + (a : ℚ) * (mCellSize : ℚ), startPos.y + (b : ℚ) * (mCellSize : ℚ)⟩

/-- The invariant of the search on an open grid after `k` passes: the lists are
linked, no node has more than `k` ancestors, every neighbour of a closed node
is on one of the lists, and the closed list is not empty once a pass is done. -/
structure Explored (mCellSize : Int) (startPos : QPointF) (k : Nat) (st : SearchState) :
    Prop where
  linked : ListsLinked mCellSize startPos st
  depth : ∀ n ∈ st.closedList ++ st.openList, n.lineage.length ≤ k + 1
  covered : ∀ n ∈ st.closedList, ∀ d ∈ straightDirections,
    n.pos + d.scale (mCellSize : ℚ) ∈ (st.closedList ++ st.openList).map GridPathNode.pos
  started : 1 ≤ k → st.closedList ≠ []

/-- The invariant of the search under the baseline policy on an open grid,
towards the cell centre `(i, j)`, at the head of the loop once the start node
is closed. Every closed node lies in the rectangle of cells spanned by the start
and the target, is not the target and has the grid distance from the start as
its start cost; every open node is one step from its closed parent and carries
the costs the policy gave it; every neighbour of a closed node is on a list;
`iterations` counts the closed nodes. -/
structure Frontier (mCellSize : Int) (startPos : QPointF) (i j : Int) (st : SearchState) :
    Prop where
  linked : ListsLinked mCellSize startPos st
  closedBest : ∀ n ∈ st.closedList, ∃ a b : Int,
    n.pos = cellCentre startPos mCellSize a b ∧
    a.natAbs + (i - a).natAbs = i.natAbs ∧ b.natAbs + (j - b).natAbs = j.natAbs ∧
    (a ≠ i ∨ b ≠ j) ∧
    n.startCost = ((a.natAbs + b.natAbs : ℕ) : ℚ) * |(mCellSize : ℚ)|
  openCosts : ∀ m ∈ st.openList, ∃ parent ∈ st.closedList, ∃ d ∈ straightDirections,
    m.pos = parent.pos + d.scale (mCellSize : ℚ) ∧
    m.startCost = parent.startCost + |(mCellSize : ℚ)| ∧
    m.targetCost = |(cellCentre startPos mCellSize i j).x - m.pos.x| +
      |(cellCentre startPos mCellSize i j).y - m.pos.y|
  covered : ∀ n ∈ st.closedList, ∀ d ∈ straightDirections,
    n.pos + d.scale (mCellSize : ℚ) ∈ (st.closedList ++ st.openList).map GridPathNode.pos
  started : st.closedList ≠ []
  counted : st.iterations = st.closedList.length

/-! ## Setters -/

/-- `GridPather::setCellSize`, lines 277-289. Assigning the value the member
already has changes nothing, so the early return on `cellSize == mCellSize` is
the assignment. -/
def GridPather.setCellSize {σ : Type} (p : GridPather σ) (cellSize : Int) : GridPather σ :=
  if ¬ p.mData.entries.isEmpty then p
  else { p with mCellSize := cellSize }

/-- `GridPather::setTimer`, lines 296-309; there is no test of `mData`.
Disconnecting and connecting the `updated` signal is not part of the state. -/
def GridPather.setTimer {σ : Type} (p : GridPather σ) (timer : Option Nat) : GridPather σ :=
  { p with mTimer := timer }

/-- `GridPather::timer`. -/
def GridPather.timer {σ : Type} (p : GridPather σ) : Option Nat := p.mTimer

/-- `GridPather::setPassabilityAgent`, lines 316-328. -/
def GridPather.setPassabilityAgent {σ : Type} (p : GridPather σ)
    (passabilityAgent : Option PassabilityAgent) : GridPather σ :=
  if ¬ p.mData.entries.isEmpty then p
  else { p with mPassabilityAgent := passabilityAgent }

/-- `GridPather::setSteeringAgent`, lines 335-347. -/
def GridPather.setSteeringAgent {σ : Type} (p : GridPather σ)
    (steeringAgent : Option (SteeringAgent σ)) : GridPather σ :=
  if ¬ p.mData.entries.isEmpty then p
  else { p with mSteeringAgent := steeringAgent }

/-- `GridPather::setPathCache`, lines 354-361. -/
def GridPather.setPathCache {σ : Type} (p : GridPather σ) (cache : Option PathCache) :
    GridPather σ :=
  { p with mPathCache := cache }

/-! ## Further example configurations -/

/-- The passability agent of a 5 x 5 open grid with cell size 32: it accepts
exactly the 25 cell centres (16 + 32 i, 16 + 32 j), 0 ≤ i, j ≤ 4. -/
def fiveByFive : PassabilityAgent := fun pos _ =>
  decide (pos.x ∈ [(16 : ℚ), 48, 80, 112, 144]) && decide (pos.y ∈ [(16 : ℚ), 48, 80, 112, 144])

/-- The pather `openPather` on the 5 x 5 grid. -/
def fiveByFivePather : GridPather Unit :=
  { openPather with mPassabilityAgent := some fiveByFive }

/-- The cells (column, row), cell size 32, of a grid with a detour: the cells
(0,1) (0,2) (1,1) (2,0) (2,1) (2,2) (3,0) (3,2) (4,0) (4,1) (4,2) are passable. -/
def detourCells : List QPointF :=
  [⟨16, 48⟩, ⟨16, 80⟩, ⟨48, 48⟩, ⟨80, 16⟩, ⟨80, 48⟩, ⟨80, 80⟩, ⟨112, 16⟩, ⟨112, 80⟩,
    ⟨144, 16⟩, ⟨144, 48⟩, ⟨144, 80⟩]

/-- The passability agent that accepts exactly the centres of `detourCells`. -/
def detourGrid : PassabilityAgent := fun pos _ => decide (pos ∈ detourCells)

/-- An entity centred in the cell (4, 1) of the detour grid, at (144, 48). -/
def entityB : QuickEntity := ⟨2, ⟨144, 48⟩, 0⟩

/-- The pather `openPather` with cell size 3. -/
def oddPather : GridPather Unit := openPather.setCellSize 3

/-- An entity at (1.5, 1.5), the geometric centre of the cell (0, 0) for cell
size 3. -/
def entityOdd : QuickEntity := ⟨3, ⟨3 / 2, 3 / 2⟩, 0⟩

/-- The pather `openPather` with the passability oracle `detourGrid`. -/
def detourPather : GridPather Unit := { openPather with mPassabilityAgent := some detourGrid }

/-- Invariant of one path record: the cursor `mCurrentNodeIndex` lies between 0
and the number of waypoints, both included. -/
def CursorInRange (d : GridPathData) : Prop :=
  0 ≤ d.mCurrentNodeIndex ∧ d.mCurrentNodeIndex ≤ (d.mNodes.length : Int)

/-- Invariant of the tracking table: every record has its cursor in range. -/
def TableInRange (t : EntityTable) : Prop :=
  ∀ (entity : Nat) (d : GridPathData), t.lookup entity = some d → CursorInRange d

/-- Seventeen passable cell centres, cell size 32, in which the direct way
from (80, 144) to (112, 16) is blocked. -/
def mazeCells : List QPointF :=
  [⟨16, 16⟩, ⟨16, 80⟩, ⟨16, 112⟩, ⟨48, 16⟩, ⟨48, 48⟩, ⟨48, 80⟩, ⟨48, 112⟩, ⟨48, 144⟩,
    ⟨48, 176⟩, ⟨80, 16⟩, ⟨80, 80⟩, ⟨80, 144⟩, ⟨80, 176⟩, ⟨112, 16⟩, ⟨112, 80⟩, ⟨112, 112⟩,
    ⟨112, 144⟩]

/-- The passability oracle that accepts the positions of `mazeCells`. -/
def mazeGrid : PassabilityAgent := fun pos _ => decide (pos ∈ mazeCells)

/-- The pather `openPather` with the passability oracle `mazeGrid`. -/
def mazePather : GridPather Unit := { openPather with mPassabilityAgent := some mazeGrid }

/-- An entity centred at (80, 144). -/
def entityC : QuickEntity := ⟨4, ⟨80, 144⟩, 0⟩

/-- A way of seven cell steps from (80, 144) to (112, 16) over `mazeCells`. -/
def mazeShortWay : List QPointF :=
  [⟨48, 144⟩, ⟨48, 112⟩, ⟨48, 80⟩, ⟨48, 48⟩, ⟨48, 16⟩, ⟨80, 16⟩, ⟨112, 16⟩]

/-- The value is a multiple of `2 ^ (-20)`. Such values of magnitude below
`2 ^ 32` are doubles, and so are their sums and differences. -/
def OnBinaryGrid (q : ℚ) : Prop := ∃ n : Int, q = (n : ℚ) / 1048576

/-! # Theorems -/

/-! ## Validation (C7) -/

/-- C7: if the entity is null, or the timer, the passability agent or the
steering agent is unbound, or the passability agent rejects the entity's
centre position, `moveEntityTo` returns false, has not consulted the cache,
has not run the search, and the pather (tracking table and cache included) is
as it was. -/
theorem moveEntityTo_validation_failure {σ : Type} (mkAgent : QPointF → GridPathAgent)
    (p : GridPather σ) (entity : Option QuickEntity) (pos : QPointF)
    (h : entity = none ∨ p.mTimer = none ∨ p.mPassabilityAgent = none ∨
      p.mSteeringAgent = none ∨
      ∃ e isPassable, entity = some e ∧ p.mPassabilityAgent = some isPassable ∧
        isPassable e.centrePos e = false) :
    ∃ r, p.moveEntityTo mkAgent entity pos = some r ∧ r.result = false ∧
      r.cacheLookups = 0 ∧ r.search = none ∧ r.pather = p ∧
      ∀ e, r.pather.pathData e = p.pathData e := by
  unfold GridPather.moveEntityTo GridPather.moveEntityToWith
  cases entity with
  | none => exact ⟨_, rfl, rfl, rfl, rfl, rfl, fun _ => rfl⟩
  | some ent =>
    cases hT : p.mTimer with
    | none => exact ⟨_, rfl, rfl, rfl, rfl, rfl, fun _ => rfl⟩
    | some t =>
      cases hP : p.mPassabilityAgent with
      | none => exact ⟨_, rfl, rfl, rfl, rfl, rfl, fun _ => rfl⟩
      | some isPassable =>
        cases hS : p.mSteeringAgent with
        | none => exact ⟨_, rfl, rfl, rfl, rfl, rfl, fun _ => rfl⟩
        | some s =>
          rcases h with h | h | h | h | ⟨e, f, he, hf, hrej⟩
          · cases h
          · rw [hT] at h; cases h
          · rw [hP] at h; cases h
          · rw [hS] at h; cases h
          · cases he
            rw [hP] at hf
            cases hf
            simp only [hrej, Bool.not_false, if_true]
            exact ⟨_, rfl, rfl, rfl, rfl, rfl, fun _ => rfl⟩

/-- C7, witness: the walled-in agent rejects the centre (48, 16). -/
theorem moveEntityTo_validation_failure_witness :
    ∃ r, walledPather.moveEntityTo baselineAgent (some ⟨1, ⟨48, 16⟩, 0⟩) ⟨16, 16⟩ = some r ∧
      r.result = false ∧ r.cacheLookups = 0 ∧ r.search = none ∧ r.pather = walledPather ∧
      ∀ e, r.pather.pathData e = walledPather.pathData e :=
  moveEntityTo_validation_failure baselineAgent walledPather (some ⟨1, ⟨48, 16⟩, 0⟩) ⟨16, 16⟩
    (Or.inr (Or.inr (Or.inr (Or.inr
      ⟨⟨1, ⟨48, 16⟩, 0⟩, walledIn, rfl, rfl, by decide!⟩))))

/-! ## Lemmas on the tracking table -/

theorem dlookup_kreplace_self {α : Type} {β : α → Type} [DecidableEq α] (a : α) (b : β a) :
    ∀ l : List (Sigma β), a ∈ l.keys → List.dlookup a (List.kreplace a b l) = some b := by
  intro l
  induction l with
  | nil => intro h; simp at h
  | cons s l ih =>
    intro h
    obtain ⟨a', b'⟩ := s
    by_cases haa : a = a'
    · subst haa
      simp [List.kreplace, List.lookmap_cons_some]
    · have hmem : a ∈ l.keys := by
        simp [List.keys_cons] at h
        rcases h with h | h
        · exact absurd h haa
        · simpa [List.keys] using h
      have : List.kreplace a b (⟨a', b'⟩ :: l) = ⟨a', b'⟩ :: List.kreplace a b l := by
        simp [List.kreplace, List.lookmap_cons_none, haa]
      rw [this, List.dlookup_cons_ne _ _ haa]
      exact ih hmem

theorem dlookup_kreplace_ne {α : Type} {β : α → Type} [DecidableEq α] {a a' : α} (b : β a')
    (h : a ≠ a') :
    ∀ l : List (Sigma β), List.dlookup a (List.kreplace a' b l) = List.dlookup a l := by
  intro l
  induction l with
  | nil => simp [List.kreplace]
  | cons s l ih =>
    obtain ⟨k, v⟩ := s
    by_cases hk : a' = k
    · subst hk
      have : List.kreplace a' b (⟨a', v⟩ :: l) = ⟨a', b⟩ :: l := by
        simp [List.kreplace, List.lookmap_cons_some]
      rw [this, List.dlookup_cons_ne _ _ h, List.dlookup_cons_ne _ _ h]
    · have : List.kreplace a' b (⟨k, v⟩ :: l) = ⟨k, v⟩ :: List.kreplace a' b l := by
        simp [List.kreplace, List.lookmap_cons_none, hk]
      rw [this]
      by_cases hak : a = k
      · subst hak
        simp [List.dlookup_cons_eq]
      · rw [List.dlookup_cons_ne _ _ hak, List.dlookup_cons_ne _ _ hak, ih]

theorem lookup_replace_self (a : Nat) (b : GridPathData) (s : EntityTable) (h : a ∈ s) :
    (s.replace a b).lookup a = some b :=
  @dlookup_kreplace_self Nat (fun _ => GridPathData) _ a b s.entries h

theorem lookup_replace_ne {a a' : Nat} (b : GridPathData) (s : EntityTable) (h : a ≠ a') :
    (s.replace a' b).lookup a = s.lookup a :=
  @dlookup_kreplace_ne Nat (fun _ => GridPathData) _ a a' b h s.entries

theorem mem_of_lookup_eq_some {a : Nat} {b : GridPathData} {s : EntityTable}
    (h : s.lookup a = some b) : a ∈ s := by
  rw [← AList.lookup_isSome, h]; rfl

/-! ## Lemmas on the tick driver -/

/-- The path data after a `steerTo` call that returned `arrived`. -/
theorem timerUpdatedEntity_steer {σ : Type} (agent : SteeringAgent σ) (delta : ℚ)
    (st : TickState σ) (e : Nat) (d : GridPathData) (hd : st.mData.lookup e = some d)
    (h0 : 0 ≤ d.mCurrentNodeIndex) (hlt : d.mCurrentNodeIndex < (d.mNodes.length : Int)) :
    ∃ node, d.mNodes.get? d.mCurrentNodeIndex.toNat = some node ∧
      timerUpdatedEntity (some agent) delta st e =
        some { mData := st.mData.replace e
                 (if (agent.steerTo st.world e node.pos delta).1
                  then { d with mCurrentNodeIndex := d.mCurrentNodeIndex + 1 } else d),
               world := (agent.steerTo st.world e node.pos delta).2,
               calls := st.calls ++
                 [⟨e, node.pos, delta, (agent.steerTo st.world e node.pos delta).1⟩] } := by
  have hlen : d.mCurrentNodeIndex.toNat < d.mNodes.length := by omega
  obtain ⟨node, hnode⟩ : ∃ node, d.mNodes.get? d.mCurrentNodeIndex.toNat = some node :=
    ⟨_, List.get?_eq_get hlen⟩
  refine ⟨node, hnode, ?_⟩
  unfold timerUpdatedEntity
  simp only [hd, hlt, if_true, not_lt.mpr h0, if_false, hnode]

theorem timerUpdatedEntity_remove {σ : Type} (agent : Option (SteeringAgent σ)) (delta : ℚ)
    (st : TickState σ) (e : Nat) (d : GridPathData) (hd : st.mData.lookup e = some d)
    (hge : ¬ d.mCurrentNodeIndex < (d.mNodes.length : Int)) :
    timerUpdatedEntity agent delta st e = some { st with mData := st.mData.erase e } := by
  unfold timerUpdatedEntity
  simp only [hd, hge, if_false]

/-- Processing the key `k` leaves the entry and the calls of every other entity
as they are. -/
theorem timerUpdatedEntity_frame {σ : Type} (agent : Option (SteeringAgent σ)) (delta : ℚ)
    (st st1 : TickState σ) (k : Nat) (h : timerUpdatedEntity agent delta st k = some st1)
    (e : Nat) (he : e ≠ k) :
    st1.mData.lookup e = st.mData.lookup e ∧
      st1.calls.filter (fun c => decide (c.entity = e)) =
        st.calls.filter (fun c => decide (c.entity = e)) := by
  unfold timerUpdatedEntity at h
  cases hd : st.mData.lookup k with
  | none => rw [hd] at h; cases h
  | some d =>
    rw [hd] at h
    simp only at h
    by_cases hlt : d.mCurrentNodeIndex < (d.mNodes.length : Int)
    · simp only [hlt, if_true] at h
      by_cases hneg : d.mCurrentNodeIndex < 0
      · simp only [hneg, if_true] at h; cases h
      · simp only [hneg, if_false] at h
        cases hn : d.mNodes.get? d.mCurrentNodeIndex.toNat with
        | none => rw [hn] at h; cases h
        | some node =>
          cases agent with
          | none => rw [hn] at h; cases h
          | some ag =>
            rw [hn] at h
            simp only [Option.some.injEq] at h
            subst h
            refine ⟨lookup_replace_ne _ _ he, ?_⟩
            simp [List.filter_append, Ne.symm he]
    · simp only [hlt, if_false, Option.some.injEq] at h
      subst h
      exact ⟨AList.lookup_erase_ne he, rfl⟩

theorem timerUpdatedLoop_frame {σ : Type} (agent : Option (SteeringAgent σ)) (delta : ℚ) :
    ∀ (ks : List Nat) (st st1 : TickState σ),
      timerUpdatedLoop agent delta ks st = some st1 → ∀ e, e ∉ ks →
      st1.mData.lookup e = st.mData.lookup e ∧
        st1.calls.filter (fun c => decide (c.entity = e)) =
          st.calls.filter (fun c => decide (c.entity = e)) := by
  intro ks
  induction ks with
  | nil =>
    intro st st1 h e _
    simp only [timerUpdatedLoop, Option.some.injEq] at h
    subst h
    exact ⟨rfl, rfl⟩
  | cons k rest ih =>
    intro st st1 h e he
    simp only [timerUpdatedLoop] at h
    cases hk : timerUpdatedEntity agent delta st k with
    | none => rw [hk] at h; cases h
    | some st2 =>
      rw [hk] at h
      simp only at h
      have hek : e ≠ k := fun hh => he (hh ▸ List.mem_cons_self _ _)
      have her : e ∉ rest := fun hh => he (List.mem_cons_of_mem _ hh)
      obtain ⟨h1, h2⟩ := timerUpdatedEntity_frame agent delta st st2 k hk e hek
      obtain ⟨h3, h4⟩ := ih st2 st1 h e her
      exact ⟨h3.trans h1, h4.trans h2⟩

/-- The loop of `timerUpdated` over pairwise distinct tracked keys, with a
steering agent bound and no negative cursor: it runs to the end, and every key
is handled once, by one `steerTo` call or by removal. -/
theorem timerUpdatedLoop_spec {σ : Type} (agent : SteeringAgent σ) (delta : ℚ) :
    ∀ (ks : List Nat) (st : TickState σ), ks.Nodup →
      (∀ k ∈ ks, ∃ d, st.mData.lookup k = some d ∧ 0 ≤ d.mCurrentNodeIndex) →
      ∃ st1, timerUpdatedLoop (some agent) delta ks st = some st1 ∧
        ∀ e ∈ ks, ∀ d, st.mData.lookup e = some d →
          (d.mCurrentNodeIndex < (d.mNodes.length : Int) →
            ∃ node world0, d.mNodes.get? d.mCurrentNodeIndex.toNat = some node ∧
              st1.calls.filter (fun c => decide (c.entity = e)) =
                st.calls.filter (fun c => decide (c.entity = e)) ++
                  [⟨e, node.pos, delta, (agent.steerTo world0 e node.pos delta).1⟩] ∧
              st1.mData.lookup e =
                some (if (agent.steerTo world0 e node.pos delta).1
                  then { d with mCurrentNodeIndex := d.mCurrentNodeIndex + 1 } else d)) ∧
          (¬ d.mCurrentNodeIndex < (d.mNodes.length : Int) →
            st1.calls.filter (fun c => decide (c.entity = e)) =
                st.calls.filter (fun c => decide (c.entity = e)) ∧
              st1.mData.lookup e = none) := by
  intro ks
  induction ks with
  | nil =>
    intro st _ _
    exact ⟨st, rfl, fun e he => absurd he (List.not_mem_nil e)⟩
  | cons k rest ih =>
    intro st hnd hks
    obtain ⟨hk_notin, hnd_rest⟩ := List.nodup_cons.mp hnd
    obtain ⟨dk, hdk, hdk0⟩ := hks k (List.mem_cons_self _ _)
    -- the step for `k`
    have hstep : ∃ st2, timerUpdatedEntity (some agent) delta st k = some st2 := by
      by_cases hlt : dk.mCurrentNodeIndex < (dk.mNodes.length : Int)
      · obtain ⟨node, _, hh⟩ := timerUpdatedEntity_steer agent delta st k dk hdk hdk0 hlt
        exact ⟨_, hh⟩
      · exact ⟨_, timerUpdatedEntity_remove (some agent) delta st k dk hdk hlt⟩
    obtain ⟨st2, hst2⟩ := hstep
    have hframe := timerUpdatedEntity_frame (some agent) delta st st2 k hst2
    have hks2 : ∀ k' ∈ rest, ∃ d, st2.mData.lookup k' = some d ∧ 0 ≤ d.mCurrentNodeIndex := by
      intro k' hk'
      have hne : k' ≠ k := fun hh => hk_notin (hh ▸ hk')
      obtain ⟨d, hd, hd0⟩ := hks k' (List.mem_cons_of_mem _ hk')
      exact ⟨d, (hframe k' hne).1.trans hd, hd0⟩
    obtain ⟨st1, hst1, hspec⟩ := ih st2 hnd_rest hks2
    refine ⟨st1, ?_, ?_⟩
    · simp only [timerUpdatedLoop, hst2, hst1]
    · intro e he d hd
      rcases List.mem_cons.mp he with hek | her
      · subst hek
        have hd' : d = dk := Option.some.inj (hd.symm.trans hdk)
        subst hd'
        obtain ⟨hl, hc⟩ := timerUpdatedLoop_frame (some agent) delta rest st2 st1 hst1 e hk_notin
        constructor
        · intro hlt
          obtain ⟨node, hnode, hh⟩ := timerUpdatedEntity_steer agent delta st e d hdk hdk0 hlt
          rw [hst2] at hh
          simp only [Option.some.injEq] at hh
          subst hh
          refine ⟨node, st.world, hnode, ?_, ?_⟩
          · rw [hc]
            simp [List.filter_append]
          · rw [hl]
            exact lookup_replace_self _ _ _ (mem_of_lookup_eq_some hdk)
        · intro hge
          have hh := timerUpdatedEntity_remove (some agent) delta st e d hdk hge
          rw [hst2] at hh
          simp only [Option.some.injEq] at hh
          subst hh
          exact ⟨hc, hl.trans (AList.lookup_erase _ _)⟩
      · have hne : e ≠ k := fun hh => hk_notin (hh ▸ her)
        obtain ⟨h1, h2⟩ := hframe e hne
        have := hspec e her d (h1.trans hd)
        rw [h2] at this
        exact this

theorem trackingPather_lookup (e : Nat) (d : GridPathData)
    (h : trackingPather.mData.lookup e = some d) : e = 1 ∧ d = oneStepPath := by
  by_cases he : e = 1
  · subst he
    have : trackingPather.mData.lookup 1 = some oneStepPath := AList.lookup_insert _
    rw [this] at h
    exact ⟨rfl, (Option.some.inj h).symm⟩
  · have : trackingPather.mData.lookup e = none := by
      show ((∅ : EntityTable).insert 1 oneStepPath).lookup e = none
      rw [AList.lookup_insert_ne he]
      exact AList.lookup_empty e
    rw [this] at h
    cases h

/-! ## One tick (C9) -/

/-- C9: with a steering agent bound and no negative cursor in the tracking
table, one call of `timerUpdated(delta)` runs to the end; for each tracked
entity whose cursor is below its waypoint count it calls `steerTo` exactly
once, with that entity, the position of the waypoint at the cursor and delta,
and afterwards the entity's path data differs from the old one at most in the
cursor, which is one more if the call returned true and the same otherwise;
for every other entity it makes no call. -/
theorem timerUpdated_one_steer_per_entity {σ : Type} (p : GridPather σ)
    (agent : SteeringAgent σ) (hagent : p.mSteeringAgent = some agent) (delta : ℚ) (world : σ)
    (hcur : ∀ e d, p.mData.lookup e = some d → 0 ≤ d.mCurrentNodeIndex) :
    ∃ p1 world1 calls, p.timerUpdated delta world = some (p1, world1, calls) ∧
      ∀ e,
        (∀ d, p.mData.lookup e = some d → d.mCurrentNodeIndex < (d.mNodes.length : Int) →
          ∃ node world0, d.mNodes.get? d.mCurrentNodeIndex.toNat = some node ∧
            calls.filter (fun c => decide (c.entity = e)) =
              [⟨e, node.pos, delta, (agent.steerTo world0 e node.pos delta).1⟩] ∧
            p1.mData.lookup e =
              some { d with mCurrentNodeIndex :=
                if (agent.steerTo world0 e node.pos delta).1 then d.mCurrentNodeIndex + 1
                else d.mCurrentNodeIndex }) ∧
        ((p.mData.lookup e = none ∨
            ∃ d, p.mData.lookup e = some d ∧ ¬ d.mCurrentNodeIndex < (d.mNodes.length : Int)) →
          calls.filter (fun c => decide (c.entity = e)) = []) := by
  have hks : ∀ k ∈ p.mData.keys, ∃ d, p.mData.lookup k = some d ∧ 0 ≤ d.mCurrentNodeIndex := by
    intro k hk
    have hmem : k ∈ p.mData := AList.mem_keys.mpr hk
    cases hd : p.mData.lookup k with
    | none => exact absurd hmem (AList.lookup_eq_none.mp hd)
    | some d => exact ⟨d, rfl, hcur k d hd⟩
  obtain ⟨st1, hst1, hspec⟩ :=
    timerUpdatedLoop_spec agent delta p.mData.keys ⟨p.mData, world, []⟩ p.mData.keys_nodup hks
  refine ⟨{ p with mData := st1.mData }, st1.world, st1.calls, ?_, ?_⟩
  · unfold GridPather.timerUpdated
    rw [hagent, hst1]
  · intro e
    constructor
    · intro d hd hlt
      have hmem : e ∈ p.mData.keys := AList.mem_keys.mp (mem_of_lookup_eq_some hd)
      obtain ⟨node, world0, hnode, hcalls, hlook⟩ := (hspec e hmem d hd).1 hlt
      refine ⟨node, world0, hnode, ?_, ?_⟩
      · simpa using hcalls
      · show st1.mData.lookup e = _
        rw [hlook]
        cases (agent.steerTo world0 e node.pos delta).1 <;> simp
    · rintro (hnone | ⟨d, hd, hge⟩)
      · have hnot : e ∉ p.mData.keys := fun hh =>
          AList.lookup_eq_none.mp hnone (AList.mem_keys.mpr hh)
        have := (timerUpdatedLoop_frame (some agent) delta p.mData.keys _ st1 hst1 e hnot).2
        simpa using this
      · have hmem : e ∈ p.mData.keys := AList.mem_keys.mp (mem_of_lookup_eq_some hd)
        have := ((hspec e hmem d hd).2 hge).1
        simpa using this

/-- C9, witness: entity 1 with one waypoint and cursor 0. -/
theorem timerUpdated_one_steer_per_entity_witness :
    ∃ p1 world1 calls, trackingPather.timerUpdated (1 / 60) () = some (p1, world1, calls) ∧
      ∀ e,
        (∀ d, trackingPather.mData.lookup e = some d →
          d.mCurrentNodeIndex < (d.mNodes.length : Int) →
          ∃ node world0, d.mNodes.get? d.mCurrentNodeIndex.toNat = some node ∧
            calls.filter (fun c => decide (c.entity = e)) =
              [⟨e, node.pos, 1 / 60, (arriveAtOnce.steerTo world0 e node.pos (1 / 60)).1⟩] ∧
            p1.mData.lookup e =
              some { d with mCurrentNodeIndex :=
                if (arriveAtOnce.steerTo world0 e node.pos (1 / 60)).1
                then d.mCurrentNodeIndex + 1 else d.mCurrentNodeIndex }) ∧
        ((trackingPather.mData.lookup e = none ∨
            ∃ d, trackingPather.mData.lookup e = some d ∧
              ¬ d.mCurrentNodeIndex < (d.mNodes.length : Int)) →
          calls.filter (fun c => decide (c.entity = e)) = []) :=
  timerUpdated_one_steer_per_entity trackingPather arriveAtOnce rfl (1 / 60) ()
    (fun e d h => by
      rw [(trackingPather_lookup e d h).2]
      decide)

/-! ## Many ticks (C8) -/

/-- One tick under a steering agent that always reports arrival: every cursor
below the waypoint count moves on by one, every other entry is removed. -/
theorem timerUpdated_arrive {σ : Type} (p : GridPather σ) (agent : SteeringAgent σ)
    (hagent : p.mSteeringAgent = some agent)
    (htrue : ∀ w e pos dl, (agent.steerTo w e pos dl).1 = true) (delta : ℚ) (world : σ)
    (hcur : ∀ e d, p.mData.lookup e = some d → 0 ≤ d.mCurrentNodeIndex) :
    ∃ p1 world1 calls, p.timerUpdated delta world = some (p1, world1, calls) ∧
      p1.mSteeringAgent = some agent ∧
      ∀ e, p1.mData.lookup e =
        (p.mData.lookup e).bind (fun d =>
          if d.mCurrentNodeIndex < (d.mNodes.length : Int)
          then some { d with mCurrentNodeIndex := d.mCurrentNodeIndex + 1 } else none) := by
  have hks : ∀ k ∈ p.mData.keys, ∃ d, p.mData.lookup k = some d ∧ 0 ≤ d.mCurrentNodeIndex := by
    intro k hk
    have hmem : k ∈ p.mData := AList.mem_keys.mpr hk
    cases hd : p.mData.lookup k with
    | none => exact absurd hmem (AList.lookup_eq_none.mp hd)
    | some d => exact ⟨d, rfl, hcur k d hd⟩
  obtain ⟨st1, hst1, hspec⟩ :=
    timerUpdatedLoop_spec agent delta p.mData.keys ⟨p.mData, world, []⟩ p.mData.keys_nodup hks
  refine ⟨{ p with mData := st1.mData }, st1.world, st1.calls, ?_, hagent, ?_⟩
  · unfold GridPather.timerUpdated
    rw [hagent, hst1]
  · intro e
    show st1.mData.lookup e = _
    cases hd : p.mData.lookup e with
    | none =>
      have hnot : e ∉ p.mData.keys := fun hh =>
        AList.lookup_eq_none.mp hd (AList.mem_keys.mpr hh)
      have := (timerUpdatedLoop_frame (some agent) delta p.mData.keys _ st1 hst1 e hnot).1
      rw [this]
      simpa using hd
    | some d =>
      have hmem : e ∈ p.mData.keys := AList.mem_keys.mp (mem_of_lookup_eq_some hd)
      by_cases hlt : d.mCurrentNodeIndex < (d.mNodes.length : Int)
      · obtain ⟨node, world0, _, _, hlook⟩ := (hspec e hmem d hd).1 hlt
        rw [hlook, htrue]
        simp [hlt]
      · rw [((hspec e hmem d hd).2 hlt).2]
        simp [hlt]

/-- After `N` ticks under a steering agent that always reports arrival, a path
data with cursor `c` and `L` waypoints has cursor `c + N` as long as
`c + N ≤ max L c`, and is removed from then on. -/
theorem timerUpdatedMany_arrive {σ : Type} (agent : SteeringAgent σ)
    (htrue : ∀ w e pos dl, (agent.steerTo w e pos dl).1 = true) :
    ∀ (deltas : List ℚ) (p : GridPather σ) (world : σ), p.mSteeringAgent = some agent →
      (∀ e d, p.mData.lookup e = some d → 0 ≤ d.mCurrentNodeIndex) →
      ∃ p1 world1 calls, p.timerUpdatedMany deltas world = some (p1, world1, calls) ∧
        ∀ e, p1.mData.lookup e =
          (p.mData.lookup e).bind (fun d =>
            if d.mCurrentNodeIndex + (deltas.length : Int) ≤
                max (d.mNodes.length : Int) d.mCurrentNodeIndex
            then some { d with mCurrentNodeIndex := d.mCurrentNodeIndex + (deltas.length : Int) }
            else none) := by
  intro deltas
  induction deltas with
  | nil =>
    intro p world _ _
    refine ⟨p, world, [], rfl, ?_⟩
    intro e
    cases p.mData.lookup e with
    | none => rfl
    | some d => simp
  | cons delta rest ih =>
    intro p world hagent hcur
    obtain ⟨p1, world1, calls1, h1, hagent1, hlook1⟩ :=
      timerUpdated_arrive p agent hagent htrue delta world hcur
    have hcur1 : ∀ e d, p1.mData.lookup e = some d → 0 ≤ d.mCurrentNodeIndex := by
      intro e d1 hd1
      rw [hlook1 e] at hd1
      cases hd : p.mData.lookup e with
      | none => rw [hd] at hd1; cases hd1
      | some d =>
        rw [hd] at hd1
        have h0 := hcur e d hd
        simp only [Option.some_bind] at hd1
        split at hd1
        · cases hd1
          show 0 ≤ d.mCurrentNodeIndex + 1
          omega
        · cases hd1
    obtain ⟨p2, world2, calls2, h2, hlook2⟩ := ih p1 world1 hagent1 hcur1
    refine ⟨p2, world2, calls1 ++ calls2, ?_, ?_⟩
    · simp only [GridPather.timerUpdatedMany, h1, h2]
    · intro e
      rw [hlook2 e, hlook1 e]
      cases hd : p.mData.lookup e with
      | none => rfl
      | some d =>
        have h0 := hcur e d hd
        simp only [Option.some_bind, List.length_cons, Nat.cast_add, Nat.cast_one]
        by_cases hlt : d.mCurrentNodeIndex < (d.mNodes.length : Int)
        · simp only [hlt, if_true, Option.some_bind]
          have e1 : max (d.mNodes.length : Int) (d.mCurrentNodeIndex + 1) = d.mNodes.length :=
            max_eq_left (by omega)
          have e2 : max (d.mNodes.length : Int) d.mCurrentNodeIndex = d.mNodes.length :=
            max_eq_left (by omega)
          rw [e1, e2]
          by_cases hle : d.mCurrentNodeIndex + 1 + (rest.length : Int) ≤ (d.mNodes.length : Int)
          · have hle' : d.mCurrentNodeIndex + ((rest.length : Int) + 1) ≤ (d.mNodes.length : Int) := by
              omega
            simp only [hle, hle', if_true]
            congr 2
            omega
          · have hle' : ¬ d.mCurrentNodeIndex + ((rest.length : Int) + 1) ≤ (d.mNodes.length : Int) := by
              omega
            simp only [hle, hle', if_false]
        · have e2 : max (d.mNodes.length : Int) d.mCurrentNodeIndex = d.mCurrentNodeIndex :=
            max_eq_right (by omega)
          have hle' : ¬ d.mCurrentNodeIndex + ((rest.length : Int) + 1) ≤ d.mCurrentNodeIndex := by
            omega
          simp only [hlt, if_false, Option.none_bind, e2, hle']

/-- C8: for a tracked entity whose path has `L` waypoints and whose cursor is
`c ≤ L`, under a steering agent that returns true on every call (and with no
negative cursor in the table), `N` calls of `timerUpdated` run to the end and
afterwards the entity is tracked with cursor `min (c + N) L` if `N ≤ L - c`,
and is absent from the tracking table if `N ≥ L - c + 1`. -/
theorem timerUpdatedMany_cursor {σ : Type} (p : GridPather σ) (agent : SteeringAgent σ)
    (hagent : p.mSteeringAgent = some agent)
    (htrue : ∀ w e pos dl, (agent.steerTo w e pos dl).1 = true)
    (hcur : ∀ e d, p.mData.lookup e = some d → 0 ≤ d.mCurrentNodeIndex)
    (e : Nat) (d : GridPathData) (hd : p.mData.lookup e = some d)
    (hle : d.mCurrentNodeIndex ≤ (d.mNodes.length : Int)) (deltas : List ℚ) (world : σ) :
    ∃ p1 world1 calls, p.timerUpdatedMany deltas world = some (p1, world1, calls) ∧
      p1.mData.lookup e =
        if (deltas.length : Int) ≤ (d.mNodes.length : Int) - d.mCurrentNodeIndex
        then some { d with
          mCurrentNodeIndex :=
            min (d.mCurrentNodeIndex + (deltas.length : Int)) (d.mNodes.length : Int) }
        else none := by
  obtain ⟨p1, world1, calls, hrun, hlook⟩ :=
    timerUpdatedMany_arrive agent htrue deltas p world hagent hcur
  refine ⟨p1, world1, calls, hrun, ?_⟩
  rw [hlook e, hd]
  simp only [Option.some_bind]
  have e2 : max (d.mNodes.length : Int) d.mCurrentNodeIndex = d.mNodes.length :=
    max_eq_left hle
  rw [e2]
  by_cases hN : (deltas.length : Int) ≤ (d.mNodes.length : Int) - d.mCurrentNodeIndex
  · have hN' : d.mCurrentNodeIndex + (deltas.length : Int) ≤ (d.mNodes.length : Int) := by omega
    simp only [hN, hN', if_true, min_eq_left hN']
  · have hN' : ¬ d.mCurrentNodeIndex + (deltas.length : Int) ≤ (d.mNodes.length : Int) := by
      omega
    simp only [hN, hN', if_false]

/-- C8, witness: entity 1 with one waypoint and cursor 0, two ticks. -/
theorem timerUpdatedMany_cursor_witness :
    ∃ p1 world1 calls,
      trackingPather.timerUpdatedMany [1 / 60, 1 / 60] () = some (p1, world1, calls) ∧
      p1.mData.lookup 1 =
        if (([1 / 60, 1 / 60] : List ℚ).length : Int) ≤
            (oneStepPath.mNodes.length : Int) - oneStepPath.mCurrentNodeIndex
        then some { oneStepPath with
          mCurrentNodeIndex :=
            min (oneStepPath.mCurrentNodeIndex + (([1 / 60, 1 / 60] : List ℚ).length : Int))
              (oneStepPath.mNodes.length : Int) }
        else none :=
  timerUpdatedMany_cursor trackingPather arriveAtOnce rfl (fun _ _ _ _ => rfl)
    (fun e d h => by
      rw [(trackingPather_lookup e d h).2]
      decide)
    1 oneStepPath (AList.lookup_insert _) (by decide) [1 / 60, 1 / 60] ()

/-! ## The two ways `moveEntityTo` returns -/

theorem afterSearch_pather {σ : Type} (limit : Nat) (p : GridPather σ) (entity : QuickEntity)
    (pos : QPointF) (st : SearchState) :
    ((p.afterSearch limit entity pos st).result = false ∧
        (p.afterSearch limit entity pos st).pather = p) ∨
      ((p.afterSearch limit entity pos st).result = true ∧
        (p.afterSearch limit entity pos st).pather.mData =
          p.mData.insert entity.ident ⟨pos, reconstructPath st.closedList, 0⟩) := by
  by_cases h1 : st.iterations = limit
  · left
    simp [GridPather.afterSearch, h1]
  · by_cases h2 : st.closedList.isEmpty
    · left
      simp [GridPather.afterSearch, h1, h2]
    · right
      simp [GridPather.afterSearch, h1, h2, GridPather.addEntity]

theorem lookupOrSearch_pather {σ : Type} (limit : Nat) (mkAgent : QPointF → GridPathAgent)
    (p : GridPather σ) (isPassable : PassabilityAgent) (entity : QuickEntity) (pos : QPointF) :
    ((p.lookupOrSearch limit mkAgent isPassable entity pos).result = false ∧
        (p.lookupOrSearch limit mkAgent isPassable entity pos).pather = p) ∨
      ((p.lookupOrSearch limit mkAgent isPassable entity pos).result = true ∧
        ∃ d, d.isValid = true ∧
          (p.lookupOrSearch limit mkAgent isPassable entity pos).pather.mData =
            p.mData.insert entity.ident d) := by
  have hs := afterSearch_pather limit p entity pos
    (runSearch (mkAgent pos) isPassable entity entity.centrePos p.mCellSize limit)
  have hs' : ((p.afterSearch limit entity pos
        (runSearch (mkAgent pos) isPassable entity entity.centrePos p.mCellSize limit)).result
          = false ∧
        (p.afterSearch limit entity pos
          (runSearch (mkAgent pos) isPassable entity entity.centrePos p.mCellSize limit)).pather
          = p) ∨
      ((p.afterSearch limit entity pos
        (runSearch (mkAgent pos) isPassable entity entity.centrePos p.mCellSize limit)).result
          = true ∧
        ∃ d, d.isValid = true ∧
          (p.afterSearch limit entity pos
            (runSearch (mkAgent pos) isPassable entity entity.centrePos p.mCellSize
              limit)).pather.mData = p.mData.insert entity.ident d) := by
    rcases hs with h | h
    · exact Or.inl h
    · exact Or.inr ⟨h.1, ⟨pos, _, 0⟩, rfl, h.2⟩
  unfold GridPather.lookupOrSearch
  cases hc : p.mPathCache with
  | none => simpa only using hs'
  | some cache =>
    simp only
    by_cases hv : (cache.cachedData entity pos).isValid = true
    · rw [if_pos hv]
      exact Or.inr ⟨rfl, _, hv, rfl⟩
    · rw [if_neg hv]
      exact hs'

/-- A call of `moveEntityTo` that returns false leaves the pather as it was; a
call that returns true has inserted a valid path data for the entity. -/
theorem moveEntityToWith_pather {σ : Type} (limit : Nat) (mkAgent : QPointF → GridPathAgent)
    (p : GridPather σ) (entity : Option QuickEntity) (pos : QPointF) (r : MoveOutcome σ)
    (h : p.moveEntityToWith limit mkAgent entity pos = some r) :
    (r.result = false ∧ r.pather = p) ∨
      (r.result = true ∧ ∃ ent d, entity = some ent ∧ d.isValid = true ∧
        r.pather.mData = p.mData.insert ent.ident d) := by
  unfold GridPather.moveEntityToWith at h
  cases entity with
  | none => cases h; exact Or.inl ⟨rfl, rfl⟩
  | some ent =>
    cases hT : p.mTimer with
    | none => simp only [hT] at h; cases h; exact Or.inl ⟨rfl, rfl⟩
    | some t =>
      cases hP : p.mPassabilityAgent with
      | none => simp only [hT, hP] at h; cases h; exact Or.inl ⟨rfl, rfl⟩
      | some isPassable =>
        cases hS : p.mSteeringAgent with
        | none => simp only [hT, hP, hS] at h; cases h; exact Or.inl ⟨rfl, rfl⟩
        | some s =>
          simp only [hT, hP, hS] at h
          by_cases hpass : (!isPassable ent.centrePos ent) = true
          · rw [if_pos hpass] at h
            cases h; exact Or.inl ⟨rfl, rfl⟩
          · rw [if_neg hpass] at h
            cases hx : cellCentreDiff ent.centrePos.x p.mCellSize with
            | none => simp only [hx] at h; cases h
            | some xDiff =>
              cases hy : cellCentreDiff ent.centrePos.y p.mCellSize with
              | none => simp only [hx, hy] at h; cases h
              | some yDiff =>
                simp only [hx, hy] at h
                by_cases hd : xDiff ≠ 0 ∨ yDiff ≠ 0
                · rw [if_pos hd] at h
                  cases h; exact Or.inl ⟨rfl, rfl⟩
                · rw [if_neg hd] at h
                  cases h
                  rcases lookupOrSearch_pather limit mkAgent p isPassable ent pos with hh | hh
                  · exact Or.inl hh
                  · obtain ⟨h1, d, h2, h3⟩ := hh
                    exact Or.inr ⟨h1, ent, d, rfl, h2, h3⟩

/-! ## Cancellation (C10) -/

/-- A tick makes no call for an entity that is not tracked and does not start
tracking it. -/
theorem timerUpdated_untracked {σ : Type} (p p1 : GridPather σ) (delta : ℚ) (world world1 : σ)
    (calls : List SteerCall) (h : p.timerUpdated delta world = some (p1, world1, calls))
    (e : Nat) (he : p.mData.lookup e = none) :
    p1.mData.lookup e = none ∧ ∀ c ∈ calls, c.entity ≠ e := by
  unfold GridPather.timerUpdated at h
  cases hl : timerUpdatedLoop p.mSteeringAgent delta p.mData.keys ⟨p.mData, world, []⟩ with
  | none => rw [hl] at h; cases h
  | some st1 =>
    rw [hl] at h
    simp only [Option.some.injEq, Prod.mk.injEq] at h
    obtain ⟨hp, _, hc⟩ := h
    have hnot : e ∉ p.mData.keys := fun hh =>
      AList.lookup_eq_none.mp he (AList.mem_keys.mpr hh)
    obtain ⟨h1, h2⟩ := timerUpdatedLoop_frame p.mSteeringAgent delta p.mData.keys _ st1 hl e hnot
    subst hp hc
    refine ⟨h1.trans he, ?_⟩
    intro c hc hce
    have hmem : c ∈ st1.calls.filter (fun c => decide (c.entity = e)) :=
      List.mem_filter.mpr ⟨hc, by simpa using hce⟩
    rw [h2] at hmem
    simp at hmem

/-- As long as no `moveEntityTo` for an untracked entity returns true, no call
of the pather steers it. -/
theorem callsUntilMoved_untracked {σ : Type} (mkAgent : QPointF → GridPathAgent) (e : Nat) :
    ∀ (ops : List PatherOp) (p : GridPather σ) (world : σ) (calls : List SteerCall),
      p.mData.lookup e = none → p.callsUntilMoved mkAgent e ops world = some calls →
      ∀ c ∈ calls, c.entity ≠ e := by
  intro ops
  induction ops with
  | nil =>
    intro p world calls _ h
    simp only [GridPather.callsUntilMoved, Option.some.injEq] at h
    subst h
    intro c hc
    cases hc
  | cons op rest ih =>
    intro p world calls he h
    cases op with
    | timerUpdated delta =>
      simp only [GridPather.callsUntilMoved] at h
      cases ht : p.timerUpdated delta world with
      | none => rw [ht] at h; cases h
      | some r =>
        obtain ⟨p1, world1, calls1⟩ := r
        rw [ht] at h
        simp only at h
        cases hr : GridPather.callsUntilMoved mkAgent e rest p1 world1 with
        | none => rw [hr] at h; cases h
        | some calls2 =>
          rw [hr] at h
          simp only [Option.some.injEq] at h
          subst h
          obtain ⟨h1, h2⟩ := timerUpdated_untracked p p1 delta world world1 calls1 ht e he
          intro c hc
          rcases List.mem_append.mp hc with hc | hc
          · exact h2 c hc
          · exact ih p1 world1 calls2 h1 hr c hc
    | moveEntityTo moved pos =>
      simp only [GridPather.callsUntilMoved] at h
      cases hm : p.moveEntityTo mkAgent moved pos with
      | none => rw [hm] at h; cases h
      | some r =>
        rw [hm] at h
        simp only at h
        by_cases hres : (r.result && decide (moved.map (fun e => e.ident) = some e)) = true
        · rw [if_pos hres] at h
          simp only [Option.some.injEq] at h
          subst h
          intro c hc
          cases hc
        · rw [if_neg hres] at h
          have hlook : r.pather.mData.lookup e = none := by
            rcases moveEntityToWith_pather iterationLimit mkAgent p moved pos r hm with
              ⟨_, hp⟩ | ⟨hrt, ent, d, hent, _, hd⟩
            · rw [hp]; exact he
            · rw [hd]
              have hne : e ≠ ent.ident := by
                intro hh
                apply hres
                simp [hrt, hent, hh]
              rw [AList.lookup_insert_ne hne]
              exact he
          exact ih r.pather world calls hlook h
    | cancelEntityMovement cancelled =>
      simp only [GridPather.callsUntilMoved] at h
      have hlook : (p.cancelEntityMovement cancelled).mData.lookup e = none := by
        show (p.mData.erase cancelled).lookup e = none
        by_cases hh : e = cancelled
        · subst hh; exact AList.lookup_erase _ _
        · rw [AList.lookup_erase_ne hh]; exact he
      exact ih _ world calls hlook h

/-- C10: after `cancelEntityMovement(entity)`, `pathData(entity)` is invalid;
the tracked path of every other entity is as before; if the entity was not
tracked the tracking table is as before; and in every later run of calls
of the pather, no `steerTo` call is made for the entity before a
`moveEntityTo` for it returns true. -/
theorem cancelEntityMovement_stops_steering {σ : Type} (mkAgent : QPointF → GridPathAgent)
    (p : GridPather σ) (entity : Nat) :
    ((p.cancelEntityMovement entity).pathData entity).isValid = false ∧
      (∀ e, e ≠ entity →
        (p.cancelEntityMovement entity).mData.lookup e = p.mData.lookup e ∧
          (p.cancelEntityMovement entity).pathData e = p.pathData e) ∧
      (p.mData.lookup entity = none → (p.cancelEntityMovement entity).mData = p.mData) ∧
      ∀ (ops : List PatherOp) (world : σ) (calls : List SteerCall),
        (p.cancelEntityMovement entity).callsUntilMoved mkAgent entity ops world = some calls →
        ∀ c ∈ calls, c.entity ≠ entity := by
  have hgone : (p.cancelEntityMovement entity).mData.lookup entity = none :=
    AList.lookup_erase _ _
  refine ⟨?_, ?_, ?_, ?_⟩
  · unfold GridPather.pathData
    rw [hgone]
    rfl
  · intro e he
    have hl : (p.cancelEntityMovement entity).mData.lookup e = p.mData.lookup e :=
      AList.lookup_erase_ne he
    refine ⟨hl, ?_⟩
    unfold GridPather.pathData
    rw [hl]
  · intro hnone
    have hnot : entity ∉ p.mData.entries.keys := fun hh =>
      AList.lookup_eq_none.mp hnone (AList.mem_keys.mpr hh)
    apply AList.ext
    show List.kerase entity p.mData.entries = p.mData.entries
    exact List.kerase_of_not_mem_keys hnot
  · intro ops world calls h
    exact callsUntilMoved_untracked mkAgent entity ops _ world calls hgone h

/-- C10, witness: entities 1 and 2 are tracked, 1 is cancelled; the ticks that
follow steer entity 2 only. -/
theorem cancelEntityMovement_stops_steering_witness :
    (twoEntityPather.cancelEntityMovement 1).callsUntilMoved baselineAgent 1
        [.timerUpdated (1 / 60), .timerUpdated (1 / 60)] () =
        some [⟨2, ⟨48, 16⟩, 1 / 60, true⟩] ∧
      ∀ c ∈ [(⟨2, ⟨48, 16⟩, 1 / 60, true⟩ : SteerCall)], c.entity ≠ 1 :=
  ⟨by decide!,
    (cancelEntityMovement_stops_steering baselineAgent twoEntityPather 1).2.2.2
      [.timerUpdated (1 / 60), .timerUpdated (1 / 60)] () _ (by decide!)⟩

/-! ## Rounding and the cell-centre check -/

theorem onBinaryGrid_intCast (k : Int) : OnBinaryGrid (k : ℚ) :=
  ⟨k * 1048576, by push_cast; field_simp⟩

theorem onBinaryGrid_add (a b : ℚ) (ha : OnBinaryGrid a) (hb : OnBinaryGrid b) :
    OnBinaryGrid (a + b) := by
  obtain ⟨m, hm⟩ := ha
  obtain ⟨n, hn⟩ := hb
  exact ⟨m + n, by rw [hm, hn]; push_cast; ring⟩

theorem onBinaryGrid_sub (a b : ℚ) (ha : OnBinaryGrid a) (hb : OnBinaryGrid b) :
    OnBinaryGrid (a - b) := by
  obtain ⟨m, hm⟩ := ha
  obtain ⟨n, hn⟩ := hb
  exact ⟨m - n, by rw [hm, hn]; push_cast; ring⟩

theorem onBinaryGrid_half : OnBinaryGrid (1 / 2) := ⟨524288, by norm_num⟩

theorem onBinaryGrid_one : OnBinaryGrid 1 := ⟨1048576, by norm_num⟩

theorem roundTiesEven_intCast (n : Int) : roundTiesEven (n : ℚ) = n := by
  unfold roundTiesEven
  simp

theorem binadeFrom_le (a : ℚ) : ∀ (fuel : Nat) (e : Int), binadeFrom a fuel e ≤ e := by
  intro fuel
  induction fuel with
  | zero => intro e; exact le_refl e
  | succ fuel ih =>
    intro e
    unfold binadeFrom
    split
    · exact le_refl e
    · have := ih (e - 1)
      omega

theorem pow2_neg (k : Nat) (hk : 0 < k) : pow2 (-(k : Int)) = (((2 ^ k : Nat) : ℚ))⁻¹ := by
  unfold pow2
  have h : ¬ (0 : Int) ≤ -(k : Int) := by omega
  rw [if_neg h]
  simp

/-- Values on the binary grid below `2 ^ 32` in magnitude are doubles: rounding
leaves them as they are. -/
theorem toDouble_exact (q : ℚ) (hq : OnBinaryGrid q) : toDouble q = q := by
  unfold toDouble
  split
  · rfl
  · obtain ⟨n, hn⟩ := hq
    have hle := binadeFrom_le |q| 1053 31
    obtain ⟨k, hk⟩ : ∃ k : Nat, binadeFrom |q| 1053 31 - 52 = -((k + 21 : Nat) : Int) :=
      ⟨(31 - binadeFrom |q| 1053 31).toNat, by omega⟩
    simp only
    rw [hk, pow2_neg _ (by omega)]
    have hint : q / (((2 ^ (k + 21) : Nat) : ℚ))⁻¹ = ((n * 2 ^ (k + 1) : Int) : ℚ) := by
      rw [hn]
      push_cast
      rw [div_inv_eq_mul, pow_add, pow_add]
      norm_num
      ring
    rw [hint, roundTiesEven_intCast, hn]
    push_cast
    rw [pow_add, pow_add]
    field_simp
    ring

theorem tdiv_num_den_of_nonneg (d : ℚ) (h : 0 ≤ d) : Int.tdiv d.num d.den = ⌊d⌋ := by
  rw [Rat.floor_def, Int.tdiv_eq_ediv (Rat.num_nonneg.mpr h) (Int.ofNat_nonneg _)]

theorem tdiv_num_den_of_nonpos (d : ℚ) (h : d ≤ 0) : Int.tdiv d.num d.den = ⌈d⌉ := by
  have h1 : Int.tdiv d.num d.den = -Int.tdiv (-d).num (-d).den := by
    rw [Rat.neg_num, Rat.neg_den, Int.neg_tdiv, neg_neg]
  rw [h1, tdiv_num_den_of_nonneg (-d) (by linarith), Int.floor_neg, neg_neg]

theorem truncToInt_of_nonneg (d : ℚ) (h : 0 ≤ d) (hr : d < 2147483648) :
    truncToInt d = some ⌊d⌋ := by
  have h0 : (0 : Int) ≤ ⌊d⌋ := Int.floor_nonneg.mpr h
  have h1 : ⌊d⌋ < 2147483648 := by
    rw [Int.floor_lt]
    exact_mod_cast hr
  unfold truncToInt intMin intMax
  simp only [tdiv_num_den_of_nonneg d h]
  rw [if_pos ⟨by omega, by omega⟩]

theorem truncToInt_of_nonpos (d : ℚ) (h : d ≤ 0) (hr : -2147483649 < d) :
    truncToInt d = some ⌈d⌉ := by
  have h0 : ⌈d⌉ ≤ 0 := Int.ceil_le.mpr (by exact_mod_cast h)
  have h1 : -2147483649 < ⌈d⌉ := by
    rw [Int.lt_ceil]
    exact_mod_cast hr
  unfold truncToInt intMin intMax
  simp only [tdiv_num_den_of_nonpos d h]
  rw [if_pos ⟨by omega, by omega⟩]

theorem abs_tdiv_two_le (c : Int) (b : Int) (hc : |c| ≤ 2 * b) :
    |Int.tdiv c 2| ≤ b := by
  have h1 := abs_le.mp hc
  rcases le_total 0 c with h | h
  · rw [Int.tdiv_eq_ediv h (by decide), abs_le]
    constructor <;> omega
  · have h2 : Int.tdiv c 2 = -((-c) / 2) := by
      rw [← Int.tdiv_eq_ediv (by omega) (by decide), Int.neg_tdiv, neg_neg]
    rw [h2, abs_le]
    constructor <;> omega

/-- In the range of `int` and on the binary grid, Qt 5 `qRound` rounds to the
nearest integer, halves upwards. -/
theorem qRound_exact (d : ℚ) (hd : OnBinaryGrid d) (hlo : -2147483648 < d)
    (hhi : d < 2147483647) : qRound d = some ⌊d + 1 / 2⌋ := by
  unfold qRound
  by_cases h : d ≥ 0
  · rw [if_pos h, toDouble_exact _ (onBinaryGrid_add _ _ hd onBinaryGrid_half)]
    exact truncToInt_of_nonneg _ (by linarith) (by linarith)
  · rw [if_neg h]
    have h' : d < 0 := lt_of_not_ge h
    rw [toDouble_exact _ (onBinaryGrid_sub _ _ hd onBinaryGrid_one),
      truncToInt_of_nonpos (d - 1) (by linarith) (by linarith)]
    simp only
    have hc1 : (⌈d - 1⌉ : ℚ) < d := by
      have := Int.ceil_lt_add_one (d - 1)
      linarith
    have hc2 : d - 1 ≤ (⌈d - 1⌉ : ℚ) := Int.le_ceil _
    rw [toDouble_exact _ (onBinaryGrid_sub _ _ hd (onBinaryGrid_intCast _)),
      toDouble_exact _ (onBinaryGrid_add _ _
        (onBinaryGrid_sub _ _ hd (onBinaryGrid_intCast _)) onBinaryGrid_half),
      truncToInt_of_nonneg _ (by linarith) (by linarith)]
    simp only
    have hsum : ⌊d - (⌈d - 1⌉ : ℚ) + 1 / 2⌋ + ⌈d - 1⌉ = ⌊d + 1 / 2⌋ := by
      rw [← Int.floor_add_int]
      congr 1
      ring
    rw [hsum]
    have h1 : -2147483649 < ⌊d + 1 / 2⌋ := by
      rw [Int.lt_iff_add_one_le, Int.le_floor]
      push_cast
      linarith
    have h2 : ⌊d + 1 / 2⌋ ≤ 0 := by
      have : ⌊d + 1 / 2⌋ < 1 := by
        rw [Int.floor_lt]
        push_cast
        linarith
      omega
    unfold intMin intMax
    rw [if_pos ⟨by omega, by omega⟩]

/-- The cell-centre check where its double arithmetic is exact and its
conversions to `int` are in range. -/
theorem cellCentreDiff_exact (v : ℚ) (c : Int) (hc : c ≠ 0) (hv : OnBinaryGrid v)
    (hvr : |v| ≤ 1073741824) (hcr : |c| ≤ 1073741824) :
    cellCentreDiff v c =
      some (Int.tmod ⌊v - ((Int.tdiv c 2 : Int) : ℚ) + 1 / 2⌋ c) := by
  have hh : |Int.tdiv c 2| ≤ 536870912 := abs_tdiv_two_le c 536870912 hcr
  have hhq : |((Int.tdiv c 2 : Int) : ℚ)| ≤ 536870912 := by
    exact_mod_cast hh
  have hd := abs_le.mp hvr
  have hh2 := abs_le.mp hhq
  have hgrid := onBinaryGrid_sub _ _ hv (onBinaryGrid_intCast (Int.tdiv c 2))
  unfold cellCentreDiff
  rw [if_neg hc, toDouble_exact _ hgrid, qRound_exact _ hgrid (by linarith) (by linarith)]
  simp only
  have hne : ¬ (⌊v - ((Int.tdiv c 2 : Int) : ℚ) + 1 / 2⌋ = intMin ∧ c = -1) := by
    rintro ⟨h1, _⟩
    have : (-2147483647 : Int) ≤ ⌊v - ((Int.tdiv c 2 : Int) : ℚ) + 1 / 2⌋ := by
      rw [Int.le_floor]
      push_cast
      linarith
    unfold intMin at h1
    omega
  rw [if_neg hne]

/-- The check at two starts outside the exact range. With cell size 2 the start
`(2 ^ 53 - 1) / 2 ^ 54` passes, because the `double` subtraction rounds `x - 1`
to `-1/2`; with cell size 32 the start 10000000017 makes the conversion to
`int` undefined. -/
theorem cellCentreDiff_rounding_examples :
    toDouble (9007199254740991 / 18014398509481984 - 1) = -1 / 2 ∧
      cellCentreDiff (9007199254740991 / 18014398509481984) 2 = some 0 ∧
      cellCentreDiff 10000000017 32 = none := by
  refine ⟨by decide!, by decide!, by decide!⟩

/-- C2: the start cell (16, 16) is walled in and the target (48, 16) cannot be
reached. The search selects the start node, finds no passable neighbour and
ends with an empty open list after one iteration; `moveEntityTo` then returns
true, tracks the entity along an empty path and stores that path in the cache. -/
theorem moveEntityTo_unreachable_returns_true :
    (walledPather.moveEntityTo baselineAgent (some entityA) ⟨48, 16⟩).map
        (fun r => r.result) = some true ∧
      (walledPather.moveEntityTo baselineAgent (some entityA) ⟨48, 16⟩).map
        (fun r => r.search.map (fun st => (st.openList, st.closedList, st.iterations))) =
        some (some ([], [GridPathNode.new ⟨16, 16⟩], 1)) ∧
      (walledPather.moveEntityTo baselineAgent (some entityA) ⟨48, 16⟩).map
        (fun r => r.pather.mData.lookup 1) = some (some ⟨⟨48, 16⟩, [], 0⟩) ∧
      (walledPather.moveEntityTo baselineAgent (some entityA) ⟨48, 16⟩).map
        (fun r => r.pather.mPathCache) =
        some (some ⟨[(⟨0, ⟨16, 16⟩, ⟨48, 16⟩⟩, ⟨⟨48, 16⟩, [], 0⟩)]⟩) ∧
      walledPather.mData.lookup 1 = none ∧ walledPather.mPathCache = some ⟨[]⟩ := by
  refine ⟨by decide!, by decide!, by decide!, by decide!, by decide!, by decide!⟩

/-! ## Start positions off the cell centre (C5) -/

/-- With the entity and the collaborators there, the start passable and cell
centred, `moveEntityTo` is the cache lookup followed by the search. -/
theorem moveEntityToWith_valid {σ : Type} (limit : Nat) (mkAgent : QPointF → GridPathAgent)
    (p : GridPather σ) (ent : QuickEntity) (pos : QPointF) (t : Nat)
    (isPassable : PassabilityAgent) (s : SteeringAgent σ) (hT : p.mTimer = some t)
    (hP : p.mPassabilityAgent = some isPassable) (hS : p.mSteeringAgent = some s)
    (hpass : isPassable ent.centrePos ent = true)
    (hx : cellCentreDiff ent.centrePos.x p.mCellSize = some 0)
    (hy : cellCentreDiff ent.centrePos.y p.mCellSize = some 0) :
    p.moveEntityToWith limit mkAgent (some ent) pos =
      some (p.lookupOrSearch limit mkAgent isPassable ent pos) := by
  unfold GridPather.moveEntityToWith
  simp only [hT, hP, hS, hpass, hx, hy]
  simp

/-- A call of `moveEntityTo` that does not fail in the validation: the entity
and the collaborators are there, the start is passable and cell centred, and
the outcome is that of the cache lookup followed by the search. -/
theorem moveEntityToWith_inv {σ : Type} (limit : Nat) (mkAgent : QPointF → GridPathAgent)
    (p : GridPather σ) (entity : Option QuickEntity) (pos : QPointF) (r : MoveOutcome σ)
    (h : p.moveEntityToWith limit mkAgent entity pos = some r)
    (hr : r.result = true ∨ r.search.isSome = true) :
    ∃ ent t isPassable s, entity = some ent ∧ p.mTimer = some t ∧
      p.mPassabilityAgent = some isPassable ∧ p.mSteeringAgent = some s ∧
      isPassable ent.centrePos ent = true ∧
      cellCentreDiff ent.centrePos.x p.mCellSize = some 0 ∧
      cellCentreDiff ent.centrePos.y p.mCellSize = some 0 ∧
      r = p.lookupOrSearch limit mkAgent isPassable ent pos := by
  have hfalse : ∀ (q : List QPointF), r = ⟨false, p, q, 0, none⟩ → False := by
    intro q hq
    subst hq
    rcases hr with hr | hr <;> cases hr
  unfold GridPather.moveEntityToWith at h
  cases entity with
  | none => cases h; exact (hfalse _ rfl).elim
  | some ent =>
    cases hT : p.mTimer with
    | none => simp only [hT] at h; cases h; exact (hfalse _ rfl).elim
    | some t =>
      cases hP : p.mPassabilityAgent with
      | none => simp only [hT, hP] at h; cases h; exact (hfalse _ rfl).elim
      | some isPassable =>
        cases hS : p.mSteeringAgent with
        | none => simp only [hT, hP, hS] at h; cases h; exact (hfalse _ rfl).elim
        | some s =>
          simp only [hT, hP, hS] at h
          by_cases hpass : (!isPassable ent.centrePos ent) = true
          · rw [if_pos hpass] at h
            cases h; exact (hfalse _ rfl).elim
          · rw [if_neg hpass] at h
            cases hx : cellCentreDiff ent.centrePos.x p.mCellSize with
            | none => simp only [hx] at h; cases h
            | some xDiff =>
              cases hy : cellCentreDiff ent.centrePos.y p.mCellSize with
              | none => simp only [hx, hy] at h; cases h
              | some yDiff =>
                simp only [hx, hy] at h
                by_cases hd : xDiff ≠ 0 ∨ yDiff ≠ 0
                · rw [if_pos hd] at h
                  cases h; exact (hfalse _ rfl).elim
                · rw [if_neg hd] at h
                  cases h
                  have hx0 : xDiff = 0 := by
                    by_contra hne; exact hd (Or.inl hne)
                  have hy0 : yDiff = 0 := by
                    by_contra hne; exact hd (Or.inr hne)
                  subst hx0 hy0
                  refine ⟨ent, t, isPassable, s, rfl, rfl, rfl, rfl, ?_, hx, hy, rfl⟩
                  simpa using hpass

/-! ## The path cache (C6) -/

theorem cachedData_addCachedData (c : PathCache) (entity : QuickEntity) (pos : QPointF)
    (d : GridPathData) : (c.addCachedData entity pos d).cachedData entity pos = d := by
  unfold PathCache.addCachedData PathCache.cachedData
  simp

theorem cachedData_congr (c : PathCache) (e1 e2 : QuickEntity) (pos : QPointF)
    (hshape : e1.shape = e2.shape) (hpos : e1.centrePos = e2.centrePos) :
    c.cachedData e1 pos = c.cachedData e2 pos := by
  unfold PathCache.cachedData
  rw [hshape, hpos]

/-- The cache lookup and the search leave the cell size and the collaborators
as they are. -/
theorem lookupOrSearch_fields {σ : Type} (limit : Nat) (mkAgent : QPointF → GridPathAgent)
    (p : GridPather σ) (isPassable : PassabilityAgent) (ent : QuickEntity) (pos : QPointF) :
    (p.lookupOrSearch limit mkAgent isPassable ent pos).pather.mCellSize = p.mCellSize ∧
      (p.lookupOrSearch limit mkAgent isPassable ent pos).pather.mTimer = p.mTimer ∧
      (p.lookupOrSearch limit mkAgent isPassable ent pos).pather.mPassabilityAgent =
        p.mPassabilityAgent ∧
      (p.lookupOrSearch limit mkAgent isPassable ent pos).pather.mSteeringAgent =
        p.mSteeringAgent := by
  have hs : ∀ st : SearchState,
      (p.afterSearch limit ent pos st).pather.mCellSize = p.mCellSize ∧
      (p.afterSearch limit ent pos st).pather.mTimer = p.mTimer ∧
      (p.afterSearch limit ent pos st).pather.mPassabilityAgent = p.mPassabilityAgent ∧
      (p.afterSearch limit ent pos st).pather.mSteeringAgent = p.mSteeringAgent := by
    intro st
    unfold GridPather.afterSearch
    by_cases h1 : st.iterations = limit
    · simp [h1]
    · by_cases h2 : st.closedList.isEmpty
      · simp [h1, h2]
      · simp [h1, h2, GridPather.addEntity]
  unfold GridPather.lookupOrSearch
  cases hc : p.mPathCache with
  | none => exact hs _
  | some cache =>
    simp only
    by_cases hv : (cache.cachedData ent pos).isValid = true
    · rw [if_pos hv]
      exact ⟨rfl, rfl, rfl, rfl⟩
    · rw [if_neg hv]
      exact hs _

/-- After a successful lookup-or-search with a cache bound, the cache holds
for (entity, target) the valid path data the entity is now tracked with. -/
theorem lookupOrSearch_true_cache {σ : Type} (limit : Nat) (mkAgent : QPointF → GridPathAgent)
    (p : GridPather σ) (isPassable : PassabilityAgent) (ent : QuickEntity) (pos : QPointF)
    (cache : PathCache) (hc : p.mPathCache = some cache)
    (hres : (p.lookupOrSearch limit mkAgent isPassable ent pos).result = true) :
    ∃ cache1,
      (p.lookupOrSearch limit mkAgent isPassable ent pos).pather.mPathCache = some cache1 ∧
      (cache1.cachedData ent pos).isValid = true ∧
      (p.lookupOrSearch limit mkAgent isPassable ent pos).pather.mData.lookup ent.ident =
        some (cache1.cachedData ent pos) := by
  unfold GridPather.lookupOrSearch at hres ⊢
  simp only [hc] at hres ⊢
  by_cases hv : (cache.cachedData ent pos).isValid = true
  · rw [if_pos hv]
    exact ⟨cache, hc, hv, AList.lookup_insert _⟩
  · rw [if_neg hv] at hres ⊢
    unfold GridPather.afterSearch at hres ⊢
    by_cases h1 : (runSearch (mkAgent pos) isPassable ent ent.centrePos p.mCellSize
        limit).iterations = limit
    · simp [h1] at hres
    · by_cases h2 : (runSearch (mkAgent pos) isPassable ent ent.centrePos p.mCellSize
          limit).closedList.isEmpty
      · simp [h1, h2] at hres
      · simp only [h1, h2, if_false, hc, Option.map]
        refine ⟨_, rfl, ?_, ?_⟩
        · rw [cachedData_addCachedData]
          rfl
        · rw [cachedData_addCachedData]
          exact AList.lookup_insert _

/-- C6, counterexample: the second of two identical calls returns true from the
cache, and has called `isPassable` once, for the start position. -/
theorem moveEntityTo_second_call_queries_oracle :
    (openPather.moveEntityTo baselineAgent (some entityA) ⟨48, 16⟩).bind
        (fun r1 => (r1.pather.moveEntityTo baselineAgent (some entityA) ⟨48, 16⟩).map
          (fun r2 => (r1.result, r2.result, r2.queries))) =
      some (true, true, [⟨16, 16⟩]) := by
  decide!

/-- C6, amended: with a path cache bound, after a first `moveEntityTo(entity, pos)`
has returned true, a second call with the same target for an entity of the same
shape at the same start position (the same entity, or one whose start the
passability agent accepts) returns true, tracks the entity with a path data
identical to the first call's, runs no search, and calls `isPassable` exactly
once, for the start position. -/
theorem moveEntityTo_second_call_hits_cache {σ : Type} (mkAgent : QPointF → GridPathAgent)
    (p : GridPather σ) (cache : PathCache) (hcache : p.mPathCache = some cache)
    (entity : QuickEntity) (pos : QPointF) (r1 : MoveOutcome σ)
    (h1 : p.moveEntityTo mkAgent (some entity) pos = some r1) (htrue : r1.result = true)
    (entity2 : QuickEntity) (hshape : entity2.shape = entity.shape)
    (hpos : entity2.centrePos = entity.centrePos)
    (hacc : entity2 = entity ∨
      ∀ f, p.mPassabilityAgent = some f → f entity2.centrePos entity2 = true) :
    ∃ r2, r1.pather.moveEntityTo mkAgent (some entity2) pos = some r2 ∧ r2.result = true ∧
      r2.pather.pathData entity2.ident = r1.pather.pathData entity.ident ∧
      r2.queries = [entity2.centrePos] ∧ r2.cacheLookups = 1 ∧ r2.search = none := by
  obtain ⟨ent, t, isPassable, s, hent, hT, hP, hS, hpass, hx, hy, hr1⟩ :=
    moveEntityToWith_inv iterationLimit mkAgent p (some entity) pos r1 h1 (Or.inl htrue)
  cases hent
  obtain ⟨f1, f2, f3, f4⟩ := lookupOrSearch_fields iterationLimit mkAgent p isPassable entity pos
  rw [← hr1] at f1 f2 f3 f4
  obtain ⟨cache1, hc1, hv1, hl1⟩ :=
    lookupOrSearch_true_cache iterationLimit mkAgent p isPassable entity pos cache hcache
      (hr1 ▸ htrue)
  rw [← hr1] at hc1 hl1
  have hpass2 : isPassable entity2.centrePos entity2 = true := by
    rcases hacc with h | h
    · rw [h]; exact hpass
    · exact h isPassable hP
  have hcd : cache1.cachedData entity2 pos = cache1.cachedData entity pos :=
    cachedData_congr cache1 entity2 entity pos hshape hpos
  have h2 : r1.pather.moveEntityTo mkAgent (some entity2) pos =
      some (r1.pather.lookupOrSearch iterationLimit mkAgent isPassable entity2 pos) :=
    moveEntityToWith_valid iterationLimit mkAgent r1.pather entity2 pos t isPassable s
      (f2.trans hT) (f3.trans hP) (f4.trans hS) hpass2
      (by rw [f1, hpos]; exact hx) (by rw [f1, hpos]; exact hy)
  have h3 : r1.pather.lookupOrSearch iterationLimit mkAgent isPassable entity2 pos =
      ⟨true, r1.pather.addEntity entity2 (cache1.cachedData entity pos),
        [entity2.centrePos], 1, none⟩ := by
    unfold GridPather.lookupOrSearch
    simp only [hc1, hcd, hv1, if_true]
  refine ⟨_, h2, ?_⟩
  rw [h3]
  refine ⟨rfl, ?_, rfl, rfl, rfl⟩
  unfold GridPather.pathData
  rw [hl1]
  show (match (r1.pather.mData.insert entity2.ident (cache1.cachedData entity pos)).lookup
    entity2.ident with
    | some data => data
    | none => GridPathData.new) = _
  rw [AList.lookup_insert]

/-- C6, amended, witness: the same entity asks twice for the path to (48, 16). -/
theorem moveEntityTo_second_call_hits_cache_witness :
    ∃ r1, openPather.moveEntityTo baselineAgent (some entityA) ⟨48, 16⟩ = some r1 ∧
      ∃ r2, r1.pather.moveEntityTo baselineAgent (some entityA) ⟨48, 16⟩ = some r2 ∧
        r2.result = true ∧
        r2.pather.pathData entityA.ident = r1.pather.pathData entityA.ident ∧
        r2.queries = [entityA.centrePos] ∧ r2.cacheLookups = 1 ∧ r2.search = none :=
  ⟨openPather.lookupOrSearch iterationLimit baselineAgent openGrid entityA ⟨48, 16⟩,
    moveEntityToWith_valid iterationLimit baselineAgent openPather entityA ⟨48, 16⟩ 0 openGrid
      arriveAtOnce rfl rfl rfl rfl (by decide!) (by decide!),
    moveEntityTo_second_call_hits_cache baselineAgent openPather ⟨[]⟩ rfl entityA ⟨48, 16⟩
      (openPather.lookupOrSearch iterationLimit baselineAgent openGrid entityA ⟨48, 16⟩)
      (moveEntityToWith_valid iterationLimit baselineAgent openPather entityA ⟨48, 16⟩ 0
        openGrid arriveAtOnce rfl rfl rfl rfl (by decide!) (by decide!))
      (by decide!) entityA rfl rfl (Or.inl rfl)⟩

/-! ## Selection of the lowest node -/

/-- The index `minElementFrom` returns holds an element of the range that is
not greater, by the key `f`, than any element of the range. -/
theorem minElementFrom_spec {α : Type} (lt : α → α → Bool) (f : α → ℚ)
    (hlt : ∀ a b, lt a b = decide (f a < f b)) (l : List α) :
    ∀ (xs : List α) (best i : Nat) (bestVal : α), l.get? best = some bestVal →
      (∀ j, j < xs.length → l.get? (i + j) = xs.get? j) → best < i →
      ∃ v, l.get? (minElementFrom lt best bestVal i xs) = some v ∧
        minElementFrom lt best bestVal i xs < i + xs.length ∧
        f v ≤ f bestVal ∧ ∀ y ∈ xs, f v ≤ f y := by
  intro xs
  induction xs with
  | nil =>
    intro best i bestVal hb _ hbi
    refine ⟨bestVal, hb, ?_, le_refl _, ?_⟩
    · simp only [minElementFrom, List.length_nil]; omega
    · intro y hy; cases hy
  | cons x xs ih =>
    intro best i bestVal hb hxs hbi
    have hx : l.get? i = some x := by
      have := hxs 0 (by simp)
      simpa using this
    have hxs' : ∀ j, j < xs.length → l.get? (i + 1 + j) = xs.get? j := by
      intro j hj
      have := hxs (j + 1) (by simp; omega)
      rw [show i + 1 + j = i + (j + 1) by omega, this]
      rfl
    unfold minElementFrom
    by_cases hc : lt x bestVal = true
    · rw [if_pos hc]
      obtain ⟨v, hv, hidx, hvx, hrest⟩ := ih i (i + 1) x hx hxs' (by omega)
      have hxb : f x < f bestVal := by
        rw [hlt] at hc
        exact of_decide_eq_true hc
      refine ⟨v, hv, ?_, ?_, ?_⟩
      · simp only [List.length_cons]; omega
      · linarith
      · intro y hy
        rcases List.mem_cons.mp hy with h | h
        · rw [h]; exact hvx
        · exact hrest y h
    · rw [if_neg hc]
      obtain ⟨v, hv, hidx, hvb, hrest⟩ := ih best (i + 1) bestVal hb hxs' (by omega)
      have hxb : ¬ f x < f bestVal := by
        intro hh
        apply hc
        rw [hlt]
        exact decide_eq_true hh
      refine ⟨v, hv, ?_, hvb, ?_⟩
      · simp only [List.length_cons]; omega
      · intro y hy
        rcases List.mem_cons.mp hy with h | h
        · rw [h]; linarith [not_lt.mp hxb]
        · exact hrest y h

/-- On a non-empty list `minElement` returns the index of an element whose key
is the least. -/
theorem minElement_spec {α : Type} (lt : α → α → Bool) (f : α → ℚ)
    (hlt : ∀ a b, lt a b = decide (f a < f b)) (l : List α) (hl : l ≠ []) :
    ∃ i v, minElement lt l = some i ∧ i < l.length ∧ l.get? i = some v ∧
      ∀ y ∈ l, f v ≤ f y := by
  cases l with
  | nil => exact absurd rfl hl
  | cons x xs =>
    obtain ⟨v, hv, hidx, hvx, hrest⟩ :=
      minElementFrom_spec lt f hlt (x :: xs) xs 0 1 x rfl
        (fun j _ => by rw [Nat.add_comm]; rfl) (by omega)
    refine ⟨_, v, rfl, ?_, hv, ?_⟩
    · simp only [List.length_cons]; omega
    · intro y hy
      rcases List.mem_cons.mp hy with h | h
      · rw [h]; exact hvx
      · exact hrest y h

theorem totalScoreLessThan_eq (a b : GridPathNode) :
    totalScoreLessThan a b = decide (a.totalCost < b.totalCost) := rfl

/-- The selection step on a non-empty open list: the selected node is on the
open list at some index `i`, no open node has a lower total cost, and the node
moves from index `i` of the open list to the end of the closed list. -/
theorem selectLowest_spec (st : SearchState) (hopen : st.openList ≠ []) :
    ∃ i sel, i < st.openList.length ∧ st.openList.get? i = some sel ∧
      (∀ n ∈ st.openList, sel.totalCost ≤ n.totalCost) ∧
      selectLowest st = some (sel,
        { st with closedList := st.closedList ++ [sel], selectedNode := some sel,
                  openList := st.openList.eraseIdx i }) := by
  obtain ⟨i, v, hmin, hi, hget, hleast⟩ :=
    minElement_spec totalScoreLessThan GridPathNode.totalCost totalScoreLessThan_eq
      st.openList hopen
  refine ⟨i, v, hi, hget, hleast, ?_⟩
  unfold selectLowest
  rw [hmin]
  simp only [hget]

theorem selectLowest_none (st : SearchState) (hopen : st.openList = []) :
    selectLowest st = none := by
  unfold selectLowest
  rw [hopen]
  rfl

/-- Whatever `selectLowest` returns is of the form `selectLowest_spec` gives. -/
theorem selectLowest_inv (st st1 : SearchState) (sel : GridPathNode)
    (h : selectLowest st = some (sel, st1)) :
    st.openList ≠ [] ∧ ∃ i, i < st.openList.length ∧ st.openList.get? i = some sel ∧
      (∀ n ∈ st.openList, sel.totalCost ≤ n.totalCost) ∧
      st1 = { st with closedList := st.closedList ++ [sel], selectedNode := some sel,
                      openList := st.openList.eraseIdx i } := by
  have hopen : st.openList ≠ [] := by
    intro hh
    rw [selectLowest_none st hh] at h
    cases h
  obtain ⟨i, sel2, hi, hget, hleast, heq⟩ := selectLowest_spec st hopen
  rw [heq] at h
  simp only [Option.some.injEq, Prod.mk.injEq] at h
  obtain ⟨h1, h2⟩ := h
  subst h1
  exact ⟨hopen, i, hi, hget, hleast, h2.symm⟩

/-! ## Expansion of the selected node -/

theorem linkTo_pos (ag : GridPathAgent) (n sel : GridPathNode) :
    (linkTo ag n sel).pos = n.pos := rfl

theorem linkTo_parent (ag : GridPathAgent) (n sel : GridPathNode) :
    (linkTo ag n sel).parent = some sel := rfl

theorem linkTo_lineage (ag : GridPathAgent) (n sel : GridPathNode) :
    (linkTo ag n sel).lineage = sel.lineage ++ [linkTo ag n sel] := rfl

theorem linkTo_startCost (ag : GridPathAgent) (n sel : GridPathNode) :
    (linkTo ag n sel).startCost = ag.calculateStartCost (n.setParent sel) := rfl

theorem linkTo_targetCost (ag : GridPathAgent) (n sel : GridPathNode) :
    (linkTo ag n sel).targetCost =
      ag.calculateTargetCost
        ((n.setParent sel).setStartCost (ag.calculateStartCost (n.setParent sel))) := rfl

theorem any_posComp (l : List GridPathNode) (adj : GridPathNode) :
    l.any (PathNodePosComp adj) = true ↔ adj.pos ∈ l.map GridPathNode.pos := by
  simp only [List.any_eq_true, PathNodePosComp, decide_eq_true_eq, List.mem_map]
  constructor
  · rintro ⟨n, hn, h⟩
    exact ⟨n, hn, h.symm⟩
  · rintro ⟨n, hn, h⟩
    exact ⟨n, hn, h.symm⟩

theorem find_posComp_none (l : List GridPathNode) (adj : GridPathNode) :
    l.find? (PathNodePosComp adj) = none ↔ adj.pos ∉ l.map GridPathNode.pos := by
  rw [List.find?_eq_none]
  simp only [PathNodePosComp, decide_eq_true_eq, List.mem_map, not_exists, not_and]
  constructor
  · intro h n hn hpos
    exact h n hn hpos.symm
  · intro h n hn hpos
    exact h n hn hpos.symm

/-- The effect of the loop body for one direction: the neighbour is queried,
and it is appended to the open list exactly when it is passable and its
position is on neither list. -/
theorem expandDirection_eq (ag : GridPathAgent) (isPassable : PassabilityAgent)
    (entity : QuickEntity) (c : Int) (sel : GridPathNode) (st : SearchState) (dir : QPointF) :
    expandDirection ag isPassable entity c sel st dir =
      { st with
        isPassableChecks := st.isPassableChecks + 1
        queries := st.queries ++ [sel.pos + dir.scale (c : ℚ)]
        openList :=
          if isPassable (sel.pos + dir.scale (c : ℚ)) entity = true ∧
              (sel.pos + dir.scale (c : ℚ)) ∉ st.closedList.map GridPathNode.pos ∧
              (sel.pos + dir.scale (c : ℚ)) ∉ st.openList.map GridPathNode.pos
          then st.openList ++ [linkTo ag (GridPathNode.new (sel.pos + dir.scale (c : ℚ))) sel]
          else st.openList } := by
  have hpos : (GridPathNode.new (sel.pos + dir.scale (c : ℚ))).pos = sel.pos + dir.scale (c : ℚ) :=
    rfl
  unfold expandDirection
  simp only [hpos]
  by_cases hw : isPassable (sel.pos + dir.scale (c : ℚ)) entity = true
  · by_cases hcl : (sel.pos + dir.scale (c : ℚ)) ∈ st.closedList.map GridPathNode.pos
    · have hany : st.closedList.any
          (PathNodePosComp (GridPathNode.new (sel.pos + dir.scale (c : ℚ)))) = true :=
        (any_posComp _ _).mpr hcl
      simp [hw, hcl, hany]
    · have hany : st.closedList.any
          (PathNodePosComp (GridPathNode.new (sel.pos + dir.scale (c : ℚ)))) = false := by
        rw [Bool.eq_false_iff]
        intro hh
        exact hcl ((any_posComp _ _).mp hh)
      by_cases hop : (sel.pos + dir.scale (c : ℚ)) ∈ st.openList.map GridPathNode.pos
      · cases hf : st.openList.find?
            (PathNodePosComp (GridPathNode.new (sel.pos + dir.scale (c : ℚ)))) with
        | none => exact absurd hop ((find_posComp_none _ _).mp hf)
        | some o => simp [hw, hcl, hany, hop]
      · have hf : st.openList.find?
            (PathNodePosComp (GridPathNode.new (sel.pos + dir.scale (c : ℚ)))) = none :=
          (find_posComp_none _ _).mpr hop
        simp [hw, hcl, hany, hop, hf]
  · simp [hw]

theorem expandDirection_closedList (ag : GridPathAgent) (isPassable : PassabilityAgent)
    (entity : QuickEntity) (c : Int) (sel : GridPathNode) (st : SearchState) (dir : QPointF) :
    (expandDirection ag isPassable entity c sel st dir).closedList = st.closedList := by
  rw [expandDirection_eq]

theorem expandDirection_iterations (ag : GridPathAgent) (isPassable : PassabilityAgent)
    (entity : QuickEntity) (c : Int) (sel : GridPathNode) (st : SearchState) (dir : QPointF) :
    (expandDirection ag isPassable entity c sel st dir).iterations = st.iterations := by
  rw [expandDirection_eq]

/-- A property of the search state that every direction of the expansion
preserves is preserved by the whole expansion. -/
theorem expandNode_induct (ag : GridPathAgent) (isPassable : PassabilityAgent)
    (entity : QuickEntity) (c : Int) (sel : GridPathNode) (P : SearchState → Prop)
    (hstep : ∀ st dir, dir ∈ straightDirections → P st →
      P (expandDirection ag isPassable entity c sel st dir))
    (st : SearchState) (h : P st) : P (expandNode ag isPassable entity c sel st) := by
  unfold expandNode
  have key : ∀ (ds : List QPointF), (∀ d ∈ ds, d ∈ straightDirections) → ∀ st, P st →
      P (ds.foldl (expandDirection ag isPassable entity c sel) st) := by
    intro ds
    induction ds with
    | nil => intro _ st h; exact h
    | cons d ds ih =>
      intro hds st h
      exact ih (fun d' hd' => hds d' (List.mem_cons_of_mem _ hd')) _
        (hstep st d (hds d (List.mem_cons_self _ _)) h)
  exact key straightDirections (fun _ hd => hd) st h

theorem expandNode_closedList (ag : GridPathAgent) (isPassable : PassabilityAgent)
    (entity : QuickEntity) (c : Int) (sel : GridPathNode) (st : SearchState) :
    (expandNode ag isPassable entity c sel st).closedList = st.closedList :=
  expandNode_induct ag isPassable entity c sel (fun s => s.closedList = st.closedList)
    (fun s dir _ h => (expandDirection_closedList ag isPassable entity c sel s dir).trans h)
    st rfl

theorem expandNode_iterations (ag : GridPathAgent) (isPassable : PassabilityAgent)
    (entity : QuickEntity) (c : Int) (sel : GridPathNode) (st : SearchState) :
    (expandNode ag isPassable entity c sel st).iterations = st.iterations :=
  expandNode_induct ag isPassable entity c sel (fun s => s.iterations = st.iterations)
    (fun s dir _ h => (expandDirection_iterations ag isPassable entity c sel s dir).trans h)
    st rfl

theorem expandAndCount_closedList (ag : GridPathAgent) (isPassable : PassabilityAgent)
    (entity : QuickEntity) (c : Int) (sel : GridPathNode) (st : SearchState) :
    (expandAndCount ag isPassable entity c sel st).closedList = st.closedList :=
  expandNode_closedList ag isPassable entity c sel st

theorem expandAndCount_openList (ag : GridPathAgent) (isPassable : PassabilityAgent)
    (entity : QuickEntity) (c : Int) (sel : GridPathNode) (st : SearchState) :
    (expandAndCount ag isPassable entity c sel st).openList =
      (expandNode ag isPassable entity c sel st).openList := rfl

theorem expandAndCount_iterations (ag : GridPathAgent) (isPassable : PassabilityAgent)
    (entity : QuickEntity) (c : Int) (sel : GridPathNode) (st : SearchState) :
    (expandAndCount ag isPassable entity c sel st).iterations = st.iterations + 1 := by
  show (expandNode ag isPassable entity c sel st).iterations + 1 = _
  rw [expandNode_iterations]

/-! ## The shape of the two lists -/

theorem lineage_eq_dropLast_append (n : GridPathNode) :
    n.lineage = n.lineage.dropLast ++ [n] := by
  cases n with
  | origin p s t => rfl
  | linked p s t par =>
    have e : (GridPathNode.linked p s t par).lineage =
        par.lineage ++ [GridPathNode.linked p s t par] := rfl
    rw [e, List.dropLast_concat]

theorem eraseIdx_perm {α : Type} (l : List α) (i : Nat) (a : α) (h : l.get? i = some a) :
    List.Perm l (a :: l.eraseIdx i) := by
  induction l generalizing i with
  | nil => simp at h
  | cons x xs ih =>
    cases i with
    | zero =>
      simp only [List.get?_cons_zero, Option.some.injEq] at h
      subst h
      exact List.Perm.refl _
    | succ i =>
      simp only [List.get?_cons_succ] at h
      simp only [List.eraseIdx_cons_succ]
      exact ((ih i h).cons x).trans (List.Perm.swap a x _)

theorem listsLinked_initial (c : Int) (startPos : QPointF) :
    ListsLinked c startPos (initialSearchState startPos) := by
  refine ⟨?_, ?_, ?_⟩
  · intro n hn; cases hn
  · intro n hn
    have : n = GridPathNode.new startPos := by
      simpa [initialSearchState] using hn
    subst this
    exact ⟨rfl, List.nil_sublist _⟩
  · simp [initialSearchState]

theorem listsLinked_select (c : Int) (startPos : QPointF) (st st1 : SearchState)
    (sel : GridPathNode) (h : ListsLinked c startPos st)
    (hsel : selectLowest st = some (sel, st1)) :
    ListsLinked c startPos st1 ∧ st1.closedList = st.closedList ++ [sel] ∧
      sel ∈ st.openList := by
  obtain ⟨_, i, hi, hget, _, heq⟩ := selectLowest_inv st st1 sel hsel
  subst heq
  have hmem : sel ∈ st.openList := List.get?_mem hget
  obtain ⟨hw, hsub⟩ := h.opened sel hmem
  refine ⟨⟨?_, ?_, ?_⟩, rfl, hmem⟩
  · intro n hn
    rcases List.mem_append.mp hn with hn | hn
    · obtain ⟨h1, h2⟩ := h.closed n hn
      exact ⟨h1, h2.trans (List.sublist_append_left _ _)⟩
    · have : n = sel := by simpa using hn
      subst this
      refine ⟨hw, ?_⟩
      rw [lineage_eq_dropLast_append n]
      exact List.Sublist.append hsub (List.Sublist.refl _)
  · intro n hn
    have hn' : n ∈ st.openList := (List.eraseIdx_sublist _ _).subset hn
    obtain ⟨h1, h2⟩ := h.opened n hn'
    exact ⟨h1, h2.trans (List.sublist_append_left _ _)⟩
  · have hperm : List.Perm (st.closedList ++ st.openList)
        ((st.closedList ++ [sel]) ++ st.openList.eraseIdx i) := by
      rw [List.append_assoc]
      exact List.Perm.append_left _ (eraseIdx_perm _ _ _ hget)
    exact (hperm.map GridPathNode.pos).nodup_iff.mp h.nodup

theorem listsLinked_expandDirection (ag : GridPathAgent) (isPassable : PassabilityAgent)
    (entity : QuickEntity) (c : Int) (startPos : QPointF) (sel : GridPathNode)
    (st : SearchState) (dir : QPointF) (hdir : dir ∈ straightDirections)
    (hsel : sel ∈ st.closedList) (h : ListsLinked c startPos st) :
    ListsLinked c startPos (expandDirection ag isPassable entity c sel st dir) := by
  rw [expandDirection_eq]
  by_cases hadd : isPassable (sel.pos + dir.scale (c : ℚ)) entity = true ∧
      (sel.pos + dir.scale (c : ℚ)) ∉ st.closedList.map GridPathNode.pos ∧
      (sel.pos + dir.scale (c : ℚ)) ∉ st.openList.map GridPathNode.pos
  · simp only [hadd, not_false_eq_true, and_self, if_true]
    obtain ⟨hw, hsub⟩ := h.closed sel hsel
    refine ⟨h.closed, ?_, ?_⟩
    · intro n hn
      rcases List.mem_append.mp hn with hn | hn
      · exact h.opened n hn
      · have : n = linkTo ag (GridPathNode.new (sel.pos + dir.scale (c : ℚ))) sel := by
          simpa using hn
        subst this
        refine ⟨⟨⟨dir, hdir, rfl⟩, hw⟩, ?_⟩
        rw [linkTo_lineage, List.dropLast_concat]
        exact hsub
    · show ((st.closedList ++ (st.openList ++ [_])).map GridPathNode.pos).Nodup
      rw [← List.append_assoc, List.map_append, List.map_singleton, linkTo_pos]
      have hnot : (sel.pos + dir.scale (c : ℚ)) ∉
          (st.closedList ++ st.openList).map GridPathNode.pos := by
        rw [List.map_append, List.mem_append]
        rintro (hh | hh)
        · exact hadd.2.1 hh
        · exact hadd.2.2 hh
      exact List.Nodup.append h.nodup (List.nodup_singleton _)
        (by
          intro a ha hb
          have : a = sel.pos + dir.scale (c : ℚ) := by simpa using hb
          subst this
          exact hnot ha)
  · rw [if_neg hadd]
    exact ⟨h.closed, h.opened, h.nodup⟩

theorem listsLinked_expandAndCount (ag : GridPathAgent) (isPassable : PassabilityAgent)
    (entity : QuickEntity) (c : Int) (startPos : QPointF) (sel : GridPathNode)
    (st : SearchState) (hsel : sel ∈ st.closedList) (h : ListsLinked c startPos st) :
    ListsLinked c startPos (expandAndCount ag isPassable entity c sel st) := by
  have key := expandNode_induct ag isPassable entity c sel
    (fun s => ListsLinked c startPos s ∧ sel ∈ s.closedList)
    (fun s dir hdir hs =>
      ⟨listsLinked_expandDirection ag isPassable entity c startPos sel s dir hdir hs.2 hs.1,
        by rw [expandDirection_closedList]; exact hs.2⟩)
    st ⟨h, hsel⟩
  exact ⟨key.1.closed, key.1.opened, key.1.nodup⟩

/-! ## Invariants of the search loop -/

/-- A property that the selection and the expansion preserve holds for the
state the loop ends in. -/
theorem searchLoop_preserves (ag : GridPathAgent) (isPassable : PassabilityAgent)
    (entity : QuickEntity) (startPos : QPointF) (c : Int) (limit : Nat)
    (P : SearchState → Prop)
    (hsel : ∀ st sel st1, P st → selectLowest st = some (sel, st1) → P st1)
    (hexp : ∀ st sel st1, P st → selectLowest st = some (sel, st1) →
      P (expandAndCount ag isPassable entity c sel st1)) :
    ∀ (fuel : Nat) (st : SearchState), P st →
      P (searchLoop ag isPassable entity startPos c limit fuel st) := by
  intro fuel
  induction fuel with
  | zero =>
    intro st h
    unfold searchLoop
    cases hs : selectLowest st with
    | none => exact h
    | some r =>
      obtain ⟨sel, st1⟩ := r
      simp only
      by_cases hc : ag.isPathComplete entity startPos sel = true
      · rw [if_pos hc]; exact hsel st sel st1 h hs
      · rw [if_neg hc]
        split <;> exact hexp st sel st1 h hs
  | succ fuel ih =>
    intro st h
    unfold searchLoop
    cases hs : selectLowest st with
    | none => exact h
    | some r =>
      obtain ⟨sel, st1⟩ := r
      simp only
      by_cases hc : ag.isPathComplete entity startPos sel = true
      · rw [if_pos hc]; exact hsel st sel st1 h hs
      · rw [if_neg hc]
        split
        · exact ih _ (hexp st sel st1 h hs)
        · exact hexp st sel st1 h hs

/-- The lists of the state the search ends in are linked. -/
theorem listsLinked_runSearch (ag : GridPathAgent) (isPassable : PassabilityAgent)
    (entity : QuickEntity) (startPos : QPointF) (c : Int) (limit : Nat) :
    ListsLinked c startPos (runSearch ag isPassable entity startPos c limit) := by
  unfold runSearch
  apply searchLoop_preserves ag isPassable entity startPos c limit (ListsLinked c startPos)
  · intro st sel st1 h hs
    exact (listsLinked_select c startPos st st1 sel h hs).1
  · intro st sel st1 h hs
    obtain ⟨h1, h2, _⟩ := listsLinked_select c startPos st st1 sel h hs
    exact listsLinked_expandAndCount ag isPassable entity c startPos sel st1
      (by rw [h2]; simp) h1
  · exact listsLinked_initial c startPos

/-! ## The reconstructed path (C1) -/

theorem scale_injective (c : ℚ) (hc : c ≠ 0) (a d1 d2 : QPointF)
    (h : a + d1.scale c = a + d2.scale c) : d1 = d2 := by
  have hx : a.x + d1.x * c = a.x + d2.x * c := congrArg QPointF.x h
  have hy : a.y + d1.y * c = a.y + d2.y * c := congrArg QPointF.y h
  have hx' : d1.x = d2.x := mul_right_cancel₀ hc (by linarith)
  have hy' : d1.y = d2.y := mul_right_cancel₀ hc (by linarith)
  cases d1
  cases d2
  simp only [QPointF.mk.injEq]
  exact ⟨hx', hy'⟩

theorem cellStep_of_direction (c : Int) (hc : c ≠ 0) (a : QPointF) (d : QPointF)
    (hd : d ∈ straightDirections) : CellStep c a (a + d.scale (c : ℚ)) := by
  refine ⟨d, ⟨hd, rfl⟩, ?_⟩
  rintro d2 ⟨_, h2⟩
  exact (scale_injective (c : ℚ) (by exact_mod_cast hc) a d d2 h2).symm

/-- The positions along the lineage of a well linked node: they start at the
start position, end at the node and go by single cell steps. -/
theorem wellLinked_lineage (c : Int) (hc : c ≠ 0) (startPos : QPointF) (n : GridPathNode)
    (h : WellLinked c startPos n) :
    ∃ ps, n.lineage.map GridPathNode.pos = startPos :: ps ∧
      List.Chain (CellStep c) startPos ps ∧ (startPos :: ps).getLast? = some n.pos := by
  induction n with
  | origin p s t =>
    have hp : p = startPos := h
    subst hp
    exact ⟨[], rfl, List.Chain.nil, rfl⟩
  | linked p s t par ih =>
    obtain ⟨⟨d, hd, hp⟩, hpar⟩ := h
    obtain ⟨ps, hps, hchain, hlast⟩ := ih hpar
    refine ⟨ps ++ [p], ?_, ?_, ?_⟩
    · show (par.lineage ++ [_]).map GridPathNode.pos = _
      rw [List.map_append, hps]
      rfl
    · have h1 : List.Chain' (CellStep c) (startPos :: ps) := hchain
      have h2 : List.Chain' (CellStep c) [p] := List.chain'_singleton p
      have h3 : List.Chain' (CellStep c) ((startPos :: ps) ++ [p]) := by
        apply List.Chain'.append h1 h2
        intro x hx y hy
        rw [hlast] at hx
        have hx' : x = par.pos := by
          simpa using hx.symm
        have hy' : y = p := by
          simpa using hy.symm
        subst hx' hy'
        rw [hp]
        exact cellStep_of_direction c hc _ d hd
      exact h3
    · rw [← List.cons_append, List.getLast?_append]
      rfl

/-- The path `moveEntityTo` tracks after a search that succeeded. -/
theorem lookupOrSearch_searched {σ : Type} (limit : Nat) (mkAgent : QPointF → GridPathAgent)
    (p : GridPather σ) (isPassable : PassabilityAgent) (ent : QuickEntity) (pos : QPointF)
    (hres : (p.lookupOrSearch limit mkAgent isPassable ent pos).result = true)
    (hsearch : (p.lookupOrSearch limit mkAgent isPassable ent pos).search.isSome = true) :
    (p.lookupOrSearch limit mkAgent isPassable ent pos).pather.mData.lookup ent.ident =
        some ⟨pos, reconstructPath
          (runSearch (mkAgent pos) isPassable ent ent.centrePos p.mCellSize limit).closedList,
          0⟩ ∧
      (runSearch (mkAgent pos) isPassable ent ent.centrePos p.mCellSize limit).iterations
        ≠ limit ∧
      (runSearch (mkAgent pos) isPassable ent ent.centrePos p.mCellSize limit).closedList
        ≠ [] := by
  have hs : ∀ st : SearchState, (p.afterSearch limit ent pos st).result = true →
      (p.afterSearch limit ent pos st).pather.mData.lookup ent.ident =
        some ⟨pos, reconstructPath st.closedList, 0⟩ ∧
      st.iterations ≠ limit ∧ st.closedList ≠ [] := by
    intro st hr
    unfold GridPather.afterSearch at hr ⊢
    by_cases h1 : st.iterations = limit
    · simp [h1] at hr
    · by_cases h2 : st.closedList.isEmpty
      · simp [h1, h2] at hr
      · simp only [h1, h2, if_false]
        refine ⟨AList.lookup_insert _, h1, ?_⟩
        intro hh
        rw [hh] at h2
        exact h2 rfl
  unfold GridPather.lookupOrSearch at hres hsearch ⊢
  cases hc : p.mPathCache with
  | none =>
    simp only [hc] at hres ⊢
    exact hs _ hres
  | some cache =>
    simp only [hc] at hres hsearch ⊢
    by_cases hv : (cache.cachedData ent pos).isValid = true
    · rw [if_pos hv] at hsearch
      cases hsearch
    · rw [if_neg hv] at hres ⊢
      exact hs _ hres

theorem cellCentreDiff_some_ne_zero (v : ℚ) (c d : Int) (h : cellCentreDiff v c = some d) :
    c ≠ 0 := by
  intro hc
  unfold cellCentreDiff at h
  rw [if_pos hc] at h
  cases h

/-- The path reconstructed from linked lists: its positions are pairwise
distinct, none is the start position, and they go by single cell steps from
the start position. -/
theorem reconstructPath_linked (c : Int) (hc : c ≠ 0) (startPos : QPointF) (st : SearchState)
    (h : ListsLinked c startPos st) :
    startPos ∉ (reconstructPath st.closedList).map GridPathNode.pos ∧
      ((reconstructPath st.closedList).map GridPathNode.pos).Nodup ∧
      List.Chain (CellStep c) startPos ((reconstructPath st.closedList).map GridPathNode.pos) := by
  unfold reconstructPath
  cases hl : st.closedList.getLast? with
  | none => exact ⟨by simp, List.nodup_nil, List.Chain.nil⟩
  | some node =>
    have hmem : node ∈ st.closedList := List.mem_of_getLast?_eq_some hl
    obtain ⟨hw, hsub⟩ := h.closed node hmem
    obtain ⟨ps, hps, hchain, _⟩ := wellLinked_lineage c hc startPos node hw
    have htail : node.lineage.tail.map GridPathNode.pos = ps := by
      rw [List.map_tail, hps]
      rfl
    have hnd : (st.closedList.map GridPathNode.pos).Nodup := by
      have := h.nodup
      rw [List.map_append] at this
      exact this.of_append_left
    have hnd2 : (startPos :: ps).Nodup := by
      rw [← hps]
      exact hnd.sublist (hsub.map GridPathNode.pos)
    simp only [htail]
    exact ⟨(List.nodup_cons.mp hnd2).1, (List.nodup_cons.mp hnd2).2, hchain⟩

/-- C1: whenever `moveEntityTo` returns true after running the search (no cache
hit), the waypoint sequence the entity is then tracked with does not contain
the start position, its positions are pairwise distinct, its first waypoint is
exactly one cell step (the cell size along exactly one of north, south, east,
west) from the entity's start position, and every later waypoint is exactly
one cell step from the waypoint before it. -/
theorem moveEntityTo_path_is_chain {σ : Type} (mkAgent : QPointF → GridPathAgent)
    (p : GridPather σ) (entity : QuickEntity) (pos : QPointF) (r : MoveOutcome σ)
    (h : p.moveEntityTo mkAgent (some entity) pos = some r) (htrue : r.result = true)
    (hsearch : r.search.isSome = true) :
    entity.centrePos ∉ (r.pather.pathData entity.ident).mNodes.map GridPathNode.pos ∧
      ((r.pather.pathData entity.ident).mNodes.map GridPathNode.pos).Nodup ∧
      List.Chain (CellStep p.mCellSize) entity.centrePos
        ((r.pather.pathData entity.ident).mNodes.map GridPathNode.pos) := by
  obtain ⟨ent, t, isPassable, s, hent, hT, hP, hS, hpass, hx, hy, hr⟩ :=
    moveEntityToWith_inv iterationLimit mkAgent p (some entity) pos r h (Or.inl htrue)
  cases hent
  have hc : p.mCellSize ≠ 0 := cellCentreDiff_some_ne_zero _ _ _ hx
  subst hr
  obtain ⟨hlook, _, _⟩ :=
    lookupOrSearch_searched iterationLimit mkAgent p isPassable entity pos htrue hsearch
  have hpd : ((p.lookupOrSearch iterationLimit mkAgent isPassable entity pos).pather.pathData
      entity.ident).mNodes =
      reconstructPath (runSearch (mkAgent pos) isPassable entity entity.centrePos p.mCellSize
        iterationLimit).closedList := by
    unfold GridPather.pathData
    rw [hlook]
  rw [hpd]
  exact reconstructPath_linked p.mCellSize hc entity.centrePos _
    (listsLinked_runSearch (mkAgent pos) isPassable entity entity.centrePos p.mCellSize
      iterationLimit)

/-- C1, witness: on the open grid, from (16, 16) to (80, 48). -/
theorem moveEntityTo_path_is_chain_witness :
    entityA.centrePos ∉
        ((openPather.lookupOrSearch iterationLimit baselineAgent openGrid entityA
          ⟨80, 48⟩).pather.pathData entityA.ident).mNodes.map GridPathNode.pos ∧
      (((openPather.lookupOrSearch iterationLimit baselineAgent openGrid entityA
          ⟨80, 48⟩).pather.pathData entityA.ident).mNodes.map GridPathNode.pos).Nodup ∧
      List.Chain (CellStep openPather.mCellSize) entityA.centrePos
        (((openPather.lookupOrSearch iterationLimit baselineAgent openGrid entityA
          ⟨80, 48⟩).pather.pathData entityA.ident).mNodes.map GridPathNode.pos) :=
  moveEntityTo_path_is_chain baselineAgent openPather entityA ⟨80, 48⟩
    (openPather.lookupOrSearch iterationLimit baselineAgent openGrid entityA ⟨80, 48⟩)
    (moveEntityToWith_valid iterationLimit baselineAgent openPather entityA ⟨80, 48⟩ 0
      openGrid arriveAtOnce rfl rfl rfl rfl (by decide!) (by decide!))
    (by decide!) (by decide!)

/-! ## The iteration cap (C4) -/

theorem selectLowest_iterations (st st1 : SearchState) (sel : GridPathNode)
    (h : selectLowest st = some (sel, st1)) : st1.iterations = st.iterations := by
  obtain ⟨_, i, _, _, _, heq⟩ := selectLowest_inv st st1 sel h
  rw [heq]

/-- After `k` passes the counter `iterations` is `k`. -/
theorem stateAfter_iterations (ag : GridPathAgent) (isPassable : PassabilityAgent)
    (entity : QuickEntity) (startPos : QPointF) (c : Int) :
    ∀ (k : Nat) (st : SearchState), stateAfter ag isPassable entity startPos c k = some st →
      st.iterations = k := by
  intro k
  induction k with
  | zero =>
    intro st h
    simp only [stateAfter, Option.some.injEq] at h
    subst h
    rfl
  | succ k ih =>
    intro st h
    simp only [stateAfter] at h
    cases hk : stateAfter ag isPassable entity startPos c k with
    | none => rw [hk] at h; cases h
    | some st0 =>
      rw [hk] at h
      simp only [searchPass] at h
      cases hs : selectLowest st0 with
      | none => rw [hs] at h; cases h
      | some r =>
        obtain ⟨sel, st1⟩ := r
        rw [hs] at h
        simp only [Option.some.injEq] at h
        subst h
        rw [expandAndCount_iterations, selectLowest_iterations st0 st1 sel hs, ih st0 hk]

/-- If none of the first `limit` selected nodes passes the goal test and the
open list is not empty after each of the first `limit - 1` passes, the loop
started in the state after `k < limit` passes ends with `iterations = limit`. -/
theorem searchLoop_reaches_limit (ag : GridPathAgent) (isPassable : PassabilityAgent)
    (entity : QuickEntity) (startPos : QPointF) (c : Int) (limit : Nat)
    (hgoal : ∀ k, k < limit → ∀ n,
      selectedAt ag isPassable entity startPos c k = some n →
      ag.isPathComplete entity startPos n = false)
    (hopen : ∀ k, 1 ≤ k → k < limit →
      ∃ st, stateAfter ag isPassable entity startPos c k = some st ∧ st.openList ≠ []) :
    ∀ (m k fuel : Nat) (st : SearchState), k + m = limit → 1 ≤ m → m ≤ fuel + 1 →
      stateAfter ag isPassable entity startPos c k = some st →
      (searchLoop ag isPassable entity startPos c limit fuel st).iterations = limit := by
  intro m
  induction m with
  | zero => intro k fuel st _ h1; omega
  | succ m ih =>
    intro k fuel st hkm _ hfuel hst
    have hk : k < limit := by omega
    have hiter : st.iterations = k := stateAfter_iterations ag isPassable entity startPos c k st hst
    have hne : st.openList ≠ [] := by
      cases k with
      | zero =>
        simp only [stateAfter, Option.some.injEq] at hst
        subst hst
        simp [initialSearchState]
      | succ k =>
        obtain ⟨st', hst', hne⟩ := hopen (k + 1) (by omega) hk
        rw [hst] at hst'
        cases hst'
        exact hne
    obtain ⟨i, sel, _, _, _, hsel⟩ := selectLowest_spec st hne
    have hselAt : selectedAt ag isPassable entity startPos c k = some sel := by
      unfold selectedAt
      rw [hst]
      simp only [hsel]
    have hnc : ag.isPathComplete entity startPos sel = false := hgoal k hk sel hselAt
    have hnext : stateAfter ag isPassable entity startPos c (k + 1) =
        some (expandAndCount ag isPassable entity c sel
          { st with closedList := st.closedList ++ [sel], selectedNode := some sel,
                    openList := st.openList.eraseIdx i }) := by
      simp only [stateAfter, hst, searchPass, hsel]
    have hiter' : (expandAndCount ag isPassable entity c sel
          { st with closedList := st.closedList ++ [sel], selectedNode := some sel,
                    openList := st.openList.eraseIdx i }).iterations = k + 1 := by
      rw [expandAndCount_iterations]
      exact congrArg (· + 1) hiter
    unfold searchLoop
    simp only [hsel, hnc]
    by_cases hlast : k + 1 < limit
    · obtain ⟨st', hst', hne'⟩ := hopen (k + 1) (by omega) hlast
      rw [hnext] at hst'
      cases hst'
      have hcond : (expandAndCount ag isPassable entity c sel
            { st with closedList := st.closedList ++ [sel], selectedNode := some sel,
                      openList := st.openList.eraseIdx i }).iterations < limit ∧
          ¬ (expandAndCount ag isPassable entity c sel
            { st with closedList := st.closedList ++ [sel], selectedNode := some sel,
                      openList := st.openList.eraseIdx i }).openList.isEmpty = true := by
        refine ⟨by rw [hiter']; exact hlast, ?_⟩
        rw [List.isEmpty_iff]
        exact hne'
      simp only [Bool.false_eq_true, if_false]
      rw [if_pos hcond]
      cases fuel with
      | zero => omega
      | succ fuel =>
        simp only
        exact ih (k + 1) fuel _ (by omega) (by omega) (by omega) hnext
    · have hcond : ¬ ((expandAndCount ag isPassable entity c sel
            { st with closedList := st.closedList ++ [sel], selectedNode := some sel,
                      openList := st.openList.eraseIdx i }).iterations < limit ∧
          ¬ (expandAndCount ag isPassable entity c sel
            { st with closedList := st.closedList ++ [sel], selectedNode := some sel,
                      openList := st.openList.eraseIdx i }).openList.isEmpty = true) := by
        rintro ⟨h1, _⟩
        rw [hiter'] at h1
        exact hlast h1
      simp only [Bool.false_eq_true, if_false]
      rw [if_neg hcond, hiter']
      omega

/-- Without a valid cached path the outcome is that of the search. -/
theorem lookupOrSearch_miss {σ : Type} (limit : Nat) (mkAgent : QPointF → GridPathAgent)
    (p : GridPather σ) (isPassable : PassabilityAgent) (ent : QuickEntity) (pos : QPointF)
    (hmiss : ∀ cache, p.mPathCache = some cache → (cache.cachedData ent pos).isValid = false) :
    p.lookupOrSearch limit mkAgent isPassable ent pos =
      p.afterSearch limit ent pos
        (runSearch (mkAgent pos) isPassable ent ent.centrePos p.mCellSize limit) := by
  unfold GridPather.lookupOrSearch
  cases hc : p.mPathCache with
  | none => rfl
  | some cache =>
    simp only
    rw [if_neg (by rw [hmiss cache hc]; exact Bool.false_ne_true)]

/-- C4: for every iteration cap `limit ≥ 1`, when the search runs (validation
passed, no valid cached path): if none of the first `limit` selected nodes
passes the goal test and the open list is not empty after each of the first
`limit - 1` passes, `moveEntityTo` returns false after `limit` iterations and
leaves the pather, tracking table and path cache included, as it was. -/
theorem moveEntityTo_iteration_cap {σ : Type} (limit : Nat) (hlimit : 1 ≤ limit)
    (mkAgent : QPointF → GridPathAgent) (p : GridPather σ) (entity : QuickEntity)
    (pos : QPointF) (t : Nat) (isPassable : PassabilityAgent) (s : SteeringAgent σ)
    (hT : p.mTimer = some t) (hP : p.mPassabilityAgent = some isPassable)
    (hS : p.mSteeringAgent = some s) (hpass : isPassable entity.centrePos entity = true)
    (hx : cellCentreDiff entity.centrePos.x p.mCellSize = some 0)
    (hy : cellCentreDiff entity.centrePos.y p.mCellSize = some 0)
    (hmiss : ∀ cache, p.mPathCache = some cache →
      (cache.cachedData entity pos).isValid = false)
    (hgoal : ∀ k, k < limit → ∀ n,
      selectedAt (mkAgent pos) isPassable entity entity.centrePos p.mCellSize k = some n →
      (mkAgent pos).isPathComplete entity entity.centrePos n = false)
    (hopen : ∀ k, 1 ≤ k → k < limit →
      ∃ st, stateAfter (mkAgent pos) isPassable entity entity.centrePos p.mCellSize k = some st ∧
        st.openList ≠ []) :
    ∃ r, p.moveEntityToWith limit mkAgent (some entity) pos = some r ∧ r.result = false ∧
      r.pather = p ∧ r.pather.mData = p.mData ∧ r.pather.mPathCache = p.mPathCache ∧
      r.search.map (fun st => st.iterations) = some limit := by
  have hiter : (runSearch (mkAgent pos) isPassable entity entity.centrePos p.mCellSize
      limit).iterations = limit := by
    unfold runSearch
    exact searchLoop_reaches_limit (mkAgent pos) isPassable entity entity.centrePos p.mCellSize
      limit hgoal hopen limit 0 limit _ (by omega) hlimit (by omega) rfl
  refine ⟨_, moveEntityToWith_valid limit mkAgent p entity pos t isPassable s hT hP hS hpass
    hx hy, ?_⟩
  rw [lookupOrSearch_miss limit mkAgent p isPassable entity pos hmiss]
  unfold GridPather.afterSearch
  rw [if_pos hiter]
  exact ⟨rfl, rfl, rfl, rfl, congrArg some hiter⟩

/-- C4, witness: cap 3 on the open grid, from (16, 16) to (144, 144), which
takes 25 selections. -/
theorem moveEntityTo_iteration_cap_witness :
    ∃ r, openPather.moveEntityToWith 3 baselineAgent (some entityA) ⟨144, 144⟩ = some r ∧
      r.result = false ∧ r.pather = openPather ∧ r.pather.mData = openPather.mData ∧
      r.pather.mPathCache = openPather.mPathCache ∧
      r.search.map (fun st => st.iterations) = some 3 :=
  moveEntityTo_iteration_cap 3 (by decide) baselineAgent openPather entityA ⟨144, 144⟩ 0
    openGrid arriveAtOnce rfl rfl rfl rfl (by decide!) (by decide!)
    (fun cache hc => by
      have : cache = ⟨[]⟩ := (Option.some.inj hc).symm
      subst this
      decide!)
    (fun k hk n hn => by
      have hall : ∀ j, j < 3 →
          ((selectedAt (baselineAgent ⟨144, 144⟩) openGrid entityA entityA.centrePos
            openPather.mCellSize j).map
            (fun n => (baselineAgent ⟨144, 144⟩).isPathComplete entityA entityA.centrePos n))
            = some false := by
        decide!
      have := hall k hk
      rw [hn] at this
      exact Option.some.inj this)
    (fun k _ hk => by
      have hall : ∀ j, j < 3 →
          ((stateAfter (baselineAgent ⟨144, 144⟩) openGrid entityA entityA.centrePos
            openPather.mCellSize j).map (fun st => st.openList.isEmpty)) = some false := by
        decide!
      have := hall k hk
      cases hst : stateAfter (baselineAgent ⟨144, 144⟩) openGrid entityA entityA.centrePos
          openPather.mCellSize k with
      | none => rw [hst] at this; cases this
      | some st =>
        rw [hst] at this
        refine ⟨st, rfl, ?_⟩
        intro hh
        simp only [Option.map_some', hh, List.isEmpty_nil, Option.some.injEq] at this
        cases this)

/-! ## The search on the grid of cell centres -/

theorem mem_straightDirections (d : QPointF) (h : d ∈ straightDirections) :
    d = north ∨ d = south ∨ d = east ∨ d = west := by
  simpa [straightDirections] using h

theorem cellCentre_north (s : QPointF) (c a b : Int) :
    cellCentre s c a b + north.scale (c : ℚ) = cellCentre s c a (b - 1) := by
  show (⟨_, _⟩ : QPointF) = ⟨_, _⟩
  simp only [cellCentre, QPointF.scale, north, QPointF.mk.injEq]
  constructor <;> push_cast <;> ring

theorem cellCentre_south (s : QPointF) (c a b : Int) :
    cellCentre s c a b + south.scale (c : ℚ) = cellCentre s c a (b + 1) := by
  show (⟨_, _⟩ : QPointF) = ⟨_, _⟩
  simp only [cellCentre, QPointF.scale, south, QPointF.mk.injEq]
  constructor <;> push_cast <;> ring

theorem cellCentre_east (s : QPointF) (c a b : Int) :
    cellCentre s c a b + east.scale (c : ℚ) = cellCentre s c (a + 1) b := by
  show (⟨_, _⟩ : QPointF) = ⟨_, _⟩
  simp only [cellCentre, QPointF.scale, east, QPointF.mk.injEq]
  constructor <;> push_cast <;> ring

theorem cellCentre_west (s : QPointF) (c a b : Int) :
    cellCentre s c a b + west.scale (c : ℚ) = cellCentre s c (a - 1) b := by
  show (⟨_, _⟩ : QPointF) = ⟨_, _⟩
  simp only [cellCentre, QPointF.scale, west, QPointF.mk.injEq]
  constructor <;> push_cast <;> ring

theorem cellCentre_zero (s : QPointF) (c : Int) : cellCentre s c 0 0 = s := by
  cases s
  simp [cellCentre]

theorem cellCentre_injective (s : QPointF) (c : Int) (hc : c ≠ 0) (a b a2 b2 : Int)
    (h : cellCentre s c a b = cellCentre s c a2 b2) : a = a2 ∧ b = b2 := by
  have hcq : (c : ℚ) ≠ 0 := by exact_mod_cast hc
  have hx : s.x + (a : ℚ) * c = s.x + (a2 : ℚ) * c := congrArg QPointF.x h
  have hy : s.y + (b : ℚ) * c = s.y + (b2 : ℚ) * c := congrArg QPointF.y h
  have hx' : (a : ℚ) = a2 := mul_right_cancel₀ hcq (by linarith)
  have hy' : (b : ℚ) = b2 := mul_right_cancel₀ hcq (by linarith)
  exact ⟨by exact_mod_cast hx', by exact_mod_cast hy'⟩

/-- A step in a straight direction moves to a neighbouring cell centre. -/
theorem cellCentre_step (s : QPointF) (c a b : Int) (d : QPointF)
    (hd : d ∈ straightDirections) :
    ∃ a2 b2 : Int, cellCentre s c a b + d.scale (c : ℚ) = cellCentre s c a2 b2 ∧
      (a2 - a).natAbs + (b2 - b).natAbs = 1 := by
  rcases mem_straightDirections d hd with h | h | h | h <;> subst h
  · exact ⟨a, b - 1, cellCentre_north s c a b, by omega⟩
  · exact ⟨a, b + 1, cellCentre_south s c a b, by omega⟩
  · exact ⟨a + 1, b, cellCentre_east s c a b, by omega⟩
  · exact ⟨a - 1, b, cellCentre_west s c a b, by omega⟩

/-- A well linked node sits on a cell centre no more cell steps from the start
than it has ancestors. -/
theorem wellLinked_cellCentre (c : Int) (s : QPointF) (n : GridPathNode)
    (h : WellLinked c s n) :
    ∃ a b : Int, n.pos = cellCentre s c a b ∧ a.natAbs + b.natAbs + 1 ≤ n.lineage.length := by
  induction n with
  | origin p sc tc =>
    have hp : p = s := h
    subst hp
    exact ⟨0, 0, (cellCentre_zero p c).symm, by simp [GridPathNode.lineage]⟩
  | linked p sc tc par ih =>
    obtain ⟨⟨d, hd, hp⟩, hpar⟩ := h
    obtain ⟨a, b, hab, hlen⟩ := ih hpar
    obtain ⟨a2, b2, hstep, hone⟩ := cellCentre_step s c a b d hd
    refine ⟨a2, b2, ?_, ?_⟩
    · show p = _
      rw [hp, hab, hstep]
    · have : (GridPathNode.linked p sc tc par).lineage.length = par.lineage.length + 1 := by
        simp [GridPathNode.lineage]
      rw [this]
      omega

/-- The effect of expanding over a list of directions: the closed list stays,
the open list only grows, every new open node is linked to the selected node
one step away, and on an open grid every neighbour is on a list afterwards. -/
theorem expandFold_spec (ag : GridPathAgent) (isPassable : PassabilityAgent)
    (entity : QuickEntity) (c : Int) (sel : GridPathNode) :
    ∀ (ds : List QPointF) (st : SearchState),
      (ds.foldl (expandDirection ag isPassable entity c sel) st).closedList = st.closedList ∧
      (∀ x ∈ st.openList,
        x ∈ (ds.foldl (expandDirection ag isPassable entity c sel) st).openList) ∧
      (∀ x ∈ (ds.foldl (expandDirection ag isPassable entity c sel) st).openList,
        x ∈ st.openList ∨
          ∃ d ∈ ds, x = linkTo ag (GridPathNode.new (sel.pos + d.scale (c : ℚ))) sel) ∧
      ((∀ pos e, isPassable pos e = true) → ∀ d ∈ ds,
        sel.pos + d.scale (c : ℚ) ∈
          (st.closedList ++
            (ds.foldl (expandDirection ag isPassable entity c sel) st).openList).map
            GridPathNode.pos) := by
  intro ds
  induction ds with
  | nil =>
    intro st
    exact ⟨rfl, fun x hx => hx, fun x hx => Or.inl hx, fun _ d hd => absurd hd (List.not_mem_nil d)⟩
  | cons d ds ih =>
    intro st
    obtain ⟨h1, h2, h3, h4⟩ := ih (expandDirection ag isPassable entity c sel st d)
    have hcl := expandDirection_closedList ag isPassable entity c sel st d
    have hopen : (expandDirection ag isPassable entity c sel st d).openList =
        if isPassable (sel.pos + d.scale (c : ℚ)) entity = true ∧
            (sel.pos + d.scale (c : ℚ)) ∉ st.closedList.map GridPathNode.pos ∧
            (sel.pos + d.scale (c : ℚ)) ∉ st.openList.map GridPathNode.pos
        then st.openList ++ [linkTo ag (GridPathNode.new (sel.pos + d.scale (c : ℚ))) sel]
        else st.openList := by
      rw [expandDirection_eq]
    simp only [List.foldl_cons]
    refine ⟨h1.trans hcl, ?_, ?_, ?_⟩
    · intro x hx
      apply h2
      rw [hopen]
      split
      · exact List.mem_append_left _ hx
      · exact hx
    · intro x hx
      rcases h3 x hx with h | ⟨d2, hd2, h⟩
      · rw [hopen] at h
        split at h
        · rcases List.mem_append.mp h with h | h
          · exact Or.inl h
          · exact Or.inr ⟨d, List.mem_cons_self _ _, by simpa using h⟩
        · exact Or.inl h
      · exact Or.inr ⟨d2, List.mem_cons_of_mem _ hd2, h⟩
    · intro hall d2 hd2
      rcases List.mem_cons.mp hd2 with h | h
      · subst h
        rw [List.map_append, List.mem_append]
        by_cases hc1 : (sel.pos + d2.scale (c : ℚ)) ∈ st.closedList.map GridPathNode.pos
        · exact Or.inl hc1
        · right
          by_cases hc2 : (sel.pos + d2.scale (c : ℚ)) ∈ st.openList.map GridPathNode.pos
          · obtain ⟨x, hx, hxp⟩ := List.mem_map.mp hc2
            exact List.mem_map.mpr ⟨x, h2 x (by
              rw [hopen]
              split
              · exact List.mem_append_left _ hx
              · exact hx), hxp⟩
          · refine List.mem_map.mpr
              ⟨linkTo ag (GridPathNode.new (sel.pos + d2.scale (c : ℚ))) sel, h2 _ ?_, rfl⟩
            rw [hopen, if_pos ⟨hall _ _, hc1, hc2⟩]
            simp
      · have := h4 hall d2 h
        rw [hcl] at this
        exact this

theorem expandAndCount_spec (ag : GridPathAgent) (isPassable : PassabilityAgent)
    (entity : QuickEntity) (c : Int) (sel : GridPathNode) (st : SearchState) :
    (∀ x ∈ st.openList, x ∈ (expandAndCount ag isPassable entity c sel st).openList) ∧
      (∀ x ∈ (expandAndCount ag isPassable entity c sel st).openList,
        x ∈ st.openList ∨
          ∃ d ∈ straightDirections,
            x = linkTo ag (GridPathNode.new (sel.pos + d.scale (c : ℚ))) sel) ∧
      ((∀ pos e, isPassable pos e = true) → ∀ d ∈ straightDirections,
        sel.pos + d.scale (c : ℚ) ∈
          (st.closedList ++ (expandAndCount ag isPassable entity c sel st).openList).map
            GridPathNode.pos) := by
  obtain ⟨_, h2, h3, h4⟩ := expandFold_spec ag isPassable entity c sel straightDirections st
  exact ⟨h2, h3, h4⟩

theorem explored_initial (c : Int) (s : QPointF) : Explored c s 0 (initialSearchState s) := by
  refine ⟨listsLinked_initial c s, ?_, ?_, ?_⟩
  · intro n hn
    have : n = GridPathNode.new s := by simpa [initialSearchState] using hn
    subst this
    simp [GridPathNode.new, GridPathNode.lineage]
  · intro n hn
    cases hn
  · intro h
    omega

/-- One pass on an open grid keeps the invariant `Explored`. -/
theorem explored_step (ag : GridPathAgent) (isPassable : PassabilityAgent)
    (entity : QuickEntity) (c : Int) (s : QPointF)
    (hall : ∀ pos e, isPassable pos e = true) (k : Nat) (st st1 : SearchState)
    (sel : GridPathNode) (h : Explored c s k st) (hsel : selectLowest st = some (sel, st1)) :
    Explored c s (k + 1) (expandAndCount ag isPassable entity c sel st1) := by
  obtain ⟨hl1, hcl1, hselmem⟩ := listsLinked_select c s st st1 sel h.linked hsel
  obtain ⟨_, i, hi, hget, _, heq⟩ := selectLowest_inv st st1 sel hsel
  have hopen1 : st1.openList = st.openList.eraseIdx i := by rw [heq]
  have hselcl : sel ∈ st1.closedList := by rw [hcl1]; simp
  obtain ⟨hgrow, hnew, hcov⟩ := expandAndCount_spec ag isPassable entity c sel st1
  have hcl3 := expandAndCount_closedList ag isPassable entity c sel st1
  have hperm : List.Perm st.openList (sel :: st1.openList) := by
    rw [hopen1]; exact eraseIdx_perm _ _ _ hget
  refine ⟨listsLinked_expandAndCount ag isPassable entity c s sel st1 hselcl hl1, ?_, ?_, ?_⟩
  · intro n hn
    rw [hcl3, hcl1] at hn
    rcases List.mem_append.mp hn with hn | hn
    · rcases List.mem_append.mp hn with hn | hn
      · have := h.depth n (List.mem_append_left _ hn)
        omega
      · have hns : n = sel := by simpa using hn
        have := h.depth sel (List.mem_append_right _ hselmem)
        rw [hns]
        omega
    · rcases hnew n hn with hn | ⟨d, _, hn⟩
      · have hn' : n ∈ st.openList := by
          rw [hopen1] at hn
          exact (List.eraseIdx_sublist _ _).subset hn
        have := h.depth n (List.mem_append_right _ hn')
        omega
      · have := h.depth sel (List.mem_append_right _ hselmem)
        rw [hn, linkTo_lineage, List.length_append, List.length_singleton]
        omega
  · intro n hn d hd
    rw [hcl3] at hn ⊢
    rw [hcl1] at hn
    rcases List.mem_append.mp hn with hn | hn
    · have hold := h.covered n hn d hd
      rw [List.map_append, List.mem_append] at hold ⊢
      rcases hold with hold | hold
      · left
        rw [hcl1, List.map_append]
        exact List.mem_append_left _ hold
      · obtain ⟨x, hx, hxp⟩ := List.mem_map.mp hold
        rcases List.mem_cons.mp (hperm.subset hx) with hxs | hxo
        · left
          rw [hcl1]
          exact List.mem_map.mpr ⟨sel, by simp, by rw [← hxs]; exact hxp⟩
        · right
          exact List.mem_map.mpr ⟨x, hgrow x hxo, hxp⟩
    · have hns : n = sel := by simpa using hn
      rw [hns]
      exact hcov hall d hd
  · intro _
    rw [hcl3, hcl1]
    simp

/-- A non-empty list of nodes has a node of greatest x coordinate. -/
theorem exists_max_x (l : List GridPathNode) (hl : l ≠ []) :
    ∃ n ∈ l, ∀ m ∈ l, m.pos.x ≤ n.pos.x := by
  induction l with
  | nil => exact absurd rfl hl
  | cons x xs ih =>
    by_cases hxs : xs = []
    · subst hxs
      exact ⟨x, List.mem_cons_self _ _, fun m hm => by
        have : m = x := by simpa using hm
        rw [this]⟩
    · obtain ⟨n, hn, hmax⟩ := ih hxs
      by_cases hcmp : n.pos.x ≤ x.pos.x
      · refine ⟨x, List.mem_cons_self _ _, ?_⟩
        intro m hm
        rcases List.mem_cons.mp hm with h | h
        · rw [h]
        · exact (hmax m h).trans hcmp
      · refine ⟨n, List.mem_cons_of_mem _ hn, ?_⟩
        intro m hm
        rcases List.mem_cons.mp hm with h | h
        · rw [h]; exact le_of_lt (not_le.mp hcmp)
        · exact hmax m h

/-- On an open grid the open list is never empty after a pass: the neighbour
to the right of the rightmost closed node is open. -/
theorem explored_open_ne_nil (c : Int) (hc : c ≠ 0) (s : QPointF) (k : Nat)
    (st : SearchState) (h : Explored c s k st) (hk : 1 ≤ k) : st.openList ≠ [] := by
  obtain ⟨n, hn, hmax⟩ := exists_max_x st.closedList (h.started hk)
  have hcq : (c : ℚ) ≠ 0 := by exact_mod_cast hc
  obtain ⟨d, hd, hgt⟩ : ∃ d ∈ straightDirections, n.pos.x < (n.pos + d.scale (c : ℚ)).x := by
    rcases lt_or_gt_of_ne hcq with hneg | hpos
    · refine ⟨west, by simp [straightDirections], ?_⟩
      show n.pos.x < n.pos.x + (-1) * (c : ℚ)
      linarith
    · refine ⟨east, by simp [straightDirections], ?_⟩
      show n.pos.x < n.pos.x + 1 * (c : ℚ)
      linarith
  have hcov := h.covered n hn d hd
  rw [List.map_append, List.mem_append] at hcov
  rcases hcov with hcov | hcov
  · obtain ⟨m, hm, hmp⟩ := List.mem_map.mp hcov
    have := hmax m hm
    rw [hmp] at this
    linarith
  · intro hempty
    rw [hempty] at hcov
    simp at hcov

/-- On an open grid the passes never run out of open nodes. -/
theorem stateAfter_explored (ag : GridPathAgent) (isPassable : PassabilityAgent)
    (entity : QuickEntity) (c : Int) (hc : c ≠ 0) (s : QPointF)
    (hall : ∀ pos e, isPassable pos e = true) :
    ∀ k, ∃ st, stateAfter ag isPassable entity s c k = some st ∧ Explored c s k st ∧
      st.openList ≠ [] := by
  intro k
  induction k with
  | zero =>
    exact ⟨_, rfl, explored_initial c s, by simp [initialSearchState]⟩
  | succ k ih =>
    obtain ⟨st, hst, hex, hne⟩ := ih
    obtain ⟨i, sel, _, _, _, hsel⟩ := selectLowest_spec st hne
    have hex' := explored_step ag isPassable entity c s hall k st _ sel hex hsel
    refine ⟨_, ?_, hex', explored_open_ne_nil c hc s (k + 1) _ hex' (by omega)⟩
    simp only [stateAfter, hst, searchPass, hsel]

/-! ## Targets beyond the iteration cap -/

/-- On an open grid, towards a cell centre `limit` or more cell steps away, the
search under the baseline policy uses up all `limit` iterations. -/
theorem runSearch_far_target (isPassable : PassabilityAgent) (entity : QuickEntity)
    (c : Int) (hc : c ≠ 0) (s : QPointF) (hall : ∀ pos e, isPassable pos e = true)
    (limit : Nat) (hlimit : 1 ≤ limit) (i j : Int) (hfar : limit ≤ i.natAbs + j.natAbs) :
    (runSearch (baselineAgent (cellCentre s c i j)) isPassable entity s c limit).iterations
      = limit := by
  unfold runSearch
  apply searchLoop_reaches_limit (baselineAgent (cellCentre s c i j)) isPassable entity s c
    limit ?_ ?_ limit 0 limit _ (by omega) hlimit (by omega) rfl
  · intro k hk n hn
    obtain ⟨st, hst, hex, hne⟩ :=
      stateAfter_explored (baselineAgent (cellCentre s c i j)) isPassable entity c hc s hall k
    unfold selectedAt at hn
    rw [hst] at hn
    simp only at hn
    cases hsel : selectLowest st with
    | none => rw [hsel] at hn; cases hn
    | some r =>
      obtain ⟨sel, st1⟩ := r
      rw [hsel] at hn
      simp only [Option.some.injEq] at hn
      subst hn
      obtain ⟨_, idx, _, hget, _, _⟩ := selectLowest_inv st st1 sel hsel
      have hmem : sel ∈ st.openList := List.get?_mem hget
      obtain ⟨a, b, hab, hlen⟩ := wellLinked_cellCentre c s sel (hex.linked.opened sel hmem).1
      have hdepth := hex.depth sel (List.mem_append_right _ hmem)
      show decide (sel.pos = cellCentre s c i j) = false
      rw [decide_eq_false_iff_not, hab]
      intro heq
      obtain ⟨h1, h2⟩ := cellCentre_injective s c hc a b i j heq
      subst h1 h2
      omega
  · intro k _ _
    obtain ⟨st, hst, _, hne⟩ :=
      stateAfter_explored (baselineAgent (cellCentre s c i j)) isPassable entity c hc s hall k
    exact ⟨st, hst, hne⟩

/-- On an open grid, without a cached path, `moveEntityTo` under the baseline
policy returns false for every cell centre `limit` or more cell steps away. -/
theorem moveEntityToWith_far_target {σ : Type} (limit : Nat) (hlimit : 1 ≤ limit)
    (p : GridPather σ) (entity : QuickEntity) (t : Nat) (isPassable : PassabilityAgent)
    (s : SteeringAgent σ) (hT : p.mTimer = some t) (hP : p.mPassabilityAgent = some isPassable)
    (hS : p.mSteeringAgent = some s) (hall : ∀ pos e, isPassable pos e = true)
    (hx : cellCentreDiff entity.centrePos.x p.mCellSize = some 0)
    (hy : cellCentreDiff entity.centrePos.y p.mCellSize = some 0) (i j : Int)
    (hmiss : ∀ cache, p.mPathCache = some cache →
      (cache.cachedData entity (cellCentre entity.centrePos p.mCellSize i j)).isValid = false)
    (hfar : limit ≤ i.natAbs + j.natAbs) :
    ∃ r, p.moveEntityToWith limit baselineAgent (some entity)
        (cellCentre entity.centrePos p.mCellSize i j) = some r ∧ r.result = false := by
  have hc : p.mCellSize ≠ 0 := cellCentreDiff_some_ne_zero _ _ _ hx
  refine ⟨_, moveEntityToWith_valid limit baselineAgent p entity _ t isPassable s hT hP hS
    (hall _ _) hx hy, ?_⟩
  rw [lookupOrSearch_miss limit baselineAgent p isPassable entity _ hmiss]
  unfold GridPather.afterSearch
  rw [if_pos (runSearch_far_target isPassable entity p.mCellSize hc entity.centrePos hall limit
    hlimit i j hfar)]

/-! ## Reachable targets on an open grid (C3) -/

theorem abs_intCast_eq (k : Int) : |(k : ℚ)| = ((k.natAbs : ℕ) : ℚ) := by
  rw [Nat.cast_natAbs, Int.cast_abs]

theorem cellCentre_dist (s : QPointF) (c : Int) (i j a b : Int) :
    |(cellCentre s c i j).x - (cellCentre s c a b).x| +
        |(cellCentre s c i j).y - (cellCentre s c a b).y| =
      (((i - a).natAbs + (j - b).natAbs : ℕ) : ℚ) * |(c : ℚ)| := by
  have e1 : (cellCentre s c i j).x - (cellCentre s c a b).x = ((i - a : ℤ) : ℚ) * (c : ℚ) := by
    simp only [cellCentre]; push_cast; ring
  have e2 : (cellCentre s c i j).y - (cellCentre s c a b).y = ((j - b : ℤ) : ℚ) * (c : ℚ) := by
    simp only [cellCentre]; push_cast; ring
  have h1 : |((i - a : ℤ) : ℚ)| = (((i - a).natAbs : ℕ) : ℚ) := abs_intCast_eq _
  have h2 : |((j - b : ℤ) : ℚ)| = (((j - b).natAbs : ℕ) : ℚ) := abs_intCast_eq _
  rw [e1, e2, abs_mul, abs_mul, h1, h2, Nat.cast_add]
  ring

theorem direction_length (c : ℚ) (a d : QPointF) (hd : d ∈ straightDirections) :
    |(a + d.scale c).x - a.x| + |(a + d.scale c).y - a.y| = |c| := by
  have ex : (a + d.scale c).x = a.x + d.x * c := rfl
  have ey : (a + d.scale c).y = a.y + d.y * c := rfl
  rw [ex, ey]
  rcases mem_straightDirections d hd with h | h | h | h <;> subst h <;>
    simp [north, south, east, west]

theorem natCast_mul_le_cancel (x y : ℕ) (q : ℚ) (hq : 0 < q)
    (h : (x : ℚ) * q ≤ (y : ℚ) * q) : x ≤ y := by
  have := le_of_mul_le_mul_right h hq
  exact_mod_cast this

/-- An open node of a `Frontier` state in cell coordinates, with those of its
closed parent. -/
theorem frontier_open (c : Int) (s : QPointF) (i j : Int) (st : SearchState)
    (h : Frontier c s i j st) (m : GridPathNode) (hm : m ∈ st.openList) :
    ∃ a b pa pb : Int, m.pos = cellCentre s c a b ∧
      (∃ parent ∈ st.closedList, parent.pos = cellCentre s c pa pb) ∧
      pa.natAbs + (i - pa).natAbs = i.natAbs ∧ pb.natAbs + (j - pb).natAbs = j.natAbs ∧
      (a - pa).natAbs + (b - pb).natAbs = 1 ∧
      m.startCost = ((pa.natAbs + pb.natAbs + 1 : ℕ) : ℚ) * |(c : ℚ)| ∧
      m.targetCost = (((i - a).natAbs + (j - b).natAbs : ℕ) : ℚ) * |(c : ℚ)| := by
  obtain ⟨par, hpar, d, hd, hpos, hsc, htc⟩ := h.openCosts m hm
  obtain ⟨pa, pb, hppos, hbx, hby, _, hpsc⟩ := h.closedBest par hpar
  obtain ⟨a, b, hstep, hone⟩ := cellCentre_step s c pa pb d hd
  have hmpos : m.pos = cellCentre s c a b := by rw [hpos, hppos, hstep]
  refine ⟨a, b, pa, pb, hmpos, ⟨par, hpar, hppos⟩, hbx, hby, hone, ?_, ?_⟩
  · rw [hsc, hpsc]
    push_cast
    ring
  · rw [htc, hmpos, cellCentre_dist]

theorem natAbs_adjacent_le (a b p q : Int) (h : (a - p).natAbs + (b - q).natAbs = 1) :
    a.natAbs + b.natAbs ≤ p.natAbs + q.natAbs + 1 := by omega

theorem natAbs_adjacent_cases (a b p q : Int) (h : (a - p).natAbs + (b - q).natAbs = 1) :
    ((a - p).natAbs = 1 ∧ b = q) ∨ (a = p ∧ (b - q).natAbs = 1) := by omega

theorem box_advance (i p q : Int) (hadj : (q - p).natAbs = 1)
    (hbox : p.natAbs + (i - p).natAbs = i.natAbs)
    (hle : p.natAbs + 1 + (i - q).natAbs ≤ i.natAbs) :
    q.natAbs + (i - q).natAbs = i.natAbs ∧ q.natAbs = p.natAbs + 1 := by omega

/-- A non-empty list of nodes has a node of greatest start cost. -/
theorem exists_max_startCost (l : List GridPathNode) (hl : l ≠ []) :
    ∃ n ∈ l, ∀ m ∈ l, m.startCost ≤ n.startCost := by
  induction l with
  | nil => exact absurd rfl hl
  | cons x xs ih =>
    by_cases hxs : xs = []
    · subst hxs
      exact ⟨x, List.mem_cons_self _ _, fun m hm => by
        have : m = x := by simpa using hm
        rw [this]⟩
    · obtain ⟨n, hn, hmax⟩ := ih hxs
      by_cases hcmp : n.startCost ≤ x.startCost
      · refine ⟨x, List.mem_cons_self _ _, ?_⟩
        intro m hm
        rcases List.mem_cons.mp hm with h | h
        · rw [h]
        · exact (hmax m h).trans hcmp
      · refine ⟨n, List.mem_cons_of_mem _ hn, ?_⟩
        intro m hm
        rcases List.mem_cons.mp hm with h | h
        · rw [h]; exact le_of_lt (not_le.mp hcmp)
        · exact hmax m h

/-- From a cell of the rectangle other than the target there is a straight step
to a cell of the rectangle one further from the start. -/
theorem step_towards_target (s : QPointF) (c : Int) (i j a b : Int)
    (hbx : a.natAbs + (i - a).natAbs = i.natAbs) (hby : b.natAbs + (j - b).natAbs = j.natAbs)
    (hne : a ≠ i ∨ b ≠ j) :
    ∃ d ∈ straightDirections, ∃ a2 b2 : Int,
      cellCentre s c a b + d.scale (c : ℚ) = cellCentre s c a2 b2 ∧
      a2.natAbs + (i - a2).natAbs = i.natAbs ∧ b2.natAbs + (j - b2).natAbs = j.natAbs ∧
      a2.natAbs + b2.natAbs = a.natAbs + b.natAbs + 1 := by
  by_cases hai : a = i
  · have hbj : b ≠ j := by
      rcases hne with h | h
      · exact absurd hai h
      · exact h
    rcases lt_or_gt_of_ne hbj with hlt | hgt
    · exact ⟨south, by simp [straightDirections], a, b + 1, cellCentre_south s c a b,
        hbx, by omega, by omega⟩
    · exact ⟨north, by simp [straightDirections], a, b - 1, cellCentre_north s c a b,
        hbx, by omega, by omega⟩
  · rcases lt_or_gt_of_ne hai with hlt | hgt
    · exact ⟨east, by simp [straightDirections], a + 1, b, cellCentre_east s c a b,
        by omega, hby, by omega⟩
    · exact ⟨west, by simp [straightDirections], a - 1, b, cellCentre_west s c a b,
        by omega, hby, by omega⟩

/-- In a `Frontier` state some open node lies in the rectangle and has the grid
distance from the start as its start cost. -/
theorem frontier_good_open (c : Int) (hc : c ≠ 0) (s : QPointF) (i j : Int) (st : SearchState)
    (h : Frontier c s i j st) :
    ∃ m ∈ st.openList, ∃ a b : Int, m.pos = cellCentre s c a b ∧
      a.natAbs + (i - a).natAbs = i.natAbs ∧ b.natAbs + (j - b).natAbs = j.natAbs ∧
      m.startCost = ((a.natAbs + b.natAbs : ℕ) : ℚ) * |(c : ℚ)| ∧
      m.targetCost = (((i - a).natAbs + (j - b).natAbs : ℕ) : ℚ) * |(c : ℚ)| := by
  have hcq : (0 : ℚ) < |(c : ℚ)| := abs_pos.mpr (by exact_mod_cast hc)
  obtain ⟨n, hn, hmax⟩ := exists_max_startCost st.closedList h.started
  obtain ⟨a, b, hnpos, hbx, hby, hne, hnsc⟩ := h.closedBest n hn
  obtain ⟨d, hd, a2, b2, hstep, hbx2, hby2, hlevel⟩ := step_towards_target s c i j a b hbx hby hne
  have hcov := h.covered n hn d hd
  rw [hnpos, hstep, List.map_append, List.mem_append] at hcov
  rcases hcov with hcov | hcov
  · -- a closed node one further from the start would cost more than the greatest
    obtain ⟨n2, hn2, hn2pos⟩ := List.mem_map.mp hcov
    obtain ⟨a3, b3, hpos3, _, _, _, hsc3⟩ := h.closedBest n2 hn2
    obtain ⟨e1, e2⟩ := cellCentre_injective s c hc a3 b3 a2 b2 (hpos3.symm.trans hn2pos)
    subst e1 e2
    have hle := hmax n2 hn2
    rw [hsc3, hnsc] at hle
    have := natCast_mul_le_cancel _ _ _ hcq hle
    linarith
  · obtain ⟨m, hm, hmpos⟩ := List.mem_map.mp hcov
    obtain ⟨a3, b3, pa, pb, hpos3, ⟨par, hpar, hparpos⟩, hpbx, hpby, hadj, hsc, htc⟩ :=
      frontier_open c s i j st h m hm
    obtain ⟨e1, e2⟩ := cellCentre_injective s c hc a3 b3 a2 b2 (hpos3.symm.trans hmpos)
    subst e1 e2
    obtain ⟨pa2, pb2, hparpos2, _, _, _, hparsc⟩ := h.closedBest par hpar
    obtain ⟨e3, e4⟩ := cellCentre_injective s c hc pa2 pb2 pa pb (hparpos2.symm.trans hparpos)
    subst e3 e4
    have hle := hmax par hpar
    rw [hparsc, hnsc] at hle
    have hle' := natCast_mul_le_cancel _ _ _ hcq hle
    have htri := natAbs_adjacent_le a3 b3 pa2 pb2 hadj
    refine ⟨m, hm, a3, b3, hpos3, hbx2, hby2, ?_, htc⟩
    rw [hsc]
    have : pa2.natAbs + pb2.natAbs + 1 = a3.natAbs + b3.natAbs := by linarith
    rw [this]

/-- In a `Frontier` state the node that is selected lies in the rectangle and
has the grid distance from the start as its start cost. -/
theorem frontier_selected (c : Int) (hc : c ≠ 0) (s : QPointF) (i j : Int)
    (st st1 : SearchState) (sel : GridPathNode) (h : Frontier c s i j st)
    (hsel : selectLowest st = some (sel, st1)) :
    ∃ a b : Int, sel.pos = cellCentre s c a b ∧
      a.natAbs + (i - a).natAbs = i.natAbs ∧ b.natAbs + (j - b).natAbs = j.natAbs ∧
      sel.startCost = ((a.natAbs + b.natAbs : ℕ) : ℚ) * |(c : ℚ)| := by
  have hcq : (0 : ℚ) < |(c : ℚ)| := abs_pos.mpr (by exact_mod_cast hc)
  obtain ⟨_, idx, _, hget, hleast, _⟩ := selectLowest_inv st st1 sel hsel
  have hmem : sel ∈ st.openList := List.get?_mem hget
  obtain ⟨m, hm, ma, mb, _, hmbx, hmby, hmsc, hmtc⟩ := frontier_good_open c hc s i j st h
  obtain ⟨a, b, pa, pb, hpos, _, hpbx, hpby, hadj, hsc, htc⟩ :=
    frontier_open c s i j st h sel hmem
  have hle := hleast m hm
  unfold GridPathNode.totalCost at hle
  rw [hsc, htc, hmsc, hmtc, ← add_mul, ← add_mul, ← Nat.cast_add, ← Nat.cast_add] at hle
  have hle' := natCast_mul_le_cancel _ _ _ hcq hle
  have key : a.natAbs + (i - a).natAbs = i.natAbs ∧ b.natAbs + (j - b).natAbs = j.natAbs ∧
      pa.natAbs + pb.natAbs + 1 = a.natAbs + b.natAbs := by
    rcases natAbs_adjacent_cases a b pa pb hadj with ⟨h1, h2⟩ | ⟨h1, h2⟩
    · subst h2
      have hx : pa.natAbs + 1 + (i - a).natAbs ≤ i.natAbs := by linarith
      obtain ⟨k1, k2⟩ := box_advance i pa a h1 hpbx hx
      exact ⟨k1, hpby, by linarith⟩
    · subst h1
      have hy : pb.natAbs + 1 + (j - b).natAbs ≤ j.natAbs := by linarith
      obtain ⟨k1, k2⟩ := box_advance j pb b h2 hpby hy
      exact ⟨hpbx, k1, by linarith⟩
  refine ⟨a, b, hpos, key.1, key.2.1, ?_⟩
  rw [hsc, key.2.2]

/-- The closed nodes of a `Frontier` state are distinct cells of the rectangle
other than the target, so they are fewer than the rectangle has cells. -/
theorem frontier_count (c : Int) (s : QPointF) (i j : Int) (st : SearchState)
    (h : Frontier c s i j st) :
    st.closedList.length + 1 ≤ (i.natAbs + 1) * (j.natAbs + 1) := by
  let box : Finset (Int × Int) :=
    Finset.Icc (min 0 i) (max 0 i) ×ˢ Finset.Icc (min 0 j) (max 0 j)
  have hcard : box.card = (i.natAbs + 1) * (j.natAbs + 1) := by
    rw [Finset.card_product, Int.card_Icc, Int.card_Icc]
    have e1 : (max 0 i + 1 - min 0 i).toNat = i.natAbs + 1 := by omega
    have e2 : (max 0 j + 1 - min 0 j).toNat = j.natAbs + 1 := by omega
    rw [e1, e2]
  have hmem : (i, j) ∈ box := by
    simp only [box, Finset.mem_product, Finset.mem_Icc]
    omega
  have hnd : (st.closedList.map GridPathNode.pos).Nodup := by
    have := h.linked.nodup
    rw [List.map_append] at this
    exact this.of_append_left
  have hsub : (st.closedList.map GridPathNode.pos).toFinset ⊆
      (box.erase (i, j)).image (fun ab => cellCentre s c ab.1 ab.2) := by
    intro q hq
    rw [List.mem_toFinset] at hq
    obtain ⟨n, hn, hnq⟩ := List.mem_map.mp hq
    obtain ⟨a, b, hpos, hbx, hby, hne, _⟩ := h.closedBest n hn
    rw [Finset.mem_image]
    refine ⟨(a, b), ?_, by rw [← hnq, hpos]⟩
    rw [Finset.mem_erase]
    refine ⟨?_, ?_⟩
    · intro heq
      have h1 : a = i := congrArg Prod.fst heq
      have h2 : b = j := congrArg Prod.snd heq
      rcases hne with hne | hne
      · exact hne h1
      · exact hne h2
    · simp only [box, Finset.mem_product, Finset.mem_Icc]
      omega
  have h1 : (st.closedList.map GridPathNode.pos).toFinset.card = st.closedList.length := by
    rw [List.toFinset_card_of_nodup hnd, List.length_map]
  have h2 := Finset.card_le_card hsub
  have h3 : ((box.erase (i, j)).image (fun ab => cellCentre s c ab.1 ab.2)).card ≤
      (box.erase (i, j)).card := Finset.card_image_le
  have h4 : (box.erase (i, j)).card = box.card - 1 := Finset.card_erase_of_mem hmem
  have h5 : 0 < box.card := Finset.card_pos.mpr ⟨_, hmem⟩
  omega

/-- The loop ends before the cap with a non-empty closed list, given a
property of the states at the head of the loop that every pass without goal
keeps, and that implies a non-empty open list and `iterations` below the cap. -/
theorem searchLoop_succeeds (ag : GridPathAgent) (isPassable : PassabilityAgent)
    (entity : QuickEntity) (startPos : QPointF) (c : Int) (limit : Nat)
    (P : SearchState → Prop) (hopen : ∀ st, P st → st.openList ≠ [])
    (hcount : ∀ st, P st → st.iterations < limit)
    (hstep : ∀ st sel st1, P st → selectLowest st = some (sel, st1) →
      ag.isPathComplete entity startPos sel = false →
      P (expandAndCount ag isPassable entity c sel st1)) :
    ∀ (fuel : Nat) (st : SearchState), P st → limit ≤ st.iterations + fuel →
      (searchLoop ag isPassable entity startPos c limit fuel st).iterations < limit ∧
        (searchLoop ag isPassable entity startPos c limit fuel st).closedList ≠ [] := by
  intro fuel
  induction fuel with
  | zero =>
    intro st h hfuel
    have := hcount st h
    omega
  | succ fuel ih =>
    intro st h hfuel
    obtain ⟨i, sel, _, _, _, hsel⟩ := selectLowest_spec st (hopen st h)
    unfold searchLoop
    simp only [hsel]
    by_cases hc : ag.isPathComplete entity startPos sel = true
    · rw [if_pos hc]
      exact ⟨hcount st h, by simp⟩
    · rw [if_neg hc]
      have hP := hstep st sel _ h hsel (by simpa using hc)
      have hiter := expandAndCount_iterations ag isPassable entity c sel
        { st with closedList := st.closedList ++ [sel], selectedNode := some sel,
                  openList := st.openList.eraseIdx i }
      have hcond : (expandAndCount ag isPassable entity c sel
            { st with closedList := st.closedList ++ [sel], selectedNode := some sel,
                      openList := st.openList.eraseIdx i }).iterations < limit ∧
          ¬ (expandAndCount ag isPassable entity c sel
            { st with closedList := st.closedList ++ [sel], selectedNode := some sel,
                      openList := st.openList.eraseIdx i }).openList.isEmpty = true := by
        refine ⟨hcount _ hP, ?_⟩
        rw [List.isEmpty_iff]
        exact hopen _ hP
      rw [if_pos hcond]
      apply ih _ hP
      rw [hiter]
      show limit ≤ st.iterations + 1 + fuel
      omega

theorem baseline_link_startCost (t npos : QPointF) (sel : GridPathNode) :
    (linkTo (baselineAgent t) (GridPathNode.new npos) sel).startCost =
      sel.startCost + (|npos.x - sel.pos.x| + |npos.y - sel.pos.y|) := rfl

theorem baseline_link_targetCost (t npos : QPointF) (sel : GridPathNode) :
    (linkTo (baselineAgent t) (GridPathNode.new npos) sel).targetCost =
      |t.x - npos.x| + |t.y - npos.y| := rfl

/-- A pass under the baseline policy on an open grid that closes a node of the
rectangle other than the target, with the grid distance as start cost, leads
to a `Frontier` state. -/
theorem frontier_step (c : Int) (s : QPointF) (i j : Int) (isPassable : PassabilityAgent)
    (hall : ∀ pos e, isPassable pos e = true) (entity : QuickEntity)
    (st st1 : SearchState) (sel : GridPathNode) (hlinked : ListsLinked c s st)
    (hsel : selectLowest st = some (sel, st1))
    (hclosed : ∀ n ∈ st.closedList, ∃ a b : Int,
      n.pos = cellCentre s c a b ∧
      a.natAbs + (i - a).natAbs = i.natAbs ∧ b.natAbs + (j - b).natAbs = j.natAbs ∧
      (a ≠ i ∨ b ≠ j) ∧ n.startCost = ((a.natAbs + b.natAbs : ℕ) : ℚ) * |(c : ℚ)|)
    (hopen : ∀ m ∈ st1.openList, ∃ parent ∈ st.closedList, ∃ d ∈ straightDirections,
      m.pos = parent.pos + d.scale (c : ℚ) ∧
      m.startCost = parent.startCost + |(c : ℚ)| ∧
      m.targetCost = |(cellCentre s c i j).x - m.pos.x| + |(cellCentre s c i j).y - m.pos.y|)
    (hcov : ∀ n ∈ st.closedList, ∀ d ∈ straightDirections,
      n.pos + d.scale (c : ℚ) ∈ (st.closedList ++ st.openList).map GridPathNode.pos)
    (hcount : st.iterations = st.closedList.length)
    (hgood : ∃ a b : Int, sel.pos = cellCentre s c a b ∧
      a.natAbs + (i - a).natAbs = i.natAbs ∧ b.natAbs + (j - b).natAbs = j.natAbs ∧
      sel.startCost = ((a.natAbs + b.natAbs : ℕ) : ℚ) * |(c : ℚ)|)
    (hnotgoal : sel.pos ≠ cellCentre s c i j) :
    Frontier c s i j
      (expandAndCount (baselineAgent (cellCentre s c i j)) isPassable entity c sel st1) := by
  obtain ⟨hl1, hcl1, hselmem⟩ := listsLinked_select c s st st1 sel hlinked hsel
  obtain ⟨_, idx, hidx, hget, _, heq⟩ := selectLowest_inv st st1 sel hsel
  have hopen1 : st1.openList = st.openList.eraseIdx idx := by rw [heq]
  have hiter1 : st1.iterations = st.iterations := by rw [heq]
  have hselcl : sel ∈ st1.closedList := by rw [hcl1]; simp
  obtain ⟨hgrow, hnew, hcovsel⟩ :=
    expandAndCount_spec (baselineAgent (cellCentre s c i j)) isPassable entity c sel st1
  have hcl3 := expandAndCount_closedList (baselineAgent (cellCentre s c i j)) isPassable
    entity c sel st1
  have hperm : List.Perm st.openList (sel :: st1.openList) := by
    rw [hopen1]; exact eraseIdx_perm _ _ _ hget
  refine ⟨listsLinked_expandAndCount _ isPassable entity c s sel st1 hselcl hl1,
    ?_, ?_, ?_, ?_, ?_⟩
  · intro n hn
    rw [hcl3, hcl1] at hn
    rcases List.mem_append.mp hn with hn | hn
    · exact hclosed n hn
    · have hns : n = sel := by simpa using hn
      subst hns
      obtain ⟨a, b, hpos, hbx, hby, hsc⟩ := hgood
      refine ⟨a, b, hpos, hbx, hby, ?_, hsc⟩
      by_contra hcon
      push_neg at hcon
      apply hnotgoal
      rw [hpos, hcon.1, hcon.2]
  · intro m hm
    rw [hcl3, hcl1]
    rcases hnew m hm with hm | ⟨d, hd, hm⟩
    · obtain ⟨par, hpar, d, hd, h1, h2, h3⟩ := hopen m hm
      exact ⟨par, List.mem_append_left _ hpar, d, hd, h1, h2, h3⟩
    · refine ⟨sel, by simp, d, hd, ?_, ?_, ?_⟩
      · rw [hm]; rfl
      · rw [hm, baseline_link_startCost, direction_length (c : ℚ) sel.pos d hd]
      · rw [hm, baseline_link_targetCost]
        rfl
  · intro n hn d hd
    rw [hcl3] at hn ⊢
    rw [hcl1] at hn
    rcases List.mem_append.mp hn with hn | hn
    · have hold := hcov n hn d hd
      rw [List.map_append, List.mem_append] at hold ⊢
      rcases hold with hold | hold
      · left
        rw [hcl1, List.map_append]
        exact List.mem_append_left _ hold
      · obtain ⟨x, hx, hxp⟩ := List.mem_map.mp hold
        rcases List.mem_cons.mp (hperm.subset hx) with hxs | hxo
        · left
          rw [hcl1]
          exact List.mem_map.mpr ⟨sel, by simp, by rw [← hxs]; exact hxp⟩
        · right
          exact List.mem_map.mpr ⟨x, hgrow x hxo, hxp⟩
    · have hns : n = sel := by simpa using hn
      rw [hns]
      exact hcovsel hall d hd
  · rw [hcl3, hcl1]
    simp
  · rw [expandAndCount_iterations, hcl3, hcl1, hiter1, hcount]
    simp

/-- On an open grid, under the baseline policy, the search towards the cell
centre `(i, j)` ends before the cap if the rectangle of cells spanned by the
start and the target has no more cells than the cap allows iterations. -/
theorem runSearch_box_target (isPassable : PassabilityAgent) (entity : QuickEntity)
    (c : Int) (hc : c ≠ 0) (s : QPointF) (hall : ∀ pos e, isPassable pos e = true)
    (limit : Nat) (i j : Int) (hbox : (i.natAbs + 1) * (j.natAbs + 1) ≤ limit) :
    (runSearch (baselineAgent (cellCentre s c i j)) isPassable entity s c limit).iterations
        < limit ∧
      (runSearch (baselineAgent (cellCentre s c i j)) isPassable entity s c limit).closedList
        ≠ [] := by
  have hpos : 0 < limit := by
    have : 1 ≤ (i.natAbs + 1) * (j.natAbs + 1) := Nat.one_le_iff_ne_zero.mpr (by positivity)
    omega
  unfold runSearch
  apply searchLoop_succeeds (baselineAgent (cellCentre s c i j)) isPassable entity s c limit
    (fun st => st = initialSearchState s ∨ Frontier c s i j st)
  · rintro st (h | h)
    · subst h; simp [initialSearchState]
    · obtain ⟨m, hm, _⟩ := frontier_good_open c hc s i j st h
      exact List.ne_nil_of_mem hm
  · rintro st (h | h)
    · subst h; exact hpos
    · have := frontier_count c s i j st h
      rw [h.counted]
      omega
  · rintro st sel st1 (h | h) hsel hng
    · subst h
      right
      obtain ⟨_, idx, hidx, hget, _, heq⟩ := selectLowest_inv _ st1 sel hsel
      have hidx0 : idx = 0 := by
        simp [initialSearchState] at hidx
        exact hidx
      subst hidx0
      have hselroot : sel = GridPathNode.new s := by
        simp [initialSearchState] at hget
        exact hget.symm
      subst hselroot
      have hopen1 : st1.openList = [] := by rw [heq]; rfl
      apply frontier_step c s i j isPassable hall entity _ st1 _ (listsLinked_initial c s) hsel
      · intro n hn; cases hn
      · intro m hm; rw [hopen1] at hm; cases hm
      · intro n hn; cases hn
      · rfl
      · exact ⟨0, 0, (cellCentre_zero s c).symm, by omega, by omega, by
          show (0 : ℚ) = _
          simp⟩
      · intro heq2
        have : decide ((GridPathNode.new s).pos = cellCentre s c i j) = false := hng
        rw [decide_eq_false_iff_not] at this
        exact this heq2
    · right
      obtain ⟨_, idx, hidx, hget, _, heq⟩ := selectLowest_inv st st1 sel hsel
      have hopen1 : st1.openList = st.openList.eraseIdx idx := by rw [heq]
      apply frontier_step c s i j isPassable hall entity st st1 sel h.linked hsel h.closedBest
      · intro m hm
        rw [hopen1] at hm
        exact h.openCosts m ((List.eraseIdx_sublist _ _).subset hm)
      · exact h.covered
      · exact h.counted
      · exact frontier_selected c hc s i j st st1 sel h hsel
      · intro heq2
        have : decide (sel.pos = cellCentre s c i j) = false := hng
        rw [decide_eq_false_iff_not] at this
        exact this heq2
  · exact Or.inl rfl
  · show limit ≤ 0 + limit
    omega

/-- When the search ends before the cap with a non-empty closed list, the
lookup-or-search returns true. -/
theorem lookupOrSearch_true {σ : Type} (limit : Nat) (mkAgent : QPointF → GridPathAgent)
    (p : GridPather σ) (isPassable : PassabilityAgent) (ent : QuickEntity) (pos : QPointF)
    (h1 : (runSearch (mkAgent pos) isPassable ent ent.centrePos p.mCellSize limit).iterations
      ≠ limit)
    (h2 : (runSearch (mkAgent pos) isPassable ent ent.centrePos p.mCellSize limit).closedList
      ≠ []) :
    (p.lookupOrSearch limit mkAgent isPassable ent pos).result = true := by
  have hs : (p.afterSearch limit ent pos
      (runSearch (mkAgent pos) isPassable ent ent.centrePos p.mCellSize limit)).result
        = true := by
    unfold GridPather.afterSearch
    rw [if_neg h1, if_neg (by rw [List.isEmpty_iff]; exact h2)]
  unfold GridPather.lookupOrSearch
  cases hc : p.mPathCache with
  | none => exact hs
  | some cache =>
    simp only
    by_cases hv : (cache.cachedData ent pos).isValid = true
    · rw [if_pos hv]
    · rw [if_neg hv]
      exact hs

/-- The policy with grid-distance costs on an open grid, all collaborators
bound and the start cell centred, for the target at the centre of the cell `i`
columns and `j` rows from the start: `moveEntityTo` returns true if the
rectangle of cells spanned by start and target has at most `iterationLimit`
cells; and, unless a cached path exists, it returns false if the target is
`iterationLimit` or more cell steps away. -/
theorem baseline_open_grid_reachable {σ : Type} (p : GridPather σ) (entity : QuickEntity)
    (t : Nat) (isPassable : PassabilityAgent) (s : SteeringAgent σ)
    (hT : p.mTimer = some t) (hP : p.mPassabilityAgent = some isPassable)
    (hS : p.mSteeringAgent = some s) (hall : ∀ pos e, isPassable pos e = true)
    (hx : cellCentreDiff entity.centrePos.x p.mCellSize = some 0)
    (hy : cellCentreDiff entity.centrePos.y p.mCellSize = some 0) (i j : Int) :
    ∃ r, p.moveEntityTo baselineAgent (some entity)
        (cellCentre entity.centrePos p.mCellSize i j) = some r ∧
      ((i.natAbs + 1) * (j.natAbs + 1) ≤ iterationLimit → r.result = true) ∧
      (iterationLimit ≤ i.natAbs + j.natAbs →
        (∀ cache, p.mPathCache = some cache →
          (cache.cachedData entity (cellCentre entity.centrePos p.mCellSize i j)).isValid
            = false) →
        r.result = false) := by
  have hc : p.mCellSize ≠ 0 := cellCentreDiff_some_ne_zero _ _ _ hx
  have hval := moveEntityToWith_valid iterationLimit baselineAgent p entity
    (cellCentre entity.centrePos p.mCellSize i j) t isPassable s hT hP hS (hall _ _) hx hy
  refine ⟨_, hval, ?_, ?_⟩
  · intro hbox
    obtain ⟨h1, h2⟩ := runSearch_box_target isPassable entity p.mCellSize hc entity.centrePos
      hall iterationLimit i j hbox
    exact lookupOrSearch_true iterationLimit baselineAgent p isPassable entity _
      (Nat.ne_of_lt h1) h2
  · intro hfar hmiss
    obtain ⟨r, hr, hres⟩ := moveEntityToWith_far_target iterationLimit (by decide) p entity t
      isPassable s hT hP hS hall hx hy i j hmiss hfar
    rw [hval] at hr
    cases hr
    exact hres

/-- On the open grid with cell size 32, from (16, 16) to the centre of the cell
30 columns east and 31 rows north, a rectangle of 31 * 32 = 992 cells, the
policy with grid-distance costs finds the target. -/
theorem baseline_open_grid_reachable_example :
    ∃ r, openPather.moveEntityTo baselineAgent (some entityA)
        (cellCentre entityA.centrePos openPather.mCellSize 30 (-31)) = some r ∧
      r.result = true :=
  (baseline_open_grid_reachable openPather entityA 0 openGrid arriveAtOnce rfl rfl rfl
    (fun _ _ => rfl) (by decide!) (by decide!) 30 (-31)).elim
    (fun r h => ⟨r, h.1, h.2.1 (by decide)⟩)

/-! ## Fuel -/

/-- The loop never runs out of fuel: with `limit ≤ iterations + fuel`, more
fuel does not change the state the loop ends in. `runSearch` starts the loop
with `iterations = 0` and `fuel = limit`. -/
theorem searchLoop_fuel (ag : GridPathAgent) (isPassable : PassabilityAgent)
    (entity : QuickEntity) (startPos : QPointF) (c : Int) (limit : Nat) :
    ∀ (fuel : Nat) (st : SearchState), limit ≤ st.iterations + fuel →
      searchLoop ag isPassable entity startPos c limit (fuel + 1) st =
        searchLoop ag isPassable entity startPos c limit fuel st := by
  intro fuel
  induction fuel with
  | zero =>
    intro st hfuel
    unfold searchLoop
    cases hs : selectLowest st with
    | none => rfl
    | some r =>
      obtain ⟨sel, st1⟩ := r
      simp only
      by_cases hc : ag.isPathComplete entity startPos sel = true
      · rw [if_pos hc, if_pos hc]
      · rw [if_neg hc, if_neg hc]
        have hiter : (expandAndCount ag isPassable entity c sel st1).iterations =
            st.iterations + 1 := by
          rw [expandAndCount_iterations, selectLowest_iterations st st1 sel hs]
        have hcond : ¬ ((expandAndCount ag isPassable entity c sel st1).iterations < limit ∧
            ¬ (expandAndCount ag isPassable entity c sel st1).openList.isEmpty = true) := by
          rw [hiter]
          omega
        rw [if_neg hcond, if_neg hcond]
  | succ fuel ih =>
    intro st hfuel
    rw [searchLoop]
    conv_rhs => rw [searchLoop]
    cases hs : selectLowest st with
    | none => rfl
    | some r =>
      obtain ⟨sel, st1⟩ := r
      simp only
      by_cases hc : ag.isPathComplete entity startPos sel = true
      · rw [if_pos hc, if_pos hc]
      · rw [if_neg hc, if_neg hc]
        have hiter : (expandAndCount ag isPassable entity c sel st1).iterations =
            st.iterations + 1 := by
          rw [expandAndCount_iterations, selectLowest_iterations st st1 sel hs]
        by_cases hcond : (expandAndCount ag isPassable entity c sel st1).iterations < limit ∧
            ¬ (expandAndCount ag isPassable entity c sel st1).openList.isEmpty = true
        · rw [if_pos hcond, if_pos hcond]
          exact ih _ (by rw [hiter]; omega)
        · rw [if_neg hcond, if_neg hcond]

/-! ## Setters while pathing is active (C13, C14) -/

/-- C13: while the tracking table is not empty, `setCellSize`,
`setPassabilityAgent` and `setSteeringAgent` leave the pather as it was, for
every argument: the cell size, the bound passability agent, the bound
steering agent and the tracking table are unchanged. -/
theorem setters_ignored_while_tracking {σ : Type} (p : GridPather σ)
    (hactive : p.mData.entries ≠ []) (cellSize : Int)
    (passabilityAgent : Option PassabilityAgent) (steeringAgent : Option (SteeringAgent σ)) :
    p.setCellSize cellSize = p ∧ p.setPassabilityAgent passabilityAgent = p ∧
      p.setSteeringAgent steeringAgent = p := by
  have h : ¬ p.mData.entries.isEmpty = true := by
    rw [List.isEmpty_iff]
    exact hactive
  refine ⟨?_, ?_, ?_⟩
  · unfold GridPather.setCellSize
    rw [if_pos h]
  · unfold GridPather.setPassabilityAgent
    rw [if_pos h]
  · unfold GridPather.setSteeringAgent
    rw [if_pos h]

/-- C13, witness: entity 1 is tracked; a new cell size and the removal of both
agents are ignored. -/
theorem setters_ignored_while_tracking_witness :
    trackingPather.setCellSize 64 = trackingPather ∧
      trackingPather.setPassabilityAgent none = trackingPather ∧
      trackingPather.setSteeringAgent none = trackingPather :=
  setters_ignored_while_tracking trackingPather (by decide) 64 none none

/-- C14: entity 1 is tracked and the timer 0 is bound; `setTimer` with another
timer is not rejected, `timer()` returns the new timer afterwards. -/
theorem setTimer_accepted_while_tracking :
    trackingPather.mData.lookup 1 = some oneStepPath ∧ trackingPather.timer = some 0 ∧
      (trackingPather.setTimer (some 7)).timer = some 7 ∧
      (trackingPather.setTimer none).timer = none := by
  refine ⟨by decide!, rfl, rfl, rfl⟩

/-! ## The cell size in the cell-centre check (C19, C20) -/

/-- C19: with no entity tracked `setCellSize(0)` is accepted and stored, and
the cell-centre check of the next `moveEntityTo` takes a remainder by zero. -/
theorem setCellSize_zero_accepted :
    openPather.mData.entries = [] ∧ (openPather.setCellSize 0).mCellSize = 0 ∧
      cellCentreDiff entityA.centrePos.x (openPather.setCellSize 0).mCellSize = none ∧
      ((openPather.setCellSize 0).moveEntityTo baselineAgent (some entityA) ⟨48, 16⟩).isNone
        = true := by
  refine ⟨rfl, rfl, by decide!, by decide!⟩

theorem setCellSize_stored {σ : Type} (p : GridPather σ) (hidle : p.mData.entries = [])
    (cellSize : Int) : (p.setCellSize cellSize).mCellSize = cellSize := by
  unfold GridPather.setCellSize
  rw [hidle]
  rfl

/-- C20: the cell-centre check at the geometric centre
`i * cellSize + cellSize / 2` (an exact half) of a cell, for a positive cell
size, cell size and `i * cellSize` of magnitude at most `2 ^ 29` (in the range
of `int`, where the `double` arithmetic of the check is exact). For an even
cell size the difference is 0 and the check passes, also for negative `i`; for
an odd cell size of 3 or more the difference is not 0 and the check fails,
for every `i`. -/
theorem cellCentreDiff_geometric_centre (c : Int) (hc : 0 < c) (i : Int)
    (hcr : c ≤ 536870912) (hir : |i * c| ≤ 536870912) :
    (c % 2 = 0 → cellCentreDiff ((i : ℚ) * (c : ℚ) + (c : ℚ) / 2) c = some 0) ∧
      (c % 2 = 1 → 3 ≤ c →
        ∃ d, cellCentreDiff ((i : ℚ) * (c : ℚ) + (c : ℚ) / 2) c = some d ∧ d ≠ 0) := by
  have hc0 : c ≠ 0 := by omega
  have hdiv : Int.tdiv c 2 = c / 2 := Int.tdiv_eq_ediv (by omega) (by omega)
  have hgrid : OnBinaryGrid ((i : ℚ) * (c : ℚ) + (c : ℚ) / 2) :=
    ⟨i * c * 1048576 + c * 524288, by push_cast; ring⟩
  have hcabs : |c| ≤ 1073741824 := by
    rw [abs_le]
    constructor <;> omega
  have hrange : |(i : ℚ) * (c : ℚ) + (c : ℚ) / 2| ≤ 1073741824 := by
    have h1 : |((i * c : ℤ) : ℚ)| ≤ 536870912 := by exact_mod_cast hir
    have h2 := abs_le.mp h1
    have h3 : (c : ℚ) ≤ 536870912 := by exact_mod_cast hcr
    have h4 : (0 : ℚ) < c := by exact_mod_cast hc
    push_cast at h2
    rw [abs_le]
    constructor <;> linarith
  have hexact := cellCentreDiff_exact _ c hc0 hgrid hrange hcabs
  constructor
  · intro heven
    obtain ⟨k, hk⟩ : ∃ k, c = 2 * k := ⟨c / 2, by omega⟩
    have hhalf : c / 2 = k := by omega
    have harg : (i : ℚ) * (c : ℚ) + (c : ℚ) / 2 - ((Int.tdiv c 2 : ℤ) : ℚ) + 1 / 2 =
        ((i * c : ℤ) : ℚ) + 1 / 2 := by
      rw [hdiv, hhalf, hk]
      push_cast
      ring
    rw [hexact, harg]
    have hfloor : ⌊((i * c : ℤ) : ℚ) + 1 / 2⌋ = i * c := by
      rw [Int.floor_eq_iff]
      constructor <;> push_cast <;> linarith
    rw [hfloor]
    exact congrArg some (Int.tmod_eq_zero_of_dvd (Dvd.intro_left i rfl))
  · intro hodd hthree
    obtain ⟨k, hk⟩ : ∃ k, c = 2 * k + 1 := ⟨c / 2, by omega⟩
    have hhalf : c / 2 = k := by omega
    have harg : (i : ℚ) * (c : ℚ) + (c : ℚ) / 2 - ((Int.tdiv c 2 : ℤ) : ℚ) + 1 / 2 =
        ((i * c : ℤ) : ℚ) + 1 / 2 + 1 / 2 := by
      rw [hdiv, hhalf, hk]
      push_cast
      ring
    refine ⟨_, hexact, ?_⟩
    rw [harg]
    have hfloor : ⌊((i * c : ℤ) : ℚ) + 1 / 2 + 1 / 2⌋ = i * c + 1 := by
      rw [Int.floor_eq_iff]
      constructor <;> push_cast <;> linarith
    rw [hfloor]
    intro h0
    obtain ⟨m, hm⟩ := Int.dvd_of_tmod_eq_zero h0
    have hdvd : c ∣ 1 := ⟨m - i, by rw [mul_sub]; linarith [mul_comm c i]⟩
    have := Int.le_of_dvd (by omega) hdvd
    omega

/-- C20, witness: cell size 3, the cell (0, 0) with geometric centre
(1.5, 1.5); the check fails and `moveEntityTo` returns false on an open grid. -/
theorem cellCentreDiff_geometric_centre_witness :
    (∃ d, cellCentreDiff (((0 : Int) : ℚ) * ((3 : Int) : ℚ) + ((3 : Int) : ℚ) / 2) 3 = some d ∧
        d ≠ 0) ∧
      oddPather.mCellSize = 3 ∧
      (oddPather.moveEntityTo baselineAgent (some entityOdd) entityOdd.centrePos).map
        (fun r => r.result) = some false :=
  ⟨(cellCentreDiff_geometric_centre 3 (by decide) 0 (by decide) (by decide)).2 (by decide)
    (by decide), rfl, by decide!⟩

/-! ## What a search that ran leaves behind (C11, C12, C17) -/

/-- When the search loop ran, the outcome is that of the search. -/
theorem lookupOrSearch_of_search {σ : Type} (limit : Nat) (mkAgent : QPointF → GridPathAgent)
    (p : GridPather σ) (isPassable : PassabilityAgent) (ent : QuickEntity) (pos : QPointF)
    (hsearch : (p.lookupOrSearch limit mkAgent isPassable ent pos).search.isSome = true) :
    p.lookupOrSearch limit mkAgent isPassable ent pos =
      p.afterSearch limit ent pos
        (runSearch (mkAgent pos) isPassable ent ent.centrePos p.mCellSize limit) := by
  unfold GridPather.lookupOrSearch at hsearch ⊢
  cases hc : p.mPathCache with
  | none => rfl
  | some cache =>
    simp only [hc] at hsearch ⊢
    by_cases hv : (cache.cachedData ent pos).isValid = true
    · rw [if_pos hv] at hsearch
      cases hsearch
    · rw [if_neg hv]

/-- The final search state is part of the outcome of `afterSearch`. -/
theorem afterSearch_search {σ : Type} (limit : Nat) (p : GridPather σ) (entity : QuickEntity)
    (pos : QPointF) (st : SearchState) :
    (p.afterSearch limit entity pos st).search = some st ∧
      (p.afterSearch limit entity pos st).queries = entity.centrePos :: st.queries := by
  unfold GridPather.afterSearch
  by_cases h1 : st.iterations = limit
  · simp [h1]
  · by_cases h2 : st.closedList.isEmpty
    · simp [h1, h2]
    · simp [h1, h2]

/-- C12: when `moveEntityTo` returns true after a search for an entity that is
already tracked, `pathData(entity)` is the path data built from this search
alone (target, the path read off the final closed list, cursor 0), the tracking
table holds one entry for the entity and as many entries as before, and the
entry of every other entity is as it was. -/
theorem moveEntityTo_replaces_tracked_path {σ : Type} (mkAgent : QPointF → GridPathAgent)
    (p : GridPather σ) (entity : QuickEntity) (pos : QPointF) (r : MoveOutcome σ)
    (dOld : GridPathData) (htracked : p.mData.lookup entity.ident = some dOld)
    (h : p.moveEntityTo mkAgent (some entity) pos = some r) (hres : r.result = true)
    (hsearch : r.search.isSome = true) :
    ∃ st, r.search = some st ∧
      r.pather.pathData entity.ident = ⟨pos, reconstructPath st.closedList, 0⟩ ∧
      r.pather.mData.keys.count entity.ident = 1 ∧
      r.pather.mData.keys.length = p.mData.keys.length ∧
      ∀ e, e ≠ entity.ident → r.pather.mData.lookup e = p.mData.lookup e := by
  obtain ⟨ent, t, isPassable, s, hent, _, _, _, _, _, _, hr⟩ :=
    moveEntityToWith_inv iterationLimit mkAgent p (some entity) pos r h (Or.inl hres)
  cases hent
  subst hr
  have heq := lookupOrSearch_of_search iterationLimit mkAgent p isPassable entity pos hsearch
  rw [heq] at hres ⊢
  refine ⟨_, (afterSearch_search iterationLimit p entity pos _).1, ?_⟩
  rcases afterSearch_pather iterationLimit p entity pos
    (runSearch (mkAgent pos) isPassable entity entity.centrePos p.mCellSize iterationLimit)
    with hf | ht
  · rw [hf.1] at hres
    cases hres
  · refine ⟨?_, ?_, ?_, ?_⟩
    · unfold GridPather.pathData
      rw [ht.2, AList.lookup_insert]
    · apply List.count_eq_one_of_mem (AList.keys_nodup _)
      rw [ht.2]
      exact AList.mem_keys.mp ((AList.mem_insert _).mpr (Or.inl rfl))
    · have hmem : entity.ident ∈ p.mData.keys :=
        AList.mem_keys.mp (mem_of_lookup_eq_some htracked)
      rw [ht.2, AList.keys_insert, List.length_cons, List.length_erase_of_mem hmem]
      have := List.length_pos_of_mem hmem
      omega
    · intro e he
      rw [ht.2]
      exact AList.lookup_insert_ne he

/-- C12, witness: entity 1 is tracked with the path `oneStepPath`; a search to
(16, 48) succeeds. -/
theorem moveEntityTo_replaces_tracked_path_witness :
    ∃ r, trackingPather.moveEntityTo baselineAgent (some entityA) ⟨16, 48⟩ = some r ∧
      ∃ st, r.search = some st ∧
        r.pather.pathData entityA.ident = ⟨⟨16, 48⟩, reconstructPath st.closedList, 0⟩ ∧
        r.pather.mData.keys.count entityA.ident = 1 ∧
        r.pather.mData.keys.length = trackingPather.mData.keys.length ∧
        ∀ e, e ≠ entityA.ident → r.pather.mData.lookup e = trackingPather.mData.lookup e :=
  ⟨_, moveEntityToWith_valid iterationLimit baselineAgent trackingPather entityA ⟨16, 48⟩ 0
      openGrid arriveAtOnce rfl rfl rfl rfl (by decide!) (by decide!),
    moveEntityTo_replaces_tracked_path baselineAgent trackingPather entityA ⟨16, 48⟩ _
      oneStepPath (AList.lookup_insert _)
      (moveEntityToWith_valid iterationLimit baselineAgent trackingPather entityA ⟨16, 48⟩ 0
        openGrid arriveAtOnce rfl rfl rfl rfl (by decide!) (by decide!))
      (by decide!) (by decide!)⟩


/-! ## The cursor invariant (C11) -/

/-- One tick with a steering agent bound and no negative cursor: it runs to the
end; an entity that was not tracked is not tracked afterwards, an entity whose
cursor was below the waypoint count keeps its record with the cursor as it was
or one more, and every other tracked entity is removed without a `steerTo`
call. -/
theorem timerUpdated_entries {σ : Type} (p : GridPather σ)
    (agent : SteeringAgent σ) (hagent : p.mSteeringAgent = some agent) (delta : ℚ) (world : σ)
    (hcur : ∀ e d, p.mData.lookup e = some d → 0 ≤ d.mCurrentNodeIndex) :
    ∃ p1 world1 calls, p.timerUpdated delta world = some (p1, world1, calls) ∧
      ∀ e,
        (p.mData.lookup e = none → p1.mData.lookup e = none) ∧
        ∀ d, p.mData.lookup e = some d →
          (d.mCurrentNodeIndex < (d.mNodes.length : Int) →
            p1.mData.lookup e = some d ∨
              p1.mData.lookup e =
                some { d with mCurrentNodeIndex := d.mCurrentNodeIndex + 1 }) ∧
          (¬ d.mCurrentNodeIndex < (d.mNodes.length : Int) →
            p1.mData.lookup e = none ∧
              calls.filter (fun c => decide (c.entity = e)) = []) := by
  have hks : ∀ k ∈ p.mData.keys, ∃ d, p.mData.lookup k = some d ∧ 0 ≤ d.mCurrentNodeIndex := by
    intro k hk
    have hmem : k ∈ p.mData := AList.mem_keys.mpr hk
    cases hd : p.mData.lookup k with
    | none => exact absurd hmem (AList.lookup_eq_none.mp hd)
    | some d => exact ⟨d, rfl, hcur k d hd⟩
  obtain ⟨st1, hst1, hspec⟩ :=
    timerUpdatedLoop_spec agent delta p.mData.keys ⟨p.mData, world, []⟩ p.mData.keys_nodup hks
  refine ⟨{ p with mData := st1.mData }, st1.world, st1.calls, ?_, ?_⟩
  · unfold GridPather.timerUpdated
    rw [hagent, hst1]
  · intro e
    constructor
    · intro hnone
      have hnot : e ∉ p.mData.keys := fun hh =>
        AList.lookup_eq_none.mp hnone (AList.mem_keys.mpr hh)
      have := (timerUpdatedLoop_frame (some agent) delta p.mData.keys _ st1 hst1 e hnot).1
      exact this.trans hnone
    · intro d hd
      have hmem : e ∈ p.mData.keys := AList.mem_keys.mp (mem_of_lookup_eq_some hd)
      constructor
      · intro hlt
        obtain ⟨node, world0, _, _, hlook⟩ := (hspec e hmem d hd).1 hlt
        show st1.mData.lookup e = _ ∨ st1.mData.lookup e = _
        rw [hlook]
        cases (agent.steerTo world0 e node.pos delta).1
        · exact Or.inl rfl
        · exact Or.inr rfl
      · intro hge
        obtain ⟨h1, h2⟩ := (hspec e hmem d hd).2 hge
        exact ⟨h2, by simpa using h1⟩

/-- C11: the invariant `0 ≤ mCurrentNodeIndex ≤ number of waypoints` on the
records of the tracking table. It holds for the record a search installs
and for the table after a call of `moveEntityTo` in which the search ran; one
tick `timerUpdated` runs to the end and preserves it, whatever the bound
steering agent answers, and removes every record whose cursor equals the
waypoint count; `cancelEntityMovement` preserves it. -/
theorem cursor_in_range_invariant {σ : Type} (p : GridPather σ)
    (hinv : TableInRange p.mData) :
    (∀ (mkAgent : QPointF → GridPathAgent) (entity : QuickEntity) (pos : QPointF)
        (r : MoveOutcome σ),
        p.moveEntityTo mkAgent (some entity) pos = some r → r.search.isSome = true →
        TableInRange r.pather.mData ∧
          (r.result = true → (r.pather.pathData entity.ident).mCurrentNodeIndex = 0 ∧
            CursorInRange (r.pather.pathData entity.ident))) ∧
      (∀ (agent : SteeringAgent σ), p.mSteeringAgent = some agent → ∀ (delta : ℚ) (world : σ),
        ∃ p1 world1 calls, p.timerUpdated delta world = some (p1, world1, calls) ∧
          TableInRange p1.mData ∧
          ∀ e d, p.mData.lookup e = some d →
            d.mCurrentNodeIndex = (d.mNodes.length : Int) → p1.mData.lookup e = none) ∧
      (∀ e, TableInRange (p.cancelEntityMovement e).mData) := by
  refine ⟨?_, ?_, ?_⟩
  · intro mkAgent entity pos r h hsearch
    obtain ⟨ent, t, isPassable, s, hent, _, _, _, _, _, _, hr⟩ :=
      moveEntityToWith_inv iterationLimit mkAgent p (some entity) pos r h (Or.inr hsearch)
    cases hent
    subst hr
    have heq := lookupOrSearch_of_search iterationLimit mkAgent p isPassable entity pos hsearch
    rw [heq]
    rcases afterSearch_pather iterationLimit p entity pos
      (runSearch (mkAgent pos) isPassable entity entity.centrePos p.mCellSize iterationLimit)
      with hf | ht
    · rw [hf.2]
      refine ⟨hinv, ?_⟩
      intro hres
      rw [hf.1] at hres
      cases hres
    · have hnew : CursorInRange ⟨pos, reconstructPath
          (runSearch (mkAgent pos) isPassable entity entity.centrePos p.mCellSize
            iterationLimit).closedList, 0⟩ := ⟨le_refl 0, Int.ofNat_nonneg _⟩
      constructor
      · intro e d hd
        rw [ht.2] at hd
        by_cases he : e = entity.ident
        · subst he
          rw [AList.lookup_insert] at hd
          cases hd
          exact hnew
        · rw [AList.lookup_insert_ne he] at hd
          exact hinv e d hd
      · intro _
        unfold GridPather.pathData
        rw [ht.2, AList.lookup_insert]
        exact ⟨rfl, hnew⟩
  · intro agent hagent delta world
    obtain ⟨p1, world1, calls, hrun, hspec⟩ :=
      timerUpdated_entries p agent hagent delta world (fun e d hd => (hinv e d hd).1)
    refine ⟨p1, world1, calls, hrun, ?_, ?_⟩
    · intro e d1 hd1
      cases hd : p.mData.lookup e with
      | none =>
        rw [(hspec e).1 hd] at hd1
        cases hd1
      | some d =>
        obtain ⟨hlow, hhigh⟩ := hinv e d hd
        by_cases hlt : d.mCurrentNodeIndex < (d.mNodes.length : Int)
        · rcases ((hspec e).2 d hd).1 hlt with hsame | hnext
          · rw [hsame] at hd1
            cases hd1
            exact ⟨hlow, hhigh⟩
          · rw [hnext] at hd1
            cases hd1
            constructor
            · show 0 ≤ d.mCurrentNodeIndex + 1
              omega
            · show d.mCurrentNodeIndex + 1 ≤ (d.mNodes.length : Int)
              omega
        · rw [(((hspec e).2 d hd).2 hlt).1] at hd1
          cases hd1
    · intro e d hd heq
      exact (((hspec e).2 d hd).2 (by omega)).1
  · intro e e1 d hd
    by_cases he : e1 = e
    · subst he
      have : (p.cancelEntityMovement e1).mData.lookup e1 = none := AList.lookup_erase _ _
      rw [this] at hd
      cases hd
    · have : (p.cancelEntityMovement e).mData.lookup e1 = p.mData.lookup e1 :=
        AList.lookup_erase_ne he
      rw [this] at hd
      exact hinv e1 d hd

/-- C11, witness: entity 1 is tracked with one waypoint and the cursor 0. -/
theorem cursor_in_range_invariant_witness :
    TableInRange trackingPather.mData ∧
      (∀ e, TableInRange (trackingPather.cancelEntityMovement e).mData) ∧
      ∃ p1 world1 calls, trackingPather.timerUpdated (1 / 60) () = some (p1, world1, calls) ∧
        TableInRange p1.mData :=
  have hinv : TableInRange trackingPather.mData := fun e d hd => by
    rw [(trackingPather_lookup e d hd).2]
    unfold CursorInRange
    decide
  ⟨hinv, (cursor_in_range_invariant trackingPather hinv).2.2,
    ((cursor_in_range_invariant trackingPather hinv).2.1 arriveAtOnce rfl (1 / 60) ()).elim
      (fun p1 h1 => h1.elim (fun world1 h2 => h2.elim (fun calls h3 =>
        ⟨p1, world1, calls, h3.1, h3.2.1⟩)))⟩


/-! ## The start is the goal (C17) -/

/-- The first selection takes the start node, the only node of the open list. -/
theorem selectLowest_initial (startPos : QPointF) :
    selectLowest (initialSearchState startPos) =
      some (GridPathNode.new startPos,
        ⟨[], [GridPathNode.new startPos], some (GridPathNode.new startPos), 0, 0, []⟩) := rfl

/-- When the start node passes the goal test the loop is left in its first
pass, after the selection: nothing is expanded and `isPassable` is not called. -/
theorem runSearch_start_is_goal (ag : GridPathAgent) (isPassable : PassabilityAgent)
    (entity : QuickEntity) (startPos : QPointF) (c : Int) (limit : Nat)
    (hgoal : ag.isPathComplete entity startPos (GridPathNode.new startPos) = true) :
    runSearch ag isPassable entity startPos c limit =
      ⟨[], [GridPathNode.new startPos], some (GridPathNode.new startPos), 0, 0, []⟩ := by
  unfold runSearch
  unfold searchLoop
  rw [selectLowest_initial]
  simp only
  rw [if_pos hgoal]

/-- C17: when validation passed, no valid path is cached and the start node
passes the goal test, `moveEntityTo` returns true after one selection and no
expansion: the closed list is the start node alone, the iteration count is 0
and `isPassable` was called for the start position only. The entity is tracked
with a valid path data of zero waypoints and cursor 0, and the next
`timerUpdated` removes the entity without a `steerTo` call for it. -/
theorem moveEntityTo_start_is_goal {σ : Type} (mkAgent : QPointF → GridPathAgent)
    (p : GridPather σ) (entity : QuickEntity) (pos : QPointF) (t : Nat)
    (isPassable : PassabilityAgent) (s : SteeringAgent σ) (hT : p.mTimer = some t)
    (hP : p.mPassabilityAgent = some isPassable) (hS : p.mSteeringAgent = some s)
    (hpass : isPassable entity.centrePos entity = true)
    (hx : cellCentreDiff entity.centrePos.x p.mCellSize = some 0)
    (hy : cellCentreDiff entity.centrePos.y p.mCellSize = some 0)
    (hmiss : ∀ cache, p.mPathCache = some cache → (cache.cachedData entity pos).isValid = false)
    (hgoal : (mkAgent pos).isPathComplete entity entity.centrePos
      (GridPathNode.new entity.centrePos) = true) :
    ∃ r, p.moveEntityTo mkAgent (some entity) pos = some r ∧ r.result = true ∧
      r.search = some ⟨[], [GridPathNode.new entity.centrePos],
        some (GridPathNode.new entity.centrePos), 0, 0, []⟩ ∧
      r.queries = [entity.centrePos] ∧
      r.pather.pathData entity.ident = ⟨pos, [], 0⟩ ∧
      (r.pather.pathData entity.ident).isValid = true ∧
      ∀ (delta : ℚ) (world : σ),
        (∀ e d, p.mData.lookup e = some d → 0 ≤ d.mCurrentNodeIndex) →
        ∃ p1 world1 calls, r.pather.timerUpdated delta world = some (p1, world1, calls) ∧
          p1.mData.lookup entity.ident = none ∧
          calls.filter (fun c => decide (c.entity = entity.ident)) = [] := by
  have hrun := runSearch_start_is_goal (mkAgent pos) isPassable entity entity.centrePos
    p.mCellSize iterationLimit hgoal
  have hcall : p.moveEntityTo mkAgent (some entity) pos =
      some (p.afterSearch iterationLimit entity pos
        ⟨[], [GridPathNode.new entity.centrePos], some (GridPathNode.new entity.centrePos),
          0, 0, []⟩) := by
    unfold GridPather.moveEntityTo
    rw [moveEntityToWith_valid iterationLimit mkAgent p entity pos t isPassable s hT hP hS
      hpass hx hy, lookupOrSearch_miss iterationLimit mkAgent p isPassable entity pos hmiss,
      hrun]
  have hdata : (p.afterSearch iterationLimit entity pos
      ⟨[], [GridPathNode.new entity.centrePos], some (GridPathNode.new entity.centrePos),
        0, 0, []⟩).pather.mData = p.mData.insert entity.ident ⟨pos, [], 0⟩ := rfl
  have hagent : (p.afterSearch iterationLimit entity pos
      ⟨[], [GridPathNode.new entity.centrePos], some (GridPathNode.new entity.centrePos),
        0, 0, []⟩).pather.mSteeringAgent = some s := hS
  have hlook : (p.afterSearch iterationLimit entity pos
      ⟨[], [GridPathNode.new entity.centrePos], some (GridPathNode.new entity.centrePos),
        0, 0, []⟩).pather.mData.lookup entity.ident = some ⟨pos, [], 0⟩ := by
    rw [hdata, AList.lookup_insert]
  refine ⟨_, hcall, rfl, rfl, rfl, ?_, ?_, ?_⟩
  · unfold GridPather.pathData
    rw [hlook]
  · unfold GridPather.pathData
    rw [hlook]
    rfl
  · intro delta world hcur
    obtain ⟨p1, world1, calls, hrun1, hspec⟩ :=
      timerUpdated_entries _ s hagent delta world (by
        intro e d hd
        rw [hdata] at hd
        by_cases he : e = entity.ident
        · subst he
          rw [AList.lookup_insert] at hd
          cases hd
          exact le_refl 0
        · rw [AList.lookup_insert_ne he] at hd
          exact hcur e d hd)
    exact ⟨p1, world1, calls, hrun1, ((hspec entity.ident).2 _ hlook).2 (lt_irrefl (0 : Int))⟩

/-- C17, witness: the target of entity 1 is the cell centre it stands on. -/
theorem moveEntityTo_start_is_goal_witness :
    ∃ r, openPather.moveEntityTo baselineAgent (some entityA) ⟨16, 16⟩ = some r ∧
      r.result = true ∧
      r.search = some ⟨[], [GridPathNode.new entityA.centrePos],
        some (GridPathNode.new entityA.centrePos), 0, 0, []⟩ ∧
      r.queries = [entityA.centrePos] ∧
      r.pather.pathData entityA.ident = ⟨⟨16, 16⟩, [], 0⟩ ∧
      (r.pather.pathData entityA.ident).isValid = true ∧
      ∀ (delta : ℚ) (world : Unit),
        (∀ e d, openPather.mData.lookup e = some d → 0 ≤ d.mCurrentNodeIndex) →
        ∃ p1 world1 calls, r.pather.timerUpdated delta world = some (p1, world1, calls) ∧
          p1.mData.lookup entityA.ident = none ∧
          calls.filter (fun c => decide (c.entity = entityA.ident)) = [] :=
  moveEntityTo_start_is_goal baselineAgent openPather entityA ⟨16, 16⟩ 0 openGrid arriveAtOnce
    rfl rfl rfl rfl (by decide!) (by decide!)
    (fun cache hc => by cases hc; rfl) (by decide!)

/-! ## The five by five grid (C15) -/

/-- C15, counterexample: on the five by five grid, from (16, 16) to (144, 144),
`moveEntityTo` returns true and the installed path has 8 waypoints, not 4. -/
theorem moveEntityTo_five_by_five_eight_waypoints :
    (fiveByFivePather.moveEntityTo baselineAgent (some entityA) ⟨144, 144⟩).map
        (fun r => (r.result, (r.pather.pathData entityA.ident).mNodes.length,
          decide ((r.pather.pathData entityA.ident).mNodes.length = 4))) =
      some (true, 8, false) := by
  decide!

/-- C15, amended: on the five by five grid with cell size 32 (the oracle accepts
the 25 cell centres and nothing else), from (16, 16) to (144, 144),
`moveEntityTo` returns true and the installed path has exactly 8 waypoints,
down the first column and along the last row; each waypoint is one cell step
from the one before, the first from the start, and the last is the target. -/
theorem moveEntityTo_five_by_five :
    (∀ pos e, fiveByFive pos e = true ↔
      ∃ i j : Fin 5, pos = ⟨16 + 32 * (i : ℚ), 16 + 32 * (j : ℚ)⟩) ∧
    ∃ r, fiveByFivePather.moveEntityTo baselineAgent (some entityA) ⟨144, 144⟩ = some r ∧
      r.result = true ∧
      (r.pather.pathData entityA.ident).mNodes.map GridPathNode.pos =
        [⟨16, 48⟩, ⟨16, 80⟩, ⟨16, 112⟩, ⟨16, 144⟩, ⟨48, 144⟩, ⟨80, 144⟩, ⟨112, 144⟩,
          ⟨144, 144⟩] ∧
      (r.pather.pathData entityA.ident).mNodes.length = 8 ∧
      List.Chain (CellStep 32) entityA.centrePos
        ((r.pather.pathData entityA.ident).mNodes.map GridPathNode.pos) ∧
      ((r.pather.pathData entityA.ident).mNodes.map GridPathNode.pos).getLast? =
        some ⟨144, 144⟩ ∧
      (r.pather.pathData entityA.ident).mTargetPos = ⟨144, 144⟩ ∧
      (r.pather.pathData entityA.ident).mCurrentNodeIndex = 0 := by
  constructor
  · intro pos e
    obtain ⟨x, y⟩ := pos
    unfold fiveByFive
    simp only [Bool.and_eq_true, decide_eq_true_eq, List.mem_cons, List.mem_singleton,
      List.not_mem_nil, or_false, QPointF.mk.injEq]
    constructor
    · rintro ⟨hx, hy⟩
      have hx' : ∃ i : Fin 5, x = 16 + 32 * (i : ℚ) := by
        rcases hx with h | h | h | h | h
        · exact ⟨⟨0, by decide⟩, by rw [h]; norm_num⟩
        · exact ⟨⟨1, by decide⟩, by rw [h]; norm_num⟩
        · exact ⟨⟨2, by decide⟩, by rw [h]; norm_num⟩
        · exact ⟨⟨3, by decide⟩, by rw [h]; norm_num⟩
        · exact ⟨⟨4, by decide⟩, by rw [h]; norm_num⟩
      have hy' : ∃ j : Fin 5, y = 16 + 32 * (j : ℚ) := by
        rcases hy with h | h | h | h | h
        · exact ⟨⟨0, by decide⟩, by rw [h]; norm_num⟩
        · exact ⟨⟨1, by decide⟩, by rw [h]; norm_num⟩
        · exact ⟨⟨2, by decide⟩, by rw [h]; norm_num⟩
        · exact ⟨⟨3, by decide⟩, by rw [h]; norm_num⟩
        · exact ⟨⟨4, by decide⟩, by rw [h]; norm_num⟩
      obtain ⟨i, hi⟩ := hx'
      obtain ⟨j, hj⟩ := hy'
      exact ⟨i, j, hi, hj⟩
    · rintro ⟨i, j, hi, hj⟩
      subst hi hj
      constructor
      · fin_cases i <;> norm_num
      · fin_cases j <;> norm_num
  · have hcall : fiveByFivePather.moveEntityTo baselineAgent (some entityA) ⟨144, 144⟩ =
        some (fiveByFivePather.lookupOrSearch iterationLimit baselineAgent fiveByFive entityA
          ⟨144, 144⟩) :=
      moveEntityToWith_valid iterationLimit baselineAgent fiveByFivePather entityA ⟨144, 144⟩ 0
        fiveByFive arriveAtOnce rfl rfl rfl (by decide!) (by decide!) (by decide!)
    have hres : (fiveByFivePather.lookupOrSearch iterationLimit baselineAgent fiveByFive entityA
        ⟨144, 144⟩).result = true := by decide!
    have hsearch : (fiveByFivePather.lookupOrSearch iterationLimit baselineAgent fiveByFive
        entityA ⟨144, 144⟩).search.isSome = true := by decide!
    obtain ⟨hlook, _, _⟩ := lookupOrSearch_searched iterationLimit baselineAgent
      fiveByFivePather fiveByFive entityA ⟨144, 144⟩ hres hsearch
    have hpd : (fiveByFivePather.lookupOrSearch iterationLimit baselineAgent fiveByFive entityA
        ⟨144, 144⟩).pather.pathData entityA.ident =
        ⟨⟨144, 144⟩, reconstructPath (runSearch (baselineAgent ⟨144, 144⟩) fiveByFive entityA
          entityA.centrePos fiveByFivePather.mCellSize iterationLimit).closedList, 0⟩ := by
      unfold GridPather.pathData
      rw [hlook]
    have hchain := (reconstructPath_linked 32 (by decide) entityA.centrePos _
      (listsLinked_runSearch (baselineAgent ⟨144, 144⟩) fiveByFive entityA entityA.centrePos
        32 iterationLimit)).2.2
    refine ⟨_, hcall, hres, by decide!, by decide!, ?_, by decide!, by decide!, by decide!⟩
    rw [hpd]
    exact hchain


/-! ## The open list during expansion (C16) -/

/-- One direction of the expansion leaves the entries of the open list as they
are and adds at most one node at the end. -/
theorem expandDirection_openList_append (ag : GridPathAgent) (isPassable : PassabilityAgent)
    (entity : QuickEntity) (c : Int) (sel : GridPathNode) (st : SearchState) (dir : QPointF) :
    ∃ added, (expandDirection ag isPassable entity c sel st dir).openList =
      st.openList ++ added := by
  rw [expandDirection_eq]
  simp only
  split
  · exact ⟨_, rfl⟩
  · exact ⟨[], (List.append_nil _).symm⟩

/-- C16: the expansion of a selected node never changes an entry of the open
list, it only adds nodes at the end, whatever the start costs are. In the
search on the detour grid from (144, 48) to (16, 80), pass 7 selects the node at
(112, 16) with start cost 64; its neighbour at (80, 16) is passable, not closed
and on the open list with the stored start cost 160 and the parent at
(80, 48); the start cost via the selected node is 96, strictly lower, and
after the pass the entry is the same, stored start cost 160 and parent (80, 48).
The call of `moveEntityTo` returns true after 9 iterations, the entry still on
the open list as it was. On the grid `mazeCells` the path installed from
(80, 144) to (112, 16) has 9 waypoints, though a way of 7 cell steps over
passable cells exists. -/
theorem expansion_keeps_open_entries :
    (∀ (ag : GridPathAgent) (isPassable : PassabilityAgent) (entity : QuickEntity) (c : Int)
        (sel : GridPathNode) (st : SearchState),
        ∃ added, (expandAndCount ag isPassable entity c sel st).openList =
          st.openList ++ added) ∧
      (selectedAt (baselineAgent ⟨16, 80⟩) detourGrid entityB entityB.centrePos 32 6).map
          (fun sel => (sel.pos, sel.startCost)) = some (⟨112, 16⟩, 64) ∧
      detourGrid ⟨80, 16⟩ entityB = true ∧
      (stateAfter (baselineAgent ⟨16, 80⟩) detourGrid entityB entityB.centrePos 32 6).map
          (fun st => (st.closedList.any (PathNodePosComp (GridPathNode.new ⟨80, 16⟩)),
            (st.openList.find? (PathNodePosComp (GridPathNode.new ⟨80, 16⟩))).map
              (fun entry => (entry.startCost, entry.parent.map GridPathNode.pos)))) =
        some (false, some (160, some ⟨80, 48⟩)) ∧
      ((stateAfter (baselineAgent ⟨16, 80⟩) detourGrid entityB entityB.centrePos 32 6).bind
          (fun st => (st.openList.find? (PathNodePosComp (GridPathNode.new ⟨80, 16⟩))).bind
            (fun entry =>
              (selectedAt (baselineAgent ⟨16, 80⟩) detourGrid entityB entityB.centrePos 32
                6).map
                (fun sel => (linkTo (baselineAgent ⟨16, 80⟩) entry sel).startCost)))) =
        some 96 ∧
      (stateAfter (baselineAgent ⟨16, 80⟩) detourGrid entityB entityB.centrePos 32 7).map
          (fun st => (st.openList.find? (PathNodePosComp (GridPathNode.new ⟨80, 16⟩))).map
            (fun entry => (entry.startCost, entry.parent.map GridPathNode.pos))) =
        some (some (160, some ⟨80, 48⟩)) ∧
      (detourPather.moveEntityTo baselineAgent (some entityB) ⟨16, 80⟩).map
          (fun r => (r.result, r.search.map (fun st => st.iterations))) =
        some (true, some 9) ∧
      ((detourPather.moveEntityTo baselineAgent (some entityB) ⟨16, 80⟩).bind
          (fun r => r.search.bind (fun st =>
            st.openList.find? (PathNodePosComp (GridPathNode.new ⟨80, 16⟩))))).map
          (fun entry => (entry.startCost, entry.parent.map GridPathNode.pos)) =
        some (160, some ⟨80, 48⟩) ∧
      (mazePather.moveEntityTo baselineAgent (some entityC) ⟨112, 16⟩).map
          (fun r => (r.result, (r.pather.pathData entityC.ident).mNodes.length)) =
        some (true, 9) ∧
      mazeShortWay.length = 7 ∧ mazeShortWay.all (fun pos => mazeGrid pos entityC) = true ∧
      ((entityC.centrePos :: mazeShortWay).zip mazeShortWay).all
          (fun ab => decide (|ab.2.x - ab.1.x| + |ab.2.y - ab.1.y| = 32)) = true ∧
      mazeShortWay.getLast? = some ⟨112, 16⟩ := by
  refine ⟨?_, by decide!, by decide!, by decide!, by decide!, by decide!, by decide!,
    by decide!, by decide!, rfl, by decide!, by decide!, by decide!⟩
  intro ag isPassable entity c sel st
  show ∃ added, (expandNode ag isPassable entity c sel st).openList = st.openList ++ added
  apply expandNode_induct ag isPassable entity c sel
    (fun st1 => ∃ added, st1.openList = st.openList ++ added)
  · intro st1 dir _ h
    obtain ⟨a1, h1⟩ := h
    obtain ⟨a2, h2⟩ := expandDirection_openList_append ag isPassable entity c sel st1 dir
    exact ⟨a1 ++ a2, by rw [h2, h1, List.append_assoc]⟩
  · exact ⟨[], (List.append_nil _).symm⟩


/-! ## Termination and resource bounds (C18) -/

theorem expandAndCount_queries (ag : GridPathAgent) (isPassable : PassabilityAgent)
    (entity : QuickEntity) (c : Int) (sel : GridPathNode) (st : SearchState) :
    (expandAndCount ag isPassable entity c sel st).queries.length = st.queries.length + 4 := by
  show (expandNode ag isPassable entity c sel st).queries.length = _
  unfold expandNode straightDirections
  simp only [List.foldl, expandDirection_eq, List.length_append, List.length_singleton]

/-- The counters of the loop: from a state at the head of a pass with as many
closed nodes as iterations, four queries for each iteration and fewer than
`limit` iterations, the loop ends with at most `limit` iterations, at most
`limit` closed nodes and four queries for each iteration. -/
theorem searchLoop_counts (ag : GridPathAgent) (isPassable : PassabilityAgent)
    (entity : QuickEntity) (startPos : QPointF) (c : Int) (limit : Nat) :
    ∀ (fuel : Nat) (st : SearchState), st.closedList.length = st.iterations →
      st.queries.length = 4 * st.iterations → st.iterations < limit →
      (searchLoop ag isPassable entity startPos c limit fuel st).iterations ≤ limit ∧
        (searchLoop ag isPassable entity startPos c limit fuel st).closedList.length ≤ limit ∧
        (searchLoop ag isPassable entity startPos c limit fuel st).queries.length =
          4 * (searchLoop ag isPassable entity startPos c limit fuel st).iterations := by
  have hstep : ∀ (st st1 : SearchState) (sel : GridPathNode),
      st.closedList.length = st.iterations → st.queries.length = 4 * st.iterations →
      selectLowest st = some (sel, st1) →
      (st1.iterations = st.iterations ∧ st1.closedList.length = st.iterations + 1 ∧
        st1.queries.length = 4 * st1.iterations) ∧
      ((expandAndCount ag isPassable entity c sel st1).iterations = st.iterations + 1 ∧
        (expandAndCount ag isPassable entity c sel st1).closedList.length =
          (expandAndCount ag isPassable entity c sel st1).iterations ∧
        (expandAndCount ag isPassable entity c sel st1).queries.length =
          4 * (expandAndCount ag isPassable entity c sel st1).iterations) := by
    intro st st1 sel h1 h2 hs
    obtain ⟨_, i, _, _, _, heq⟩ := selectLowest_inv st st1 sel hs
    have hi : st1.iterations = st.iterations := by rw [heq]
    have hcl : st1.closedList.length = st.iterations + 1 := by
      rw [heq]
      simp [h1]
    have hq : st1.queries.length = 4 * st1.iterations := by
      rw [heq]
      exact h2
    refine ⟨⟨hi, hcl, hq⟩, ?_, ?_, ?_⟩
    · rw [expandAndCount_iterations, hi]
    · rw [expandAndCount_closedList, expandAndCount_iterations, hcl, hi]
    · rw [expandAndCount_queries, expandAndCount_iterations, hq]
      omega
  intro fuel
  induction fuel with
  | zero =>
    intro st h1 h2 h3
    unfold searchLoop
    cases hs : selectLowest st with
    | none =>
      simp only
      exact ⟨by omega, by omega, h2⟩
    | some r =>
      obtain ⟨sel, st1⟩ := r
      obtain ⟨⟨ha, hb, hc⟩, hd, he, hf⟩ := hstep st st1 sel h1 h2 hs
      simp only
      by_cases hg : ag.isPathComplete entity startPos sel = true
      · rw [if_pos hg]
        exact ⟨by omega, by omega, hc⟩
      · rw [if_neg hg]
        split <;> exact ⟨by omega, by omega, hf⟩
  | succ fuel ih =>
    intro st h1 h2 h3
    rw [searchLoop]
    cases hs : selectLowest st with
    | none =>
      simp only
      exact ⟨by omega, by omega, h2⟩
    | some r =>
      obtain ⟨sel, st1⟩ := r
      obtain ⟨⟨ha, hb, hc⟩, hd, he, hf⟩ := hstep st st1 sel h1 h2 hs
      simp only
      by_cases hg : ag.isPathComplete entity startPos sel = true
      · rw [if_pos hg]
        exact ⟨by omega, by omega, hc⟩
      · rw [if_neg hg]
        by_cases hcond : (expandAndCount ag isPassable entity c sel st1).iterations < limit ∧
            ¬ (expandAndCount ag isPassable entity c sel st1).openList.isEmpty = true
        · rw [if_pos hcond]
          exact ih _ he hf hcond.1
        · rw [if_neg hcond]
          exact ⟨by omega, by omega, hf⟩

/-- The search ends with at most `limit` iterations and closed nodes and with
four passability queries for each iteration. -/
theorem runSearch_counts (ag : GridPathAgent) (isPassable : PassabilityAgent)
    (entity : QuickEntity) (startPos : QPointF) (c : Int) (limit : Nat) (hlimit : 1 ≤ limit) :
    (runSearch ag isPassable entity startPos c limit).iterations ≤ limit ∧
      (runSearch ag isPassable entity startPos c limit).closedList.length ≤ limit ∧
      (runSearch ag isPassable entity startPos c limit).queries.length =
        4 * (runSearch ag isPassable entity startPos c limit).iterations :=
  searchLoop_counts ag isPassable entity startPos c limit limit (initialSearchState startPos)
    rfl rfl hlimit

/-- More fuel than `limit` does not change the state the search ends in. -/
theorem searchLoop_fuel_ge (ag : GridPathAgent) (isPassable : PassabilityAgent)
    (entity : QuickEntity) (startPos : QPointF) (c : Int) (limit : Nat) (st : SearchState) :
    ∀ (extra : Nat),
      searchLoop ag isPassable entity startPos c limit (limit + extra) st =
        searchLoop ag isPassable entity startPos c limit limit st := by
  intro extra
  induction extra with
  | zero => rfl
  | succ extra ih =>
    rw [← ih]
    exact searchLoop_fuel ag isPassable entity startPos c limit (limit + extra) st (by omega)

/-- The walk over the parent references of a well linked node ends at a node
without a parent, at the start position. -/
theorem wellLinked_lineage_head (c : Int) (startPos : QPointF) (n : GridPathNode)
    (h : WellLinked c startPos n) :
    ∃ root rest, n.lineage = root :: rest ∧ root.parent = none ∧ root.pos = startPos := by
  induction n with
  | origin p s t => exact ⟨_, [], rfl, rfl, h⟩
  | linked p s t par ih =>
    obtain ⟨root, rest, h1, h2, h3⟩ := ih h.2
    refine ⟨root, rest ++ [.linked p s t par], ?_, h2, h3⟩
    show par.lineage ++ _ = _
    rw [h1]
    rfl

/-- The outcome of the lookup and the search: at most `1 + 4 * limit`
passability queries, and a search state within the bounds. -/
theorem lookupOrSearch_bounds {σ : Type} (limit : Nat) (hlimit : 1 ≤ limit)
    (mkAgent : QPointF → GridPathAgent) (p : GridPather σ) (isPassable : PassabilityAgent)
    (ent : QuickEntity) (pos : QPointF) :
    (p.lookupOrSearch limit mkAgent isPassable ent pos).queries.length ≤ 1 + 4 * limit ∧
      ∀ st, (p.lookupOrSearch limit mkAgent isPassable ent pos).search = some st →
        st = runSearch (mkAgent pos) isPassable ent ent.centrePos p.mCellSize limit := by
  obtain ⟨h1, _, h3⟩ :=
    runSearch_counts (mkAgent pos) isPassable ent ent.centrePos p.mCellSize limit hlimit
  obtain ⟨h4, h5⟩ := afterSearch_search limit p ent pos
    (runSearch (mkAgent pos) isPassable ent ent.centrePos p.mCellSize limit)
  have hs : (p.afterSearch limit ent pos
        (runSearch (mkAgent pos) isPassable ent ent.centrePos p.mCellSize limit)).queries.length
        ≤ 1 + 4 * limit ∧
      ∀ st, (p.afterSearch limit ent pos
        (runSearch (mkAgent pos) isPassable ent ent.centrePos p.mCellSize limit)).search
          = some st →
        st = runSearch (mkAgent pos) isPassable ent ent.centrePos p.mCellSize limit := by
    constructor
    · rw [h5, List.length_cons, h3]
      omega
    · intro st hst
      rw [h4] at hst
      exact (Option.some.inj hst).symm
  unfold GridPather.lookupOrSearch
  cases hc : p.mPathCache with
  | none => exact hs
  | some cache =>
    simp only
    by_cases hv : (cache.cachedData ent pos).isValid = true
    · rw [if_pos hv]
      exact ⟨by simp, fun st hst => by cases hst⟩
    · rw [if_neg hv]
      exact hs

/-- When the cell-centre check is defined for the entity, a call of
`moveEntityTo` returns: false from the validation, after at most one
passability query, or with the outcome of the cache lookup and the search. -/
theorem moveEntityToWith_cases {σ : Type} (limit : Nat) (mkAgent : QPointF → GridPathAgent)
    (p : GridPather σ) (entity : Option QuickEntity) (pos : QPointF)
    (hdef : ∀ ent, entity = some ent →
      (cellCentreDiff ent.centrePos.x p.mCellSize).isSome = true ∧
        (cellCentreDiff ent.centrePos.y p.mCellSize).isSome = true) :
    (∃ q : List QPointF, q.length ≤ 1 ∧
        p.moveEntityToWith limit mkAgent entity pos = some ⟨false, p, q, 0, none⟩) ∨
      ∃ ent isPassable, entity = some ent ∧ p.mPassabilityAgent = some isPassable ∧
        p.moveEntityToWith limit mkAgent entity pos =
          some (p.lookupOrSearch limit mkAgent isPassable ent pos) := by
  unfold GridPather.moveEntityToWith
  cases entity with
  | none => exact Or.inl ⟨[], by simp, rfl⟩
  | some ent =>
    obtain ⟨hdx, hdy⟩ := hdef ent rfl
    obtain ⟨xDiff, hx⟩ := Option.isSome_iff_exists.mp hdx
    obtain ⟨yDiff, hy⟩ := Option.isSome_iff_exists.mp hdy
    cases hT : p.mTimer with
    | none => exact Or.inl ⟨[], by simp, rfl⟩
    | some t =>
      cases hP : p.mPassabilityAgent with
      | none => exact Or.inl ⟨[], by simp, rfl⟩
      | some isPassable =>
        cases hS : p.mSteeringAgent with
        | none => exact Or.inl ⟨[], by simp, rfl⟩
        | some s =>
          simp only
          by_cases hpass : (!isPassable ent.centrePos ent) = true
          · rw [if_pos hpass]
            exact Or.inl ⟨[ent.centrePos], by simp, rfl⟩
          · rw [if_neg hpass, hx, hy]
            simp only
            by_cases hd : xDiff ≠ 0 ∨ yDiff ≠ 0
            · rw [if_pos hd]
              exact Or.inl ⟨[ent.centrePos], by simp, rfl⟩
            · rw [if_neg hd]
              exact Or.inr ⟨ent, isPassable, rfl, rfl, rfl⟩

/-- C18: with no entity tracked `setCellSize(0)` is accepted, and the next
`moveEntityTo` takes a remainder by zero in the cell-centre check: the call has
no result. For every pather, entity, target, passability oracle and policy for
which the cell-centre check is defined (a cell size other than 0, conversions
to `int` in range), `moveEntityTo` returns. It makes at most
`1 + 4 * iterationLimit` passability queries; when the search ran, the loop
selected at most `iterationLimit` nodes (the closed list), made four queries
for each of at most `iterationLimit` iterations, would end in the same state
with any larger supply of passes, and the walk over the parent references
from the last closed node visits at most as many nodes as the closed list has
and ends at a node without a parent, at the start position. -/
theorem moveEntityTo_terminates :
    (openPather.mData.entries = [] ∧ (openPather.setCellSize 0).mCellSize = 0 ∧
      (openGrid entityA.centrePos entityA = true) ∧
      ((openPather.setCellSize 0).moveEntityTo baselineAgent (some entityA) ⟨48, 16⟩).isNone
        = true) ∧
    ∀ (σ : Type) (mkAgent : QPointF → GridPathAgent) (p : GridPather σ)
      (entity : Option QuickEntity) (pos : QPointF),
      (∀ ent, entity = some ent →
        (cellCentreDiff ent.centrePos.x p.mCellSize).isSome = true ∧
          (cellCentreDiff ent.centrePos.y p.mCellSize).isSome = true) →
      ∃ r, p.moveEntityTo mkAgent entity pos = some r ∧
        r.queries.length ≤ 1 + 4 * iterationLimit ∧
        ∀ st, r.search = some st →
          st.closedList.length ≤ iterationLimit ∧ st.iterations ≤ iterationLimit ∧
          st.queries.length = 4 * st.iterations ∧
          (∃ ent isPassable, entity = some ent ∧ p.mPassabilityAgent = some isPassable ∧
            (∀ extra, searchLoop (mkAgent pos) isPassable ent ent.centrePos p.mCellSize
              iterationLimit (iterationLimit + extra) (initialSearchState ent.centrePos)
                = st) ∧
            ∀ node, st.closedList.getLast? = some node →
              node.lineage.length ≤ st.closedList.length ∧
              ∃ root rest, node.lineage = root :: rest ∧ root.parent = none ∧
                root.pos = ent.centrePos) := by
  refine ⟨⟨rfl, rfl, rfl, by decide!⟩, ?_⟩
  intro σ mkAgent p entity pos hdef
  rcases moveEntityToWith_cases iterationLimit mkAgent p entity pos hdef with
    ⟨q, hq, hcall⟩ | ⟨ent, isPassable, hent, hP, hcall⟩
  · refine ⟨_, hcall, ?_, ?_⟩
    · show q.length ≤ _
      omega
    · intro st hst
      cases hst
  · obtain ⟨hq, hst⟩ := lookupOrSearch_bounds iterationLimit (by decide) mkAgent p
      isPassable ent pos
    refine ⟨_, hcall, hq, ?_⟩
    intro st hs
    have heq := hst st hs
    obtain ⟨h1, h2, h3⟩ := runSearch_counts (mkAgent pos) isPassable ent
      ent.centrePos p.mCellSize iterationLimit (by decide)
    have hlinked := listsLinked_runSearch (mkAgent pos) isPassable ent ent.centrePos
      p.mCellSize iterationLimit
    rw [← heq] at h1 h2 h3 hlinked
    refine ⟨h2, h1, h3, ent, isPassable, hent, hP, ?_, ?_⟩
    · intro extra
      rw [searchLoop_fuel_ge, heq]
      rfl
    · intro node hnode
      have hmem : node ∈ st.closedList := List.mem_of_getLast?_eq_some hnode
      obtain ⟨hw, hsub⟩ := hlinked.closed node hmem
      exact ⟨hsub.length_le, wellLinked_lineage_head p.mCellSize ent.centrePos node hw⟩

/-- C18, witness: the search on the five by five grid towards (144, 144). -/
theorem moveEntityTo_terminates_witness :
    ∃ r, fiveByFivePather.moveEntityTo baselineAgent (some entityA) ⟨144, 144⟩ = some r ∧
      r.queries.length ≤ 1 + 4 * iterationLimit ∧
      ∀ st, r.search = some st →
        st.closedList.length ≤ iterationLimit ∧ st.iterations ≤ iterationLimit ∧
          st.queries.length = 4 * st.iterations :=
  (moveEntityTo_terminates.2 Unit baselineAgent fiveByFivePather (some entityA) ⟨144, 144⟩
    (fun ent hent => by
      cases hent
      exact ⟨by decide!, by decide!⟩)).elim
    (fun r h => ⟨r, h.1, h.2.1, fun st hst =>
      ⟨(h.2.2 st hst).1, (h.2.2 st hst).2.1, (h.2.2 st hst).2.2.1⟩⟩)

/-! ## Targets on an open grid, for every policy (C3) -/

end QuickPather
